import Mathlib

/-!
# SmartMandis: the product mapping service

A shallow embedding of `smartmandi_backend/services/productMappingService.js`
(class `ProductMappingService`) together with the properties of its identity
cache and identifier synthesis.

Conventions of the embedding.

* A JavaScript string is a Lean `String` (a text of Unicode characters); the
  string primitives are written on its list of characters.
* A value that arrives in a request body is a `JSValue`: a string, or a value
  of another type, of which the service can observe the truthiness only.
* The `Map` held in `productCache` is an insertion-ordered association list.
* `Date.now()` and the MongoDB collection behind the `Product` model are read
  from a `World`: one clock reading and one store snapshot per call.  A store
  of `none` is a store whose queries throw.
* An `async` method that changes `this` returns the new service state next to
  its result.  Where calls overlap in time, the method bodies are lists of
  instructions with the `await` points marked, run by an event loop (section
  "Calls in flight").
-/

set_option autoImplicit false

namespace SmartMandi

/-! ## The case tables behind `String.prototype.toLowerCase`

`toLowerCase` is the default case conversion of the Unicode Standard (the
engine calls it without a locale).  The tables below are those of Unicode 14.0,
sorted by their first code point. -/

/-- The simple lower-case mapping, in runs `(first, count, stride, image)`: the
code point `first + k * stride` with `k < count` goes to `image + k * stride`.
U+0130 is not listed; it is the one code point whose lower case is two
characters long. -/
def lowerCaseTable : List (Nat × Nat × Nat × Nat) :=
  [(0x0041, 26, 1, 0x0061), (0x00C0, 23, 1, 0x00E0), (0x00D8, 7, 1, 0x00F8), (0x0100, 24, 2, 0x0101),
   (0x0132, 3, 2, 0x0133), (0x0139, 8, 2, 0x013A), (0x014A, 23, 2, 0x014B), (0x0178, 1, 1, 0x00FF),
   (0x0179, 3, 2, 0x017A), (0x0181, 1, 1, 0x0253), (0x0182, 2, 2, 0x0183), (0x0186, 1, 1, 0x0254),
   (0x0187, 1, 1, 0x0188), (0x0189, 2, 1, 0x0256), (0x018B, 1, 1, 0x018C), (0x018E, 1, 1, 0x01DD),
   (0x018F, 1, 1, 0x0259), (0x0190, 1, 1, 0x025B), (0x0191, 1, 1, 0x0192), (0x0193, 1, 1, 0x0260),
   (0x0194, 1, 1, 0x0263), (0x0196, 1, 1, 0x0269), (0x0197, 1, 1, 0x0268), (0x0198, 1, 1, 0x0199),
   (0x019C, 1, 1, 0x026F), (0x019D, 1, 1, 0x0272), (0x019F, 1, 1, 0x0275), (0x01A0, 3, 2, 0x01A1),
   (0x01A6, 1, 1, 0x0280), (0x01A7, 1, 1, 0x01A8), (0x01A9, 1, 1, 0x0283), (0x01AC, 1, 1, 0x01AD),
   (0x01AE, 1, 1, 0x0288), (0x01AF, 1, 1, 0x01B0), (0x01B1, 2, 1, 0x028A), (0x01B3, 2, 2, 0x01B4),
   (0x01B7, 1, 1, 0x0292), (0x01B8, 1, 1, 0x01B9), (0x01BC, 1, 1, 0x01BD), (0x01C4, 1, 1, 0x01C6),
   (0x01C5, 1, 1, 0x01C6), (0x01C7, 1, 1, 0x01C9), (0x01C8, 1, 1, 0x01C9), (0x01CA, 1, 1, 0x01CC),
   (0x01CB, 9, 2, 0x01CC), (0x01DE, 9, 2, 0x01DF), (0x01F1, 1, 1, 0x01F3), (0x01F2, 2, 2, 0x01F3),
   (0x01F6, 1, 1, 0x0195), (0x01F7, 1, 1, 0x01BF), (0x01F8, 20, 2, 0x01F9), (0x0220, 1, 1, 0x019E),
   (0x0222, 9, 2, 0x0223), (0x023A, 1, 1, 0x2C65), (0x023B, 1, 1, 0x023C), (0x023D, 1, 1, 0x019A),
   (0x023E, 1, 1, 0x2C66), (0x0241, 1, 1, 0x0242), (0x0243, 1, 1, 0x0180), (0x0244, 1, 1, 0x0289),
   (0x0245, 1, 1, 0x028C), (0x0246, 5, 2, 0x0247), (0x0370, 2, 2, 0x0371), (0x0376, 1, 1, 0x0377),
   (0x037F, 1, 1, 0x03F3), (0x0386, 1, 1, 0x03AC), (0x0388, 3, 1, 0x03AD), (0x038C, 1, 1, 0x03CC),
   (0x038E, 2, 1, 0x03CD), (0x0391, 17, 1, 0x03B1), (0x03A3, 9, 1, 0x03C3), (0x03CF, 1, 1, 0x03D7),
   (0x03D8, 12, 2, 0x03D9), (0x03F4, 1, 1, 0x03B8), (0x03F7, 1, 1, 0x03F8), (0x03F9, 1, 1, 0x03F2),
   (0x03FA, 1, 1, 0x03FB), (0x03FD, 3, 1, 0x037B), (0x0400, 16, 1, 0x0450), (0x0410, 32, 1, 0x0430),
   (0x0460, 17, 2, 0x0461), (0x048A, 27, 2, 0x048B), (0x04C0, 1, 1, 0x04CF), (0x04C1, 7, 2, 0x04C2),
   (0x04D0, 48, 2, 0x04D1), (0x0531, 38, 1, 0x0561), (0x10A0, 38, 1, 0x2D00), (0x10C7, 1, 1, 0x2D27),
   (0x10CD, 1, 1, 0x2D2D), (0x13A0, 80, 1, 0xAB70), (0x13F0, 6, 1, 0x13F8), (0x1C90, 43, 1, 0x10D0),
   (0x1CBD, 3, 1, 0x10FD), (0x1E00, 75, 2, 0x1E01), (0x1E9E, 1, 1, 0x00DF), (0x1EA0, 48, 2, 0x1EA1),
   (0x1F08, 8, 1, 0x1F00), (0x1F18, 6, 1, 0x1F10), (0x1F28, 8, 1, 0x1F20), (0x1F38, 8, 1, 0x1F30),
   (0x1F48, 6, 1, 0x1F40), (0x1F59, 4, 2, 0x1F51), (0x1F68, 8, 1, 0x1F60), (0x1F88, 8, 1, 0x1F80),
   (0x1F98, 8, 1, 0x1F90), (0x1FA8, 8, 1, 0x1FA0), (0x1FB8, 2, 1, 0x1FB0), (0x1FBA, 2, 1, 0x1F70),
   (0x1FBC, 1, 1, 0x1FB3), (0x1FC8, 4, 1, 0x1F72), (0x1FCC, 1, 1, 0x1FC3), (0x1FD8, 2, 1, 0x1FD0),
   (0x1FDA, 2, 1, 0x1F76), (0x1FE8, 2, 1, 0x1FE0), (0x1FEA, 2, 1, 0x1F7A), (0x1FEC, 1, 1, 0x1FE5),
   (0x1FF8, 2, 1, 0x1F78), (0x1FFA, 2, 1, 0x1F7C), (0x1FFC, 1, 1, 0x1FF3), (0x2126, 1, 1, 0x03C9),
   (0x212A, 1, 1, 0x006B), (0x212B, 1, 1, 0x00E5), (0x2132, 1, 1, 0x214E), (0x2160, 16, 1, 0x2170),
   (0x2183, 1, 1, 0x2184), (0x24B6, 26, 1, 0x24D0), (0x2C00, 48, 1, 0x2C30), (0x2C60, 1, 1, 0x2C61),
   (0x2C62, 1, 1, 0x026B), (0x2C63, 1, 1, 0x1D7D), (0x2C64, 1, 1, 0x027D), (0x2C67, 3, 2, 0x2C68),
   (0x2C6D, 1, 1, 0x0251), (0x2C6E, 1, 1, 0x0271), (0x2C6F, 1, 1, 0x0250), (0x2C70, 1, 1, 0x0252),
   (0x2C72, 1, 1, 0x2C73), (0x2C75, 1, 1, 0x2C76), (0x2C7E, 2, 1, 0x023F), (0x2C80, 50, 2, 0x2C81),
   (0x2CEB, 2, 2, 0x2CEC), (0x2CF2, 1, 1, 0x2CF3), (0xA640, 23, 2, 0xA641), (0xA680, 14, 2, 0xA681),
   (0xA722, 7, 2, 0xA723), (0xA732, 31, 2, 0xA733), (0xA779, 2, 2, 0xA77A), (0xA77D, 1, 1, 0x1D79),
   (0xA77E, 5, 2, 0xA77F), (0xA78B, 1, 1, 0xA78C), (0xA78D, 1, 1, 0x0265), (0xA790, 2, 2, 0xA791),
   (0xA796, 10, 2, 0xA797), (0xA7AA, 1, 1, 0x0266), (0xA7AB, 1, 1, 0x025C), (0xA7AC, 1, 1, 0x0261),
   (0xA7AD, 1, 1, 0x026C), (0xA7AE, 1, 1, 0x026A), (0xA7B0, 1, 1, 0x029E), (0xA7B1, 1, 1, 0x0287),
   (0xA7B2, 1, 1, 0x029D), (0xA7B3, 1, 1, 0xAB53), (0xA7B4, 8, 2, 0xA7B5), (0xA7C4, 1, 1, 0xA794),
   (0xA7C5, 1, 1, 0x0282), (0xA7C6, 1, 1, 0x1D8E), (0xA7C7, 2, 2, 0xA7C8), (0xA7D0, 1, 1, 0xA7D1),
   (0xA7D6, 2, 2, 0xA7D7), (0xA7F5, 1, 1, 0xA7F6), (0xFF21, 26, 1, 0xFF41), (0x10400, 40, 1, 0x10428),
   (0x104B0, 36, 1, 0x104D8), (0x10570, 11, 1, 0x10597), (0x1057C, 15, 1, 0x105A3), (0x1058C, 7, 1, 0x105B3),
   (0x10594, 2, 1, 0x105BB), (0x10C80, 51, 1, 0x10CC0), (0x118A0, 32, 1, 0x118C0), (0x16E40, 32, 1, 0x16E60),
   (0x1E900, 34, 1, 0x1E922)]

/-- The code points with the property Cased that are not Case_Ignorable, in
ranges `(first, last)`. -/
def casedRanges : List (Nat × Nat) :=
  [(0x0041, 0x005A), (0x0061, 0x007A), (0x00AA, 0x00AA), (0x00B5, 0x00B5), (0x00BA, 0x00BA), (0x00C0, 0x00D6),
   (0x00D8, 0x00F6), (0x00F8, 0x01BA), (0x01BC, 0x01BF), (0x01C4, 0x0293), (0x0295, 0x02AF), (0x0370, 0x0373),
   (0x0376, 0x0377), (0x037B, 0x037D), (0x037F, 0x037F), (0x0386, 0x0386), (0x0388, 0x038A), (0x038C, 0x038C),
   (0x038E, 0x03A1), (0x03A3, 0x03F5), (0x03F7, 0x0481), (0x048A, 0x052F), (0x0531, 0x0556), (0x0560, 0x0588),
   (0x10A0, 0x10C5), (0x10C7, 0x10C7), (0x10CD, 0x10CD), (0x10D0, 0x10FA), (0x10FD, 0x10FF), (0x13A0, 0x13F5),
   (0x13F8, 0x13FD), (0x1C80, 0x1C88), (0x1C90, 0x1CBA), (0x1CBD, 0x1CBF), (0x1D00, 0x1D2B), (0x1D6B, 0x1D77),
   (0x1D79, 0x1D9A), (0x1E00, 0x1F15), (0x1F18, 0x1F1D), (0x1F20, 0x1F45), (0x1F48, 0x1F4D), (0x1F50, 0x1F57),
   (0x1F59, 0x1F59), (0x1F5B, 0x1F5B), (0x1F5D, 0x1F5D), (0x1F5F, 0x1F7D), (0x1F80, 0x1FB4), (0x1FB6, 0x1FBC),
   (0x1FBE, 0x1FBE), (0x1FC2, 0x1FC4), (0x1FC6, 0x1FCC), (0x1FD0, 0x1FD3), (0x1FD6, 0x1FDB), (0x1FE0, 0x1FEC),
   (0x1FF2, 0x1FF4), (0x1FF6, 0x1FFC), (0x2102, 0x2102), (0x2107, 0x2107), (0x210A, 0x2113), (0x2115, 0x2115),
   (0x2119, 0x211D), (0x2124, 0x2124), (0x2126, 0x2126), (0x2128, 0x2128), (0x212A, 0x212D), (0x212F, 0x2134),
   (0x2139, 0x2139), (0x213C, 0x213F), (0x2145, 0x2149), (0x214E, 0x214E), (0x2160, 0x217F), (0x2183, 0x2184),
   (0x24B6, 0x24E9), (0x2C00, 0x2C7B), (0x2C7E, 0x2CE4), (0x2CEB, 0x2CEE), (0x2CF2, 0x2CF3), (0x2D00, 0x2D25),
   (0x2D27, 0x2D27), (0x2D2D, 0x2D2D), (0xA640, 0xA66D), (0xA680, 0xA69B), (0xA722, 0xA76F), (0xA771, 0xA787),
   (0xA78B, 0xA78E), (0xA790, 0xA7CA), (0xA7D0, 0xA7D1), (0xA7D3, 0xA7D3), (0xA7D5, 0xA7D9), (0xA7F5, 0xA7F6),
   (0xA7FA, 0xA7FA), (0xAB30, 0xAB5A), (0xAB60, 0xAB68), (0xAB70, 0xABBF), (0xFB00, 0xFB06), (0xFB13, 0xFB17),
   (0xFF21, 0xFF3A), (0xFF41, 0xFF5A), (0x10400, 0x1044F), (0x104B0, 0x104D3), (0x104D8, 0x104FB), (0x10570, 0x1057A),
   (0x1057C, 0x1058A), (0x1058C, 0x10592), (0x10594, 0x10595), (0x10597, 0x105A1), (0x105A3, 0x105B1), (0x105B3, 0x105B9),
   (0x105BB, 0x105BC), (0x10C80, 0x10CB2), (0x10CC0, 0x10CF2), (0x118A0, 0x118DF), (0x16E40, 0x16E7F), (0x1D400, 0x1D454),
   (0x1D456, 0x1D49C), (0x1D49E, 0x1D49F), (0x1D4A2, 0x1D4A2), (0x1D4A5, 0x1D4A6), (0x1D4A9, 0x1D4AC), (0x1D4AE, 0x1D4B9),
   (0x1D4BB, 0x1D4BB), (0x1D4BD, 0x1D4C3), (0x1D4C5, 0x1D505), (0x1D507, 0x1D50A), (0x1D50D, 0x1D514), (0x1D516, 0x1D51C),
   (0x1D51E, 0x1D539), (0x1D53B, 0x1D53E), (0x1D540, 0x1D544), (0x1D546, 0x1D546), (0x1D54A, 0x1D550), (0x1D552, 0x1D6A5),
   (0x1D6A8, 0x1D6C0), (0x1D6C2, 0x1D6DA), (0x1D6DC, 0x1D6FA), (0x1D6FC, 0x1D714), (0x1D716, 0x1D734), (0x1D736, 0x1D74E),
   (0x1D750, 0x1D76E), (0x1D770, 0x1D788), (0x1D78A, 0x1D7A8), (0x1D7AA, 0x1D7C2), (0x1D7C4, 0x1D7CB), (0x1DF00, 0x1DF09),
   (0x1DF0B, 0x1DF1E), (0x1E900, 0x1E943), (0x1F130, 0x1F149), (0x1F150, 0x1F169), (0x1F170, 0x1F189)]

/-- The code points with the property Case_Ignorable, in ranges `(first, last)`. -/
def caseIgnorableRanges : List (Nat × Nat) :=
  [(0x0027, 0x0027), (0x002E, 0x002E), (0x003A, 0x003A), (0x005E, 0x005E), (0x0060, 0x0060), (0x00A8, 0x00A8),
   (0x00AD, 0x00AD), (0x00AF, 0x00AF), (0x00B4, 0x00B4), (0x00B7, 0x00B8), (0x02B0, 0x036F), (0x0374, 0x0375),
   (0x037A, 0x037A), (0x0384, 0x0385), (0x0387, 0x0387), (0x0483, 0x0489), (0x0559, 0x0559), (0x055F, 0x055F),
   (0x0591, 0x05BD), (0x05BF, 0x05BF), (0x05C1, 0x05C2), (0x05C4, 0x05C5), (0x05C7, 0x05C7), (0x05F4, 0x05F4),
   (0x0600, 0x0605), (0x0610, 0x061A), (0x061C, 0x061C), (0x0640, 0x0640), (0x064B, 0x065F), (0x0670, 0x0670),
   (0x06D6, 0x06DD), (0x06DF, 0x06E8), (0x06EA, 0x06ED), (0x070F, 0x070F), (0x0711, 0x0711), (0x0730, 0x074A),
   (0x07A6, 0x07B0), (0x07EB, 0x07F5), (0x07FA, 0x07FA), (0x07FD, 0x07FD), (0x0816, 0x082D), (0x0859, 0x085B),
   (0x0888, 0x0888), (0x0890, 0x0891), (0x0898, 0x089F), (0x08C9, 0x0902), (0x093A, 0x093A), (0x093C, 0x093C),
   (0x0941, 0x0948), (0x094D, 0x094D), (0x0951, 0x0957), (0x0962, 0x0963), (0x0971, 0x0971), (0x0981, 0x0981),
   (0x09BC, 0x09BC), (0x09C1, 0x09C4), (0x09CD, 0x09CD), (0x09E2, 0x09E3), (0x09FE, 0x09FE), (0x0A01, 0x0A02),
   (0x0A3C, 0x0A3C), (0x0A41, 0x0A42), (0x0A47, 0x0A48), (0x0A4B, 0x0A4D), (0x0A51, 0x0A51), (0x0A70, 0x0A71),
   (0x0A75, 0x0A75), (0x0A81, 0x0A82), (0x0ABC, 0x0ABC), (0x0AC1, 0x0AC5), (0x0AC7, 0x0AC8), (0x0ACD, 0x0ACD),
   (0x0AE2, 0x0AE3), (0x0AFA, 0x0AFF), (0x0B01, 0x0B01), (0x0B3C, 0x0B3C), (0x0B3F, 0x0B3F), (0x0B41, 0x0B44),
   (0x0B4D, 0x0B4D), (0x0B55, 0x0B56), (0x0B62, 0x0B63), (0x0B82, 0x0B82), (0x0BC0, 0x0BC0), (0x0BCD, 0x0BCD),
   (0x0C00, 0x0C00), (0x0C04, 0x0C04), (0x0C3C, 0x0C3C), (0x0C3E, 0x0C40), (0x0C46, 0x0C48), (0x0C4A, 0x0C4D),
   (0x0C55, 0x0C56), (0x0C62, 0x0C63), (0x0C81, 0x0C81), (0x0CBC, 0x0CBC), (0x0CBF, 0x0CBF), (0x0CC6, 0x0CC6),
   (0x0CCC, 0x0CCD), (0x0CE2, 0x0CE3), (0x0D00, 0x0D01), (0x0D3B, 0x0D3C), (0x0D41, 0x0D44), (0x0D4D, 0x0D4D),
   (0x0D62, 0x0D63), (0x0D81, 0x0D81), (0x0DCA, 0x0DCA), (0x0DD2, 0x0DD4), (0x0DD6, 0x0DD6), (0x0E31, 0x0E31),
   (0x0E34, 0x0E3A), (0x0E46, 0x0E4E), (0x0EB1, 0x0EB1), (0x0EB4, 0x0EBC), (0x0EC6, 0x0EC6), (0x0EC8, 0x0ECD),
   (0x0F18, 0x0F19), (0x0F35, 0x0F35), (0x0F37, 0x0F37), (0x0F39, 0x0F39), (0x0F71, 0x0F7E), (0x0F80, 0x0F84),
   (0x0F86, 0x0F87), (0x0F8D, 0x0F97), (0x0F99, 0x0FBC), (0x0FC6, 0x0FC6), (0x102D, 0x1030), (0x1032, 0x1037),
   (0x1039, 0x103A), (0x103D, 0x103E), (0x1058, 0x1059), (0x105E, 0x1060), (0x1071, 0x1074), (0x1082, 0x1082),
   (0x1085, 0x1086), (0x108D, 0x108D), (0x109D, 0x109D), (0x10FC, 0x10FC), (0x135D, 0x135F), (0x1712, 0x1714),
   (0x1732, 0x1733), (0x1752, 0x1753), (0x1772, 0x1773), (0x17B4, 0x17B5), (0x17B7, 0x17BD), (0x17C6, 0x17C6),
   (0x17C9, 0x17D3), (0x17D7, 0x17D7), (0x17DD, 0x17DD), (0x180B, 0x180F), (0x1843, 0x1843), (0x1885, 0x1886),
   (0x18A9, 0x18A9), (0x1920, 0x1922), (0x1927, 0x1928), (0x1932, 0x1932), (0x1939, 0x193B), (0x1A17, 0x1A18),
   (0x1A1B, 0x1A1B), (0x1A56, 0x1A56), (0x1A58, 0x1A5E), (0x1A60, 0x1A60), (0x1A62, 0x1A62), (0x1A65, 0x1A6C),
   (0x1A73, 0x1A7C), (0x1A7F, 0x1A7F), (0x1AA7, 0x1AA7), (0x1AB0, 0x1ACE), (0x1B00, 0x1B03), (0x1B34, 0x1B34),
   (0x1B36, 0x1B3A), (0x1B3C, 0x1B3C), (0x1B42, 0x1B42), (0x1B6B, 0x1B73), (0x1B80, 0x1B81), (0x1BA2, 0x1BA5),
   (0x1BA8, 0x1BA9), (0x1BAB, 0x1BAD), (0x1BE6, 0x1BE6), (0x1BE8, 0x1BE9), (0x1BED, 0x1BED), (0x1BEF, 0x1BF1),
   (0x1C2C, 0x1C33), (0x1C36, 0x1C37), (0x1C78, 0x1C7D), (0x1CD0, 0x1CD2), (0x1CD4, 0x1CE0), (0x1CE2, 0x1CE8),
   (0x1CED, 0x1CED), (0x1CF4, 0x1CF4), (0x1CF8, 0x1CF9), (0x1D2C, 0x1D6A), (0x1D78, 0x1D78), (0x1D9B, 0x1DFF),
   (0x1FBD, 0x1FBD), (0x1FBF, 0x1FC1), (0x1FCD, 0x1FCF), (0x1FDD, 0x1FDF), (0x1FED, 0x1FEF), (0x1FFD, 0x1FFE),
   (0x200B, 0x200F), (0x2018, 0x2019), (0x2024, 0x2024), (0x2027, 0x2027), (0x202A, 0x202E), (0x2060, 0x2064),
   (0x2066, 0x206F), (0x2071, 0x2071), (0x207F, 0x207F), (0x2090, 0x209C), (0x20D0, 0x20F0), (0x2C7C, 0x2C7D),
   (0x2CEF, 0x2CF1), (0x2D6F, 0x2D6F), (0x2D7F, 0x2D7F), (0x2DE0, 0x2DFF), (0x2E2F, 0x2E2F), (0x3005, 0x3005),
   (0x302A, 0x302D), (0x3031, 0x3035), (0x303B, 0x303B), (0x3099, 0x309E), (0x30FC, 0x30FE), (0xA015, 0xA015),
   (0xA4F8, 0xA4FD), (0xA60C, 0xA60C), (0xA66F, 0xA672), (0xA674, 0xA67D), (0xA67F, 0xA67F), (0xA69C, 0xA69F),
   (0xA6F0, 0xA6F1), (0xA700, 0xA721), (0xA770, 0xA770), (0xA788, 0xA78A), (0xA7F2, 0xA7F4), (0xA7F8, 0xA7F9),
   (0xA802, 0xA802), (0xA806, 0xA806), (0xA80B, 0xA80B), (0xA825, 0xA826), (0xA82C, 0xA82C), (0xA8C4, 0xA8C5),
   (0xA8E0, 0xA8F1), (0xA8FF, 0xA8FF), (0xA926, 0xA92D), (0xA947, 0xA951), (0xA980, 0xA982), (0xA9B3, 0xA9B3),
   (0xA9B6, 0xA9B9), (0xA9BC, 0xA9BD), (0xA9CF, 0xA9CF), (0xA9E5, 0xA9E6), (0xAA29, 0xAA2E), (0xAA31, 0xAA32),
   (0xAA35, 0xAA36), (0xAA43, 0xAA43), (0xAA4C, 0xAA4C), (0xAA70, 0xAA70), (0xAA7C, 0xAA7C), (0xAAB0, 0xAAB0),
   (0xAAB2, 0xAAB4), (0xAAB7, 0xAAB8), (0xAABE, 0xAABF), (0xAAC1, 0xAAC1), (0xAADD, 0xAADD), (0xAAEC, 0xAAED),
   (0xAAF3, 0xAAF4), (0xAAF6, 0xAAF6), (0xAB5B, 0xAB5F), (0xAB69, 0xAB6B), (0xABE5, 0xABE5), (0xABE8, 0xABE8),
   (0xABED, 0xABED), (0xFB1E, 0xFB1E), (0xFBB2, 0xFBC2), (0xFE00, 0xFE0F), (0xFE13, 0xFE13), (0xFE20, 0xFE2F),
   (0xFE52, 0xFE52), (0xFE55, 0xFE55), (0xFEFF, 0xFEFF), (0xFF07, 0xFF07), (0xFF0E, 0xFF0E), (0xFF1A, 0xFF1A),
   (0xFF3E, 0xFF3E), (0xFF40, 0xFF40), (0xFF70, 0xFF70), (0xFF9E, 0xFF9F), (0xFFE3, 0xFFE3), (0xFFF9, 0xFFFB),
   (0x101FD, 0x101FD), (0x102E0, 0x102E0), (0x10376, 0x1037A), (0x10780, 0x10785), (0x10787, 0x107B0), (0x107B2, 0x107BA),
   (0x10A01, 0x10A03), (0x10A05, 0x10A06), (0x10A0C, 0x10A0F), (0x10A38, 0x10A3A), (0x10A3F, 0x10A3F), (0x10AE5, 0x10AE6),
   (0x10D24, 0x10D27), (0x10EAB, 0x10EAC), (0x10F46, 0x10F50), (0x10F82, 0x10F85), (0x11001, 0x11001), (0x11038, 0x11046),
   (0x11070, 0x11070), (0x11073, 0x11074), (0x1107F, 0x11081), (0x110B3, 0x110B6), (0x110B9, 0x110BA), (0x110BD, 0x110BD),
   (0x110C2, 0x110C2), (0x110CD, 0x110CD), (0x11100, 0x11102), (0x11127, 0x1112B), (0x1112D, 0x11134), (0x11173, 0x11173),
   (0x11180, 0x11181), (0x111B6, 0x111BE), (0x111C9, 0x111CC), (0x111CF, 0x111CF), (0x1122F, 0x11231), (0x11234, 0x11234),
   (0x11236, 0x11237), (0x1123E, 0x1123E), (0x112DF, 0x112DF), (0x112E3, 0x112EA), (0x11300, 0x11301), (0x1133B, 0x1133C),
   (0x11340, 0x11340), (0x11366, 0x1136C), (0x11370, 0x11374), (0x11438, 0x1143F), (0x11442, 0x11444), (0x11446, 0x11446),
   (0x1145E, 0x1145E), (0x114B3, 0x114B8), (0x114BA, 0x114BA), (0x114BF, 0x114C0), (0x114C2, 0x114C3), (0x115B2, 0x115B5),
   (0x115BC, 0x115BD), (0x115BF, 0x115C0), (0x115DC, 0x115DD), (0x11633, 0x1163A), (0x1163D, 0x1163D), (0x1163F, 0x11640),
   (0x116AB, 0x116AB), (0x116AD, 0x116AD), (0x116B0, 0x116B5), (0x116B7, 0x116B7), (0x1171D, 0x1171F), (0x11722, 0x11725),
   (0x11727, 0x1172B), (0x1182F, 0x11837), (0x11839, 0x1183A), (0x1193B, 0x1193C), (0x1193E, 0x1193E), (0x11943, 0x11943),
   (0x119D4, 0x119D7), (0x119DA, 0x119DB), (0x119E0, 0x119E0), (0x11A01, 0x11A0A), (0x11A33, 0x11A38), (0x11A3B, 0x11A3E),
   (0x11A47, 0x11A47), (0x11A51, 0x11A56), (0x11A59, 0x11A5B), (0x11A8A, 0x11A96), (0x11A98, 0x11A99), (0x11C30, 0x11C36),
   (0x11C38, 0x11C3D), (0x11C3F, 0x11C3F), (0x11C92, 0x11CA7), (0x11CAA, 0x11CB0), (0x11CB2, 0x11CB3), (0x11CB5, 0x11CB6),
   (0x11D31, 0x11D36), (0x11D3A, 0x11D3A), (0x11D3C, 0x11D3D), (0x11D3F, 0x11D45), (0x11D47, 0x11D47), (0x11D90, 0x11D91),
   (0x11D95, 0x11D95), (0x11D97, 0x11D97), (0x11EF3, 0x11EF4), (0x13430, 0x13438), (0x16AF0, 0x16AF4), (0x16B30, 0x16B36),
   (0x16B40, 0x16B43), (0x16F4F, 0x16F4F), (0x16F8F, 0x16F9F), (0x16FE0, 0x16FE1), (0x16FE3, 0x16FE4), (0x1AFF0, 0x1AFF3),
   (0x1AFF5, 0x1AFFB), (0x1AFFD, 0x1AFFE), (0x1BC9D, 0x1BC9E), (0x1BCA0, 0x1BCA3), (0x1CF00, 0x1CF2D), (0x1CF30, 0x1CF46),
   (0x1D167, 0x1D169), (0x1D173, 0x1D182), (0x1D185, 0x1D18B), (0x1D1AA, 0x1D1AD), (0x1D242, 0x1D244), (0x1DA00, 0x1DA36),
   (0x1DA3B, 0x1DA6C), (0x1DA75, 0x1DA75), (0x1DA84, 0x1DA84), (0x1DA9B, 0x1DA9F), (0x1DAA1, 0x1DAAF), (0x1E000, 0x1E006),
   (0x1E008, 0x1E018), (0x1E01B, 0x1E021), (0x1E023, 0x1E024), (0x1E026, 0x1E02A), (0x1E130, 0x1E13D), (0x1E2AE, 0x1E2AE),
   (0x1E2EC, 0x1E2EF), (0x1E8D0, 0x1E8D6), (0x1E944, 0x1E94B), (0x1F3FB, 0x1F3FF), (0xE0001, 0xE0001), (0xE0020, 0xE007F),
   (0xE0100, 0xE01EF)]

/-- The upper-case letters (General_Category Lu), in runs
`(first, count, stride)`: the code points `first + k * stride` with `k < count`. -/
def upperCaseLetterTable : List (Nat × Nat × Nat) :=
  [(0x0041, 26, 1), (0x00C0, 23, 1), (0x00D8, 7, 1), (0x0100, 28, 2), (0x0139, 8, 2), (0x014A, 24, 2),
   (0x0179, 3, 2), (0x0181, 2, 1), (0x0184, 2, 2), (0x0187, 2, 2), (0x018A, 2, 1), (0x018E, 4, 1),
   (0x0193, 2, 1), (0x0196, 3, 1), (0x019C, 2, 1), (0x019F, 2, 1), (0x01A2, 3, 2), (0x01A7, 2, 2),
   (0x01AC, 2, 2), (0x01AF, 2, 2), (0x01B2, 2, 1), (0x01B5, 2, 2), (0x01B8, 1, 1), (0x01BC, 1, 1),
   (0x01C4, 1, 1), (0x01C7, 1, 1), (0x01CA, 1, 1), (0x01CD, 8, 2), (0x01DE, 9, 2), (0x01F1, 1, 1),
   (0x01F4, 2, 2), (0x01F7, 2, 1), (0x01FA, 29, 2), (0x023A, 2, 1), (0x023D, 2, 1), (0x0241, 2, 2),
   (0x0244, 3, 1), (0x0248, 4, 2), (0x0370, 2, 2), (0x0376, 1, 1), (0x037F, 1, 1), (0x0386, 2, 2),
   (0x0389, 2, 1), (0x038C, 2, 2), (0x038F, 2, 2), (0x0392, 16, 1), (0x03A3, 9, 1), (0x03CF, 1, 1),
   (0x03D2, 3, 1), (0x03D8, 12, 2), (0x03F4, 1, 1), (0x03F7, 2, 2), (0x03FA, 1, 1), (0x03FD, 51, 1),
   (0x0460, 17, 2), (0x048A, 28, 2), (0x04C1, 7, 2), (0x04D0, 48, 2), (0x0531, 38, 1), (0x10A0, 38, 1),
   (0x10C7, 1, 1), (0x10CD, 1, 1), (0x13A0, 86, 1), (0x1C90, 43, 1), (0x1CBD, 3, 1), (0x1E00, 75, 2),
   (0x1E9E, 49, 2), (0x1F08, 8, 1), (0x1F18, 6, 1), (0x1F28, 8, 1), (0x1F38, 8, 1), (0x1F48, 6, 1),
   (0x1F59, 4, 2), (0x1F68, 8, 1), (0x1FB8, 4, 1), (0x1FC8, 4, 1), (0x1FD8, 4, 1), (0x1FE8, 5, 1),
   (0x1FF8, 4, 1), (0x2102, 1, 1), (0x2107, 1, 1), (0x210B, 3, 1), (0x2110, 3, 1), (0x2115, 1, 1),
   (0x2119, 5, 1), (0x2124, 4, 2), (0x212B, 3, 1), (0x2130, 4, 1), (0x213E, 2, 1), (0x2145, 1, 1),
   (0x2183, 1, 1), (0x2C00, 48, 1), (0x2C60, 2, 2), (0x2C63, 2, 1), (0x2C67, 4, 2), (0x2C6E, 3, 1),
   (0x2C72, 1, 1), (0x2C75, 1, 1), (0x2C7E, 3, 1), (0x2C82, 49, 2), (0x2CEB, 2, 2), (0x2CF2, 1, 1),
   (0xA640, 23, 2), (0xA680, 14, 2), (0xA722, 7, 2), (0xA732, 31, 2), (0xA779, 3, 2), (0xA77E, 5, 2),
   (0xA78B, 2, 2), (0xA790, 2, 2), (0xA796, 11, 2), (0xA7AB, 4, 1), (0xA7B0, 5, 1), (0xA7B6, 8, 2),
   (0xA7C5, 3, 1), (0xA7C9, 1, 1), (0xA7D0, 1, 1), (0xA7D6, 2, 2), (0xA7F5, 1, 1), (0xFF21, 26, 1),
   (0x10400, 40, 1), (0x104B0, 36, 1), (0x10570, 11, 1), (0x1057C, 15, 1), (0x1058C, 7, 1), (0x10594, 2, 1),
   (0x10C80, 51, 1), (0x118A0, 32, 1), (0x16E40, 32, 1), (0x1D400, 26, 1), (0x1D434, 26, 1), (0x1D468, 26, 1),
   (0x1D49C, 2, 2), (0x1D49F, 1, 1), (0x1D4A2, 1, 1), (0x1D4A5, 2, 1), (0x1D4A9, 4, 1), (0x1D4AE, 8, 1),
   (0x1D4D0, 26, 1), (0x1D504, 2, 1), (0x1D507, 4, 1), (0x1D50D, 8, 1), (0x1D516, 7, 1), (0x1D538, 2, 1),
   (0x1D53B, 4, 1), (0x1D540, 5, 1), (0x1D546, 1, 1), (0x1D54A, 7, 1), (0x1D56C, 26, 1), (0x1D5A0, 26, 1),
   (0x1D5D4, 26, 1), (0x1D608, 26, 1), (0x1D63C, 26, 1), (0x1D670, 26, 1), (0x1D6A8, 25, 1), (0x1D6E2, 25, 1),
   (0x1D71C, 25, 1), (0x1D756, 25, 1), (0x1D790, 25, 1), (0x1D7CA, 1, 1), (0x1E900, 34, 1)]

/-! ## JavaScript string primitives -/

/-- White space as matched by `\s` and removed by `String.prototype.trim`:
the ECMAScript WhiteSpace and LineTerminator code points. -/
def isWhiteSpace (c : Char) : Bool :=
  let n := c.toNat
  n == 0x09 || n == 0x0A || n == 0x0B || n == 0x0C || n == 0x0D || n == 0x20 ||
  n == 0xA0 || n == 0x1680 || (0x2000 ≤ n && n ≤ 0x200A) || n == 0x2028 ||
  n == 0x2029 || n == 0x202F || n == 0x205F || n == 0x3000 || n == 0xFEFF

/-- The simple lower-case mapping of the code point `n`, read from a table of
runs sorted by their first code point; a code point in no run is its own
lower case. -/
def lowerCodePointIn : List (Nat × Nat × Nat × Nat) → Nat → Nat
  | [], n => n
  | (first, count, stride, image) :: rest, n =>
    if n < first then n
    else if n ≤ first + (count - 1) * stride ∧ (n - first) % stride = 0 then
      image + (n - first)
    else lowerCodePointIn rest n

/-- The simple lower-case mapping of a code point. -/
def lowerCodePoint (n : Nat) : Nat := lowerCodePointIn lowerCaseTable n

/-- A check on a table of the simple mapping: the table leaves every code
point of the run `lo`, `lo + stride`, … (`count` of them) as it is.  The check
follows the scan of `lowerCodePointIn` for the whole run at once: it stops at
the first table entry that starts beyond the run, and passes an entry that
ends before the run or lies on the other parity. -/
def runFixedIn (lo count stride : Nat) : List (Nat × Nat × Nat × Nat) → Bool
  | [] => true
  | (first, count1, stride1, _) :: rest =>
    if lo + (count - 1) * stride < first then true
    else if first + (count1 - 1) * stride1 < lo ∨
        (stride1 = 2 ∧ (stride = 2 ∨ count = 1) ∧ lo % 2 ≠ first % 2) then
      runFixedIn lo count stride rest
    else false

/-- A check on an entry `(first, count, stride, image)` of a table of the
simple mapping: the table leaves the images of the entry as they are, the
images lie on one side of U+0130, and they are code points of characters (not
surrogates, not beyond U+10FFFF). -/
def imagesFixedBy (table : List (Nat × Nat × Nat × Nat)) (e : Nat × Nat × Nat × Nat) : Bool :=
  runFixedIn e.2.2.2 e.2.1 e.2.2.1 table &&
  decide (e.2.2.2 + (e.2.1 - 1) * e.2.2.1 < 0x0130 ∨ 0x0130 < e.2.2.2) &&
  decide (e.2.2.2 + (e.2.1 - 1) * e.2.2.1 < 0xD800 ∨
    (0xDFFF < e.2.2.2 ∧ e.2.2.2 + (e.2.1 - 1) * e.2.2.1 < 0x110000))

/-- Membership of a code point in a table of ranges sorted by their first
code point. -/
def inRanges : List (Nat × Nat) → Nat → Bool
  | [], _ => false
  | (first, last) :: rest, n =>
    if n < first then false else if n ≤ last then true else inRanges rest n

/-- Membership of a code point in a table of runs sorted by their first
code point. -/
def inRuns : List (Nat × Nat × Nat) → Nat → Bool
  | [], _ => false
  | (first, count, stride) :: rest, n =>
    if n < first then false
    else if n ≤ first + (count - 1) * stride ∧ (n - first) % stride = 0 then true
    else inRuns rest n

/-- A cased letter that is not case-ignorable. -/
def isCased (c : Char) : Bool := inRanges casedRanges c.toNat

/-- A case-ignorable character: a mark, a modifier, a format control or a
piece of word-internal punctuation. -/
def isCaseIgnorable (c : Char) : Bool := inRanges caseIgnorableRanges c.toNat

/-- An upper-case letter: a character of General_Category Lu. -/
def isUpperCaseLetter (c : Char) : Bool := inRuns upperCaseLetterTable c.toNat

/-- One character of `String.prototype.toLowerCase` where the result does not
depend on the neighbours: the simple lower-case mapping. -/
def lowerChar (c : Char) : Char := Char.ofNat (lowerCodePoint c.toNat)

/-- The second half of the condition Final_Sigma: the text that follows is not
a sequence of case-ignorable characters and then a cased letter. -/
def notFollowedByCased : List Char → Bool
  | [] => true
  | c :: cs => if isCaseIgnorable c then notFollowedByCased cs else !isCased c

/-- The scan behind `toLowerCase`.  The flag is the first half of the condition
Final_Sigma: the text already read ends with a cased letter and then a sequence
of case-ignorable characters.  U+03A3 (capital sigma) goes to the final
sigma U+03C2 under Final_Sigma and to U+03C3 otherwise; U+0130 goes to `i`
and U+0307; every other character goes through the simple mapping. -/
def lowerFrom : Bool → List Char → List Char
  | _, [] => []
  | afterCased, c :: cs =>
    let next := if isCaseIgnorable c then afterCased else isCased c
    if c.toNat = 0x03A3 then
      (if afterCased && notFollowedByCased cs then Char.ofNat 0x03C2 else Char.ofNat 0x03C3)
        :: lowerFrom next cs
    else if c.toNat = 0x0130 then
      Char.ofNat 0x0069 :: Char.ofNat 0x0307 :: lowerFrom next cs
    else lowerChar c :: lowerFrom next cs

/-- `String.prototype.toLowerCase`. -/
def toLowerCase (s : List Char) : List Char := lowerFrom false s

/-- `String.prototype.trim`: white space removed from both ends. -/
def trim (s : List Char) : List Char :=
  ((s.dropWhile isWhiteSpace).reverse.dropWhile isWhiteSpace).reverse

/-- The scan behind `replace(/\s+/g, ' ')`; the flag tells whether the previous
character belonged to a run of white space that has already been replaced. -/
def replaceRuns : Bool → List Char → List Char
  | _, [] => []
  | inRun, c :: cs =>
    if isWhiteSpace c then
      if inRun then replaceRuns true cs else ' ' :: replaceRuns true cs
    else c :: replaceRuns false cs

/-- `s.replace(/\s+/g, ' ')`: every maximal run of white space becomes one space. -/
def replaceWhiteSpaceRuns (s : List Char) : List Char := replaceRuns false s

/-- `s.includes(t)`: `t` occurs in `s` as a contiguous substring. -/
def includes : List Char → List Char → Bool
  | [], t => t.isEmpty
  | c :: cs, t => t.isPrefixOf (c :: cs) || includes cs t

/-- The order of strings used by the store when it sorts on a string field:
code point by code point, a proper prefix first. -/
def stringLt : List Char → List Char → Bool
  | _, [] => false
  | [], _ :: _ => true
  | a :: as, b :: bs =>
    if a.toNat < b.toNat then true
    else if b.toNat < a.toNat then false
    else stringLt as bs

/-- `\d`: an ASCII decimal digit. -/
def isDigit (c : Char) : Bool := '0'.toNat ≤ c.toNat && c.toNat ≤ '9'.toNat

/-- `s.replace(/\D/g, '')`: every character that is not a decimal digit is removed. -/
def removeNonDigits (s : List Char) : List Char := s.filter isDigit

/-- `s.padStart(width, fill)` for a one-character `fill`. -/
def padStart (width : Nat) (fill : Char) (s : List Char) : List Char :=
  List.replicate (width - s.length) fill ++ s

/-- `s.slice(-k)`: the last `k` characters of `s` (all of `s` when it is shorter). -/
def sliceLast (k : Nat) (s : List Char) : List Char := s.drop (s.length - k)

/-! ## JavaScript numbers met by the identifier generator

`parseInt` of a string of digits, `+ 1` and `String(...)` only ever see
non-negative integer-valued doubles, `+Infinity` and `NaN`. -/

/-- A non-negative integer-valued double or `+Infinity`. -/
inductive JSNumber where
  | finite (n : Nat)
  | infinity
  deriving DecidableEq, Repr

/-- Number of binary digits of `n`, counted with `fuel` halvings. -/
def bitLengthAux : Nat → Nat → Nat
  | 0, _ => 0
  | fuel + 1, n => if n = 0 then 0 else bitLengthAux fuel (n / 2) + 1

/-- Number of binary digits of `n` (`n` halvings always suffice). -/
def bitLength (n : Nat) : Nat := bitLengthAux n n

/-- The double nearest to the integer `n`, ties to the even significand
(IEEE 754 round-to-nearest-even with a 53-bit significand); integers at or
beyond `2^1024` after rounding overflow to `+Infinity`. -/
def toDouble (n : Nat) : JSNumber :=
  if n < 2 ^ 53 then .finite n
  else
    let e := bitLength n - 53
    let q := n / 2 ^ e
    let r := n % 2 ^ e
    let half := 2 ^ (e - 1)
    let q1 := if r < half then q else if half < r then q + 1 else if q % 2 = 0 then q else q + 1
    let v := q1 * 2 ^ e
    if v < 2 ^ 1024 then .finite v else .infinity

/-- Value of a string of decimal digits read left to right. -/
def digitsValue (s : List Char) : Nat :=
  s.foldl (fun acc c => 10 * acc + (c.toNat - '0'.toNat)) 0

/-- `parseInt(s)` for the strings `removeNonDigits` produces: `none` is `NaN`
(no digit to read), otherwise the double nearest to the decimal value. -/
def parseInt (s : List Char) : Option JSNumber :=
  let ds := s.takeWhile isDigit
  if ds.isEmpty then none else some (toDouble (digitsValue ds))

/-- `x || 0` for a number `x`: `NaN` and `0` are falsy. -/
def orZero (x : Option JSNumber) : JSNumber :=
  match x with
  | none => .finite 0
  | some (.finite 0) => .finite 0
  | some v => v

/-- `x + 1` in double arithmetic. -/
def addOne (x : JSNumber) : JSNumber :=
  match x with
  | .finite n => toDouble (n + 1)
  | .infinity => .infinity

/-- Decimal digits of a natural number. -/
def decimal (n : Nat) : List Char := Nat.toDigits 10 n

/-- The candidate with `k` significant digits for printing the double `v`
(`d` is the number of decimal digits of `v`): the neighbours of `v` on the grid
of multiples of `10^(d-k)` that still round to `v`, the nearer one first and
the even one on a tie. -/
def shortestCandidate (v d k : Nat) : Option Nat :=
  let scale := 10 ^ (d - k)
  let lo := v / scale * scale
  let hi := lo + scale
  let okLo := toDouble lo == .finite v
  let okHi := toDouble hi == .finite v
  if okLo && okHi then
    if v - lo < hi - v then some lo
    else if hi - v < v - lo then some hi
    else if (lo / scale) % 2 = 0 then some lo else some hi
  else if okLo then some lo
  else if okHi then some hi
  else none

/-- Search for the least number of significant digits, trying `k`, `k+1`, ... -/
def shortestFrom (v d : Nat) : Nat → Nat → Nat
  | 0, _ => v
  | fuel + 1, k =>
    match shortestCandidate v d k with
    | some c => c
    | none => shortestFrom v d fuel (k + 1)

/-- The integer whose digits `Number::toString` prints for the double `v`:
the decimal with the fewest significant digits that rounds back to `v`. -/
def shortestDecimal (v : Nat) : Nat :=
  let d := (decimal v).length
  shortestFrom v d d 1

/-- Drop the trailing zeros of a digit string. -/
def stripTrailingZeros (s : List Char) : List Char :=
  (s.reverse.dropWhile (· == '0')).reverse

/-- `String(x)` (`Number::toString` in radix 10).  Below `2^53` every integer
is a double and prints as itself; from `10^21` on the exponent form is used. -/
def numberToString (x : JSNumber) : List Char :=
  match x with
  | .infinity => "Infinity".data
  | .finite v =>
    if v < 2 ^ 53 then decimal v
    else
      let c := decimal (shortestDecimal v)
      if c.length ≤ 21 then c
      else
        let s := stripTrailingZeros c
        let e := decimal (c.length - 1)
        match s with
        | [] => c
        | [d1] => d1 :: 'e' :: '+' :: e
        | d1 :: rest => d1 :: '.' :: (rest ++ 'e' :: '+' :: e)

/-! ## Data model -/

/-- The record kept in the cache: `{product_id, product_name, category}`. -/
structure Product where
  product_id : String
  product_name : String
  category : String
  deriving DecidableEq, Repr

/-- A document of the `Product` collection, with the fields the service reads. -/
structure StoreProduct where
  product_id : String
  product_name : String
  category : String
  is_active : Bool
  deriving DecidableEq, Repr

/-- What one call observes of the outside: the value of `Date.now()` in
milliseconds and the `Product` collection (`none` when its queries throw). -/
structure World where
  now : Nat
  store : Option (List StoreProduct)
  deriving Repr

/-- A value of a property of a request body, as the JSON body parser delivers
it.  Of a value that is not a string (`null`, a boolean, a number, an array,
an object) the service can observe one thing only, whether it is truthy: such
a value is never `===` to a stored identifier and has no method `toLowerCase`.
Its JSON text is carried along unchanged. -/
inductive JSValue where
  | string (s : String)
  | other (truthy : Bool) (json : String)
  deriving DecidableEq, Repr

/-- The argument of `mapProductInput`: an object whose `product_id`,
`product_name` and `category` are absent (`none`) or hold a value, carrying
any number of other properties in `extra`. -/
structure ProductInput where
  product_id : Option JSValue
  product_name : Option JSValue
  category : Option JSValue
  extra : List (String × String)
  deriving DecidableEq, Repr

/-- Truthiness of a property: present, and not one of the falsy values (the
empty string, `null`, `false`, `0`). -/
def truthy (v : Option JSValue) : Bool :=
  match v with
  | some (.string s) => s != ""
  | some (.other t _) => t
  | none => false

/-- A property that is a non-empty string. -/
def isNonEmptyString (v : Option JSValue) : Bool :=
  match v with
  | some (.string s) => s != ""
  | _ => false

/-- An element of the array given to `mapProductInputs`: an object, or a value
that is none (`null`, a number, a string, a boolean). -/
inductive BatchElement where
  | object (productInput : ProductInput)
  | nonObject
  deriving DecidableEq, Repr

/-! ## The `Map` in `productCache`: insertion-ordered, one entry per key -/

/-- `Map.prototype.get`. -/
def mapGet (m : List (String × Product)) (key : String) : Option Product :=
  match m with
  | [] => none
  | (k, v) :: rest => if k = key then some v else mapGet rest key

/-- `Map.prototype.set`: an existing key keeps its position and takes the new
value, a new key is appended. -/
def mapSet (m : List (String × Product)) (key : String) (value : Product) :
    List (String × Product) :=
  match m with
  | [] => [(key, value)]
  | (k, v) :: rest => if k = key then (key, value) :: rest else (k, v) :: mapSet rest key value

/-- `Map.prototype.delete`. -/
def mapDelete (m : List (String × Product)) (key : String) : List (String × Product) :=
  m.filter (fun e => e.1 != key)

/-! ## The service -/

/-- State of the `ProductMappingService` singleton. -/
structure Service where
  productCache : List (String × Product)
  lastCacheUpdate : Option Nat
  cacheExpiry : Nat
  deriving Repr

/-- The constructor: empty cache, never refreshed, five minutes of freshness. -/
def Service.new : Service :=
  { productCache := [], lastCacheUpdate := none, cacheExpiry := 5 * 60 * 1000 }

/-- `normalizeProductName`: `name.toLowerCase().trim().replace(/\s+/g, ' ')`. -/
def normalizeProductName (name : String) : String :=
  String.mk (replaceWhiteSpaceRuns (trim (toLowerCase name.data)))

/-- The hardcoded table of `loadFallbackProducts`. -/
def fallbackProducts : List Product :=
  [ ⟨"P001", "Milk", "Dairy"⟩,
    ⟨"P002", "Bread", "Bakery"⟩,
    ⟨"P003", "Butter", "Dairy"⟩,
    ⟨"P004", "Cheese", "Dairy"⟩,
    ⟨"P005", "Yogurt", "Dairy"⟩,
    ⟨"P006", "Eggs", "Dairy"⟩,
    ⟨"P007", "Croissant", "Bakery"⟩,
    ⟨"P008", "Bagel", "Bakery"⟩,
    ⟨"P009", "Muffin", "Bakery"⟩,
    ⟨"P010", "Cookie", "Bakery"⟩,
    ⟨"P011", "Banana", "Fruit"⟩,
    ⟨"P012", "Apple", "Fruit"⟩,
    ⟨"P013", "Orange", "Fruit"⟩,
    ⟨"P014", "Grape", "Fruit"⟩,
    ⟨"P015", "Strawberry", "Fruit"⟩,
    ⟨"P016", "Chicken Breast", "Meat"⟩,
    ⟨"P017", "Ground Beef", "Meat"⟩,
    ⟨"P018", "Salmon", "Meat"⟩,
    ⟨"P019", "Shrimp", "Meat"⟩,
    ⟨"P020", "Turkey", "Meat"⟩,
    ⟨"P021", "Orange Juice", "Beverage"⟩,
    ⟨"P022", "Coffee", "Beverage"⟩,
    ⟨"P023", "Baked Beans", "Canned"⟩,
    ⟨"P024", "Tomato Sauce", "Canned"⟩,
    ⟨"P025", "Dish Soap", "Cleaning"⟩,
    ⟨"P026", "Laundry Detergent", "Cleaning"⟩,
    ⟨"P027", "Ice Cream", "Frozen"⟩,
    ⟨"P028", "Frozen Pizza", "Frozen"⟩,
    ⟨"P029", "Vitamins", "Health"⟩,
    ⟨"P030", "Moisturizer", "Health"⟩,
    ⟨"P031", "Cough Syrup", "Health"⟩,
    ⟨"P032", "Dog Food", "Pet"⟩,
    ⟨"P033", "Cat Food", "Pet"⟩,
    ⟨"P034", "Lettuce", "Produce"⟩,
    ⟨"P035", "Tomato", "Produce"⟩,
    ⟨"P036", "Potato Chips", "Snacks"⟩,
    ⟨"P037", "Chocolate Bar", "Snacks"⟩ ]

/-- `loadFallbackProducts`: the cache is cleared, every fallback product is set
under its normalized name, and the refresh time is stamped. -/
def loadFallbackProducts (s : Service) (now : Nat) : Service :=
  { s with
    productCache :=
      fallbackProducts.foldl (fun m product => mapSet m (normalizeProductName product.product_name) product) [],
    lastCacheUpdate := some now }

/-- `Product.find({ is_active: true }).select('product_id product_name category')`. -/
def findActive (docs : List StoreProduct) : List StoreProduct :=
  docs.filter (fun d => d.is_active)

/-- `refreshCache`: the cache is rebuilt from the active products of the store;
when the query throws, the fallback table is loaded instead. -/
def refreshCache (s : Service) (w : World) : Service :=
  match w.store with
  | some docs =>
    { s with
      productCache :=
        (findActive docs).foldl
          (fun m product =>
            mapSet m (normalizeProductName product.product_name)
              { product_id := product.product_id,
                product_name := product.product_name,
                category := product.category })
          [],
      lastCacheUpdate := some w.now }
  | none => loadFallbackProducts s w.now

/-- `isCacheExpired`:
`!this.lastCacheUpdate || (Date.now() - this.lastCacheUpdate) > this.cacheExpiry`.
A timestamp of `0` is falsy, like `null`. -/
def isCacheExpired (s : Service) (now : Nat) : Bool :=
  match s.lastCacheUpdate with
  | none => true
  | some t => t == 0 || decide (((now : Int) - (t : Int)) > (s.cacheExpiry : Int))

/-- `getProductByName`: refresh when expired, then look the normalized name up. -/
def getProductByName (s : Service) (w : World) (productName : String) :
    Option Product × Service :=
  let s1 := if isCacheExpired s w.now then refreshCache s w else s
  let normalizedName := normalizeProductName productName
  (mapGet s1.productCache normalizedName, s1)

/-- The `for ... of this.productCache.entries()` loop of `searchProducts`. -/
def searchLoop (normalizedSearch : String) (limit : Nat) :
    List (String × Product) → List Product → List Product
  | [], results => results
  | (name, product) :: rest, results =>
    if includes name.data normalizedSearch.data || includes normalizedSearch.data name.data then
      let results1 := results ++ [product]
      if results1.length ≥ limit then results1
      else searchLoop normalizedSearch limit rest results1
    else searchLoop normalizedSearch limit rest results

/-- `searchProducts(searchTerm, limit)` for a non-negative integer `limit`. -/
def searchProducts (s : Service) (w : World) (searchTerm : String) (limit : Nat) :
    List Product × Service :=
  let s1 := if isCacheExpired s w.now then refreshCache s w else s
  let normalizedSearch := normalizeProductName searchTerm
  (searchLoop normalizedSearch limit s1.productCache [], s1)

/-- `getAllProducts`: refresh when expired, then the values in cache order. -/
def getAllProducts (s : Service) (w : World) : List Product × Service :=
  let s1 := if isCacheExpired s w.now then refreshCache s w else s
  (s1.productCache.map (fun e => e.2), s1)

/-- `Product.find({}).select('product_id').sort({ product_id: -1 }).limit(1)`:
the document whose `product_id` is greatest in the order of strings (code point
by code point), if there is any document. -/
def findHighest (docs : List StoreProduct) : Option StoreProduct :=
  docs.foldl
    (fun best d =>
      match best with
      | none => some d
      | some b => if stringLt b.product_id.data d.product_id.data then some d else some b)
    none

/-- `generateProductId`: the number in the highest stored id plus one, padded
to three digits after `P`; `P001` for an empty store; `P` and the last six
characters of `Date.now().toString()` when the query throws (a clock reading
is an integer well below `2^53`, so its string is its decimal writing). -/
def generateProductId (w : World) (_productName : String) : String :=
  match w.store with
  | some docs =>
    match findHighest docs with
    | some last =>
      let lastId := last.product_id
      let numericPart := orZero (parseInt (removeNonDigits lastId.data))
      String.mk ('P' :: padStart 3 '0' (numberToString (addOne numericPart)))
    | none => "P001"
  | none =>
    let timestamp := sliceLast 6 (decimal w.now)
    String.mk ('P' :: timestamp)

/-- The message of the error `mapProductInput` throws. -/
def missingInputMessage : String := "Either product_name or product_id must be provided"

/-- The message of the TypeError that `normalizeProductName` throws when its
argument has no method `toLowerCase`. -/
def notAFunctionMessage : String := "name.toLowerCase is not a function"

/-- `mapProductInput`.  In the third branch a `product_name` that is truthy
without being a string reaches `getProductByName`, which refreshes an expired
cache and then throws from `normalizeProductName`. -/
def mapProductInput (s : Service) (w : World) (productInput : ProductInput) :
    Except String ProductInput × Service :=
  if truthy productInput.product_id && truthy productInput.product_name then
    (.ok productInput, s)
  else if truthy productInput.product_id && !truthy productInput.product_name then
    let (products, s1) := getAllProducts s w
    match products.find? (fun p => some (.string p.product_id) == productInput.product_id) with
    | some product =>
      (.ok { productInput with
              product_name := some (.string product.product_name),
              category := some (.string product.category) }, s1)
    | none => (.ok productInput, s1)
  else if truthy productInput.product_name && !truthy productInput.product_id then
    match productInput.product_name with
    | some (.string name) =>
      let (found, s1) := getProductByName s w name
      match found with
      | some product =>
        (.ok { productInput with
                product_id := some (.string product.product_id),
                product_name := some (.string product.product_name),
                category := some (.string product.category) }, s1)
      | none =>
        let newProductId := generateProductId w name
        (.ok { productInput with
                product_id := some (.string newProductId),
                category :=
                  if truthy productInput.category then productInput.category
                  else some (.string "Unknown") }, s1)
    | _ =>
      (.error notAFunctionMessage, if isCacheExpired s w.now then refreshCache s w else s)
  else (.error missingInputMessage, s)

/-- `mapProductInputs`: the inputs are mapped in order, the ones that throw are
skipped.  On an element that is no object `mapProductInput` throws before it
touches the cache: a TypeError on `null`, the error of the last line on any
other value, none of whose properties is defined. -/
def mapProductInputs (s : Service) (w : World) :
    List BatchElement → List ProductInput × Service
  | [] => ([], s)
  | .nonObject :: rest => mapProductInputs s w rest
  | .object productInput :: rest =>
    match mapProductInput s w productInput with
    | (.ok mappedProduct, s1) =>
      let (more, s2) := mapProductInputs s1 w rest
      (mappedProduct :: more, s2)
    | (.error _, s1) => mapProductInputs s1 w rest

/-- `addToCache`. -/
def addToCache (s : Service) (product : Product) : Service :=
  { s with
    productCache :=
      mapSet s.productCache (normalizeProductName product.product_name)
        { product_id := product.product_id,
          product_name := product.product_name,
          category := product.category } }

/-- `removeFromCache`. -/
def removeFromCache (s : Service) (productName : String) : Service :=
  { s with productCache := mapDelete s.productCache (normalizeProductName productName) }

/-- The contents of `productCache` right after `loadFallbackProducts`. -/
def fallbackCache : List (String × Product) :=
  (loadFallbackProducts Service.new 0).productCache

/-- The `k` low-order decimal digits of `n`, leading zeros included: what
"the last `k` decimal digits of `n`" means for a number. -/
def lastDigits : Nat → Nat → List Char
  | 0, _ => []
  | k + 1, n => lastDigits k (n / 10) ++ [Nat.digitChar (n % 10)]

/-! ## The subprocess bridge: the `close` handler of `debug_python.js` -/

/-- `s.split('\n')`: the pieces of `s` between line feeds, at least one piece. -/
def splitLines : List Char → List (List Char)
  | [] => [[]]
  | c :: cs =>
    if c = '\n' then [] :: splitLines cs
    else
      match splitLines cs with
      | [] => [[c]]
      | line :: lines => (c :: line) :: lines

/-- The text handed to `JSON.parse`: `lines[lines.length - 1]` for
`lines = outputData.trim().split('\n')`. -/
def lastLine (outputData : String) : String :=
  String.mk ((splitLines (trim outputData.data)).getLastD [])

/-- What the `close` handler does about the result: no decoding attempted, a
result decoded, or the `catch` branch taken. -/
inductive CloseResult (α : Type) where
  | notAttempted
  | parsed (result : α)
  | parseError (message : String)

/-- The `close` handler, for the exit code `code` (`none` is `null`, the
process having been killed by a signal) and the accumulated `outputData`.
`jsonParse` stands for the body of the `try`: `JSON.parse` and the reads of the
result, with the message of whatever is thrown. -/
def onClose {α : Type} (jsonParse : String → Except String α) (code : Option Int)
    (outputData : String) : CloseResult α :=
  if code = some 0 ∧ outputData.length > 0 then
    match jsonParse (lastLine outputData) with
    | .ok result => .parsed result
    | .error message => .parseError message
  else .notAttempted

/-! ## Sequences of calls that change the cache -/

/-- A call that changes the service state; the continuation of `refreshCache`
after its `await` and the other three run to completion without interleaving. -/
inductive CacheOp where
  | refresh (w : World)
  | loadFallback (now : Nat)
  | add (product : Product)
  | remove (productName : String)

/-- The state after one such call. -/
def applyOp (s : Service) : CacheOp → Service
  | .refresh w => refreshCache s w
  | .loadFallback now => loadFallbackProducts s now
  | .add product => addToCache s product
  | .remove productName => removeFromCache s productName

/-- The state after a sequence of such calls. -/
def runOps (s : Service) (ops : List CacheOp) : Service := ops.foldl applyOp s

/-- An identifier that is `P` followed by at least three decimal digits. -/
def PFollowedByDigits (id : String) : Prop :=
  ∃ ds : List Char, id = String.mk ('P' :: ds) ∧ 3 ≤ ds.length ∧ ∀ c ∈ ds, isDigit c = true

/-! ## The stock route: `PATCH /:productId/stock/:cityName` of `productRoutes.js`

Stock levels are JavaScript numbers; the route meets `NaN` (`none`),
non-negative integer-valued doubles and `+Infinity`. -/

/-- `x + y` for such numbers: the exact sum rounded to a double. -/
def addNumber (x y : Option JSNumber) : Option JSNumber :=
  match x, y with
  | some (.finite a), some (.finite b) => some (toDouble (a + b))
  | some _, some _ => some .infinity
  | _, _ => none

/-- `parseInt(x)` for a number `x`: `parseInt` of `String(x)`. -/
def parseIntOfNumber (x : JSNumber) : Option JSNumber := parseInt (numberToString x)

/-- An element of `product.cities`. -/
structure CityStock where
  city_name : String
  stock_level : Option JSNumber
  last_updated : Nat
  deriving DecidableEq, Repr

/-- A `Product` document, with the fields the stock route touches. -/
structure ProductDoc where
  product_id : String
  stock_level : Option JSNumber
  cities : List CityStock
  updated_at : Nat
  deriving DecidableEq, Repr

/-- `product.cities.findIndex(city => city.city_name === cityName)`, `none`
standing for `-1`. -/
def findCityIndex (cityName : String) : List CityStock → Option Nat
  | [] => none
  | city :: rest =>
    if city.city_name = cityName then some 0
    else (findCityIndex cityName rest).map (fun i => i + 1)

/-- The two assignments to `product.cities[cityIndex]`. -/
def setCityStock (stock : Option JSNumber) (now : Nat) : List CityStock → Nat → List CityStock
  | [], _ => []
  | city :: rest, 0 => { city with stock_level := stock, last_updated := now } :: rest
  | city :: rest, i + 1 => city :: setCityStock stock now rest i

/-- "Update city stock or add new city". -/
def updateCities (cities : List CityStock) (cityName : String) (stock : Option JSNumber)
    (now : Nat) : List CityStock :=
  match findCityIndex cityName cities with
  | some cityIndex => setCityStock stock now cities cityIndex
  | none => cities ++ [{ city_name := cityName, stock_level := stock, last_updated := now }]

/-- `product.cities.reduce((total, city) => total + city.stock_level, 0)`. -/
def totalStock (cities : List CityStock) : Option JSNumber :=
  cities.foldl (fun total city => addNumber total city.stock_level) (some (.finite 0))

/-- The answers of the route. -/
inductive StockResponse where
  | badRequest
  | notFound
  | ok (product : ProductDoc)
  deriving DecidableEq, Repr

/-- The handler, up to `product.save()`.  `stock_level` is the integer literal
of the request body (`none` when the field is absent), read by the body parser
as the nearest double; `found` is the result of `Product.findOne`; `now` is the
clock. -/
def patchStock (now : Nat) (found : Option ProductDoc) (cityName : String)
    (stock_level : Option Int) : StockResponse :=
  match stock_level with
  | none => .badRequest
  | some submitted =>
    if submitted < 0 then .badRequest
    else
      match found with
      | none => .notFound
      | some product =>
        let stock := parseIntOfNumber (toDouble submitted.toNat)
        let cities := updateCities product.cities cityName stock now
        .ok { product with
              cities := cities,
              stock_level := totalStock cities,
              updated_at := now }

/-- The stock level as a natural number, for a stock level that is one. -/
def stockValue (x : Option JSNumber) : Nat :=
  match x with
  | some (.finite n) => n
  | _ => 0

/-- The sum, as natural numbers, of the stock levels of the cities. -/
def exactTotal (cities : List CityStock) : Nat :=
  (cities.map (fun city => stockValue city.stock_level)).sum

/-! ## Calls in flight

JavaScript runs one call at a time, and lets another call in only where the
running call is suspended at an `await`.  A method body is therefore a list of
instructions with the suspension points marked, and the event loop picks, again
and again, one of the calls in flight and runs it up to its next suspension
point. -/

/-- An instruction of a method body, as far as `productCache` and
`lastCacheUpdate` are concerned. -/
inductive Instr where
  | await
  | clear
  | set (key : String) (value : Product)
  | stamp (now : Nat)
  | read (name : String)
  deriving DecidableEq, Repr

/-- The effect of an instruction on the service state: `productCache.clear()`,
`productCache.set(key, value)`, `lastCacheUpdate = Date.now()`; a suspension
point and `productCache.get` change nothing. -/
def Instr.exec (s : Service) : Instr → Service
  | .clear => { s with productCache := [] }
  | .set key value => { s with productCache := mapSet s.productCache key value }
  | .stamp now => { s with lastCacheUpdate := some now }
  | .await => s
  | .read _ => s

/-- The statements of `refreshCache` that follow `await Product.find(...)`, for
the outcome `w` of the query: `clear`, one `set` for each active product and
the time stamp when the query succeeded; the same three steps of
`loadFallbackProducts`, called from the `catch`, when it threw.  There is no
`await` among them. -/
def refreshBlock (w : World) : List Instr :=
  match w.store with
  | some docs =>
    [Instr.clear] ++
      (findActive docs).map (fun product =>
        Instr.set (normalizeProductName product.product_name)
          { product_id := product.product_id,
            product_name := product.product_name,
            category := product.category }) ++
      [Instr.stamp w.now]
  | none =>
    [Instr.clear] ++
      fallbackProducts.map (fun product =>
        Instr.set (normalizeProductName product.product_name) product) ++
      [Instr.stamp w.now]

/-- The body of `refreshCache`: the query is awaited, then the block runs. -/
def refreshCacheBody (w : World) : List Instr := Instr.await :: refreshBlock w

/-- A call made to the service: `refreshCache()`, whose query will have the
outcome `w`, or `getProductByName(name)`, which reads the clock `now` in its
freshness test and, if it refreshes, does so with the outcome `w`. -/
inductive Call where
  | refreshCache (w : World)
  | getProductByName (now : Nat) (w : World) (name : String)
  deriving Repr

/-- The body of a call, fixed when the call starts: `getProductByName` awaits
`refreshCache()` if the cache is expired at that moment and then reads the
map; with a fresh cache it reads the map at once, without any `await`. -/
def Call.body (s : Service) : Call → List Instr
  | .refreshCache w => refreshCacheBody w
  | .getProductByName now w name =>
    if isCacheExpired s now then refreshCacheBody w ++ [Instr.await, Instr.read name]
    else [Instr.read name]

/-- A call in flight: not started yet, or suspended with the rest of its body
still to run. -/
inductive Task where
  | waiting (call : Call)
  | running (rest : List Instr)
  deriving Repr

/-- The instructions a task runs next, given the state in which it is picked. -/
def Task.instrs (s : Service) : Task → List Instr
  | .waiting call => call.body s
  | .running rest => rest

/-- What one `productCache.get` observed: the instructions that had run before
it (suspension points left out), the name looked up, the map as it was, and
the value returned. -/
structure Observation where
  before : List Instr
  name : String
  cache : List (String × Product)
  result : Option Product
  deriving DecidableEq, Repr

/-- The service together with the calls in flight, the instructions run so far
and the observations made so far. -/
structure Machine where
  service : Service
  trace : List Instr
  log : List Observation
  tasks : List Task

/-- One instruction is run: a read is logged, any other instruction takes its
effect on the service state. -/
def Machine.step (m : Machine) (i : Instr) : Machine :=
  match i with
  | .read name =>
    { m with
      trace := m.trace ++ [Instr.read name],
      log := m.log ++
        [{ before := m.trace, name := name, cache := m.service.productCache,
           result := mapGet m.service.productCache (normalizeProductName name) }] }
  | _ => { m with service := Instr.exec m.service i, trace := m.trace ++ [i] }

/-- A call runs without interruption up to its next `await` (or to its end);
what is left of its body is returned. -/
def runStretch (m : Machine) : List Instr → Machine × List Instr
  | [] => (m, [])
  | i :: rest => if i = Instr.await then (m, rest) else runStretch (m.step i) rest

/-- The event loop resumes the task at position `k`. -/
def Machine.pick (m : Machine) (k : Nat) : Machine :=
  match m.tasks.get? k with
  | none => m
  | some task =>
    let (m1, rest) := runStretch m (task.instrs m.service)
    { m1 with tasks := m.tasks.set k (Task.running rest) }

/-- The event loop resumes tasks in the order of a schedule. -/
def Machine.run (m : Machine) (schedule : List Nat) : Machine :=
  schedule.foldl Machine.pick m

/-- The service as constructed, with the given calls made and none started. -/
def Machine.start (calls : List Call) : Machine :=
  { service := Service.new, trace := [], log := [], tasks := calls.map Task.waiting }

/-- The instructions `trace` end with a whole refresh block followed by reads
only, and `cache` is the map that block builds. -/
def Settled (trace : List Instr) (cache : List (String × Product)) : Prop :=
  ∃ (pre : List Instr) (w : World) (post : List Instr),
    trace = pre ++ refreshBlock w ++ post ∧
    (∀ i ∈ post, ∃ name, i = Instr.read name) ∧
    cache = (refreshCache Service.new w).productCache

/-- What can be left of the body of a call while it is suspended: nothing, the
final read (only once the machine is settled), the block, or the block and
the read that follows it. -/
def AtBoundary (settled : Prop) (t : Task) : Prop :=
  (∃ call, t = Task.waiting call) ∨
  t = Task.running [] ∨
  (∃ name, t = Task.running [Instr.read name] ∧ settled) ∨
  (∃ w, t = Task.running (refreshBlock w)) ∨
  (∃ w name, t = Task.running (refreshBlock w ++ [Instr.await, Instr.read name]))

/-- The invariant of the event loop: either nothing has run yet, or the
machine is settled; every observation was made in a settled machine; every
task is at a boundary. -/
def Machine.Consistent (m : Machine) : Prop :=
  ((m.trace = [] ∧ m.service = Service.new) ∨ Settled m.trace m.service.productCache) ∧
  (∀ o ∈ m.log, Settled o.before o.cache ∧
    o.result = mapGet o.cache (normalizeProductName o.name)) ∧
  (∀ t ∈ m.tasks, AtBoundary (Settled m.trace m.service.productCache) t)

/-! ## Basic facts -/

theorem loadFallbackProducts_productCache (s : Service) (now : Nat) :
    (loadFallbackProducts s now).productCache = fallbackCache := rfl

theorem refreshCache_unreachable (s : Service) (now : Nat) :
    refreshCache s ⟨now, none⟩ = loadFallbackProducts s now := rfl

theorem refreshCache_store_none (s : Service) (w : World) (h : w.store = none) :
    refreshCache s w = loadFallbackProducts s w.now := by
  unfold refreshCache
  rw [h]

/-- Every fallback product is found in the fallback cache under its own name. -/
theorem fallbackCache_complete :
    ∀ p ∈ fallbackProducts, mapGet fallbackCache (normalizeProductName p.product_name) = some p := by
  decide

/-- A lookup in a state whose cache is the fallback cache, made while that
cache is fresh or while the store is still unreachable, reads the fallback cache. -/
theorem getProductByName_fallback (s : Service) (w : World) (name : String)
    (hc : s.productCache = fallbackCache)
    (h : isCacheExpired s w.now = false ∨ w.store = none) :
    (getProductByName s w name).1 = mapGet fallbackCache (normalizeProductName name) := by
  unfold getProductByName
  by_cases he : isCacheExpired s w.now = true
  · rcases h with h | h
    · rw [h] at he
      exact absurd he (by decide)
    · simp only [he, if_true, refreshCache_store_none s w h, loadFallbackProducts_productCache]
  · have he1 : isCacheExpired s w.now = false := by simpa using he
    simp [he1, hc]

/-! ## The four branches of `mapProductInput` -/

theorem truthy_some (x : String) : truthy (some (.string x)) = true ↔ x ≠ "" := by
  simp [truthy]

theorem mapProductInput_both (s : Service) (w : World) (input : ProductInput)
    (hid : truthy input.product_id = true) (hname : truthy input.product_name = true) :
    mapProductInput s w input = (.ok input, s) := by
  simp [mapProductInput, hid, hname]

theorem mapProductInput_id_only (s : Service) (w : World) (input : ProductInput)
    (hid : truthy input.product_id = true) (hname : truthy input.product_name = false) :
    mapProductInput s w input =
      match (getAllProducts s w).1.find?
          (fun p => some (JSValue.string p.product_id) == input.product_id) with
      | some product =>
        (.ok { input with
                product_name := some (.string product.product_name),
                category := some (.string product.category) }, (getAllProducts s w).2)
      | none => (.ok input, (getAllProducts s w).2) := by
  simp [mapProductInput, hid, hname]

theorem mapProductInput_name_only (s : Service) (w : World) (input : ProductInput)
    (name : String) (hname : input.product_name = some (.string name)) (hne : name ≠ "")
    (hid : truthy input.product_id = false) :
    mapProductInput s w input =
      match (getProductByName s w name).1 with
      | some product =>
        (.ok { input with
                product_id := some (.string product.product_id),
                product_name := some (.string product.product_name),
                category := some (.string product.category) }, (getProductByName s w name).2)
      | none =>
        (.ok { input with
                product_id := some (.string (generateProductId w name)),
                category :=
                  if truthy input.category then input.category
                  else some (.string "Unknown") },
          (getProductByName s w name).2) := by
  rcases input with ⟨pid, pname, cat, extra⟩
  dsimp only at hname hid
  subst hname
  have ht : truthy (some (JSValue.string name)) = true := (truthy_some name).2 hne
  simp [mapProductInput, hid, ht]

/-- A `product_name` that is truthy without being a string, given without a
`product_id`: the call throws the TypeError of `normalizeProductName`, after
the refresh an expired cache triggers. -/
theorem mapProductInput_name_not_string (s : Service) (w : World) (input : ProductInput)
    (json : String) (hname : input.product_name = some (.other true json))
    (hid : truthy input.product_id = false) :
    mapProductInput s w input =
      (.error notAFunctionMessage, if isCacheExpired s w.now then refreshCache s w else s) := by
  rcases input with ⟨pid, pname, cat, extra⟩
  dsimp only at hname hid
  subst hname
  have ht : truthy (some (JSValue.other true json)) = true := rfl
  simp [mapProductInput, hid, ht]

theorem mapProductInput_neither (s : Service) (w : World) (input : ProductInput)
    (hid : truthy input.product_id = false) (hname : truthy input.product_name = false) :
    mapProductInput s w input = (.error missingInputMessage, s) := by
  simp [mapProductInput, hid, hname]

/-- `generateProductId` never returns the empty string. -/
theorem generateProductId_ne_empty (w : World) (name : String) :
    generateProductId w name ≠ "" := by
  rcases w with ⟨now, store⟩
  cases store with
  | none => simp [generateProductId, String.ext_iff]
  | some docs =>
    cases hf : findHighest docs with
    | none => simp [generateProductId, hf]
    | some last => simp [generateProductId, hf, String.ext_iff]

/-- A truthy property is a non-empty string or a truthy value of another type. -/
theorem truthy_eq_true_iff (v : Option JSValue) :
    truthy v = true ↔
      (∃ x, v = some (.string x) ∧ x ≠ "") ∨ (∃ json, v = some (.other true json)) := by
  rcases v with _ | v
  · simp [truthy]
  · cases v with
    | string x => simp [truthy]
    | other t json => cases t <;> simp [truthy]

/-- With a truthy identifier, or a name that is a non-empty string,
`mapProductInput` returns a record. -/
theorem mapProductInput_ok_of_truthy (s : Service) (w : World) (input : ProductInput)
    (h : truthy input.product_id = true ∨
      ∃ name, input.product_name = some (.string name) ∧ name ≠ "") :
    ∃ r, (mapProductInput s w input).1 = .ok r := by
  cases hid : truthy input.product_id with
  | true =>
    cases hname : truthy input.product_name with
    | true => exact ⟨input, by rw [mapProductInput_both s w input hid hname]⟩
    | false =>
      rw [mapProductInput_id_only s w input hid hname]
      split
      · exact ⟨_, rfl⟩
      · exact ⟨_, rfl⟩
  | false =>
    rcases h with h | ⟨name, hn, hne⟩
    · rw [hid] at h
      exact absurd h (by decide)
    · rw [mapProductInput_name_only s w input name hn hne hid]
      split
      · exact ⟨_, rfl⟩
      · exact ⟨_, rfl⟩

/-! ## Identifier synthesis: helper facts -/

/-- With the store reachable the synthesized identifier depends on the store
alone, neither on the clock nor on the product name. -/
theorem generateProductId_of_store (w1 w2 : World) (n1 n2 : String) (docs : List StoreProduct)
    (h1 : w1.store = some docs) (h2 : w2.store = some docs) :
    generateProductId w1 n1 = generateProductId w2 n2 := by
  unfold generateProductId
  rw [h1, h2]

theorem takeWhile_removeNonDigits (l : List Char) :
    (removeNonDigits l).takeWhile isDigit = removeNonDigits l := by
  unfold removeNonDigits
  induction l with
  | nil => rfl
  | cons a t ih =>
    by_cases ha : isDigit a = true
    · simp [List.filter_cons, ha, List.takeWhile_cons, ih]
    · simp [List.filter_cons, ha, ih]

theorem toDouble_of_lt (n : Nat) (h : n < 2 ^ 53) : toDouble n = .finite n := by
  unfold toDouble
  rw [if_pos h]

theorem orZero_finite (n : Nat) : orZero (some (.finite n)) = .finite n := by
  cases n <;> rfl

/-- `parseInt(lastId.replace(/\D/g, '')) || 0` is exact below `2^53`. -/
theorem numericPart_exact (l : List Char) (h : digitsValue (removeNonDigits l) < 2 ^ 53) :
    orZero (parseInt (removeNonDigits l)) = .finite (digitsValue (removeNonDigits l)) := by
  unfold parseInt
  rw [takeWhile_removeNonDigits]
  cases hl : removeNonDigits l with
  | nil => rfl
  | cons a t =>
    rw [hl] at h
    simp only [List.isEmpty_cons, Bool.false_eq_true, if_false]
    rw [toDouble_of_lt _ h, orZero_finite]

/-- `String(n + 1)` is the decimal writing of `n + 1` for `n` below `2^53`. -/
theorem numberToString_addOne (n : Nat) (h : n < 2 ^ 53) :
    numberToString (addOne (.finite n)) = decimal (n + 1) := by
  by_cases h1 : n + 1 < 2 ^ 53
  · simp only [addOne, toDouble_of_lt _ h1, numberToString, if_pos h1]
  · have hn : n = 9007199254740991 := by
      have : (2 : Nat) ^ 53 = 9007199254740992 := by norm_num
      omega
    subst hn
    decide!

/-! ## Facts about the cache map -/

theorem mapGet_mapSet_self (m : List (String × Product)) (k : String) (v : Product) :
    mapGet (mapSet m k v) k = some v := by
  induction m with
  | nil => simp [mapSet, mapGet]
  | cons e rest ih =>
    obtain ⟨k1, v1⟩ := e
    by_cases h : k1 = k
    · simp [mapSet, mapGet, h]
    · simp [mapSet, mapGet, h, ih]

theorem mapGet_mapSet_ne (m : List (String × Product)) (k k1 : String) (v : Product)
    (h : k1 ≠ k) : mapGet (mapSet m k v) k1 = mapGet m k1 := by
  induction m with
  | nil => simp [mapSet, mapGet, Ne.symm h]
  | cons e rest ih =>
    obtain ⟨k2, v2⟩ := e
    by_cases h2 : k2 = k
    · subst h2
      simp [mapSet, mapGet, Ne.symm h]
    · by_cases h3 : k2 = k1
      · subst h3
        simp [mapSet, mapGet, h2]
      · simp [mapSet, mapGet, h2, h3, ih]

theorem mapGet_mapDelete_self (m : List (String × Product)) (k : String) :
    mapGet (mapDelete m k) k = none := by
  induction m with
  | nil => rfl
  | cons e rest ih =>
    obtain ⟨k1, v1⟩ := e
    by_cases h : k1 = k
    · simpa [mapDelete, List.filter_cons, h] using ih
    · simpa [mapDelete, List.filter_cons, h, mapGet] using ih

theorem mapGet_mapDelete_ne (m : List (String × Product)) (k k1 : String) (h : k1 ≠ k) :
    mapGet (mapDelete m k) k1 = mapGet m k1 := by
  induction m with
  | nil => rfl
  | cons e rest ih =>
    obtain ⟨k2, v2⟩ := e
    by_cases h2 : k2 = k
    · subst h2
      have h3 : ¬ k2 = k1 := fun hc => h hc.symm
      simpa [mapDelete, List.filter_cons, mapGet, h3] using ih
    · by_cases h3 : k2 = k1
      · subst h3
        simp [mapDelete, List.filter_cons, mapGet, h2]
      · simpa [mapDelete, List.filter_cons, mapGet, h2, h3] using ih

theorem mapDelete_of_mapGet_none (m : List (String × Product)) (k : String)
    (h : mapGet m k = none) : mapDelete m k = m := by
  induction m with
  | nil => rfl
  | cons e rest ih =>
    obtain ⟨k1, v1⟩ := e
    by_cases h1 : k1 = k
    · simp [mapGet, h1] at h
    · simp only [mapGet, h1, if_false] at h
      have := ih h
      simp only [mapDelete] at this ⊢
      simp [List.filter_cons, h1, this]

/-- `includes s t` holds exactly when `t` is a contiguous part of `s`. -/
theorem includes_iff_isInfix (s t : List Char) : includes s t = true ↔ List.IsInfix t s := by
  induction s with
  | nil => simp [includes, List.isEmpty_iff]
  | cons c cs ih =>
    simp only [includes, Bool.or_eq_true, List.isPrefixOf_iff_prefix, ih]
    exact List.infix_cons_iff.symm

/-- The search loop, started with fewer than `limit` results, appends the first
matches of the remaining entries until `limit` results are held. -/
theorem searchLoop_eq (t : String) (limit : Nat) (m : List (String × Product))
    (acc : List Product) (hacc : acc.length < limit) :
    searchLoop t limit m acc =
      acc ++ ((m.filter (fun e => includes e.1.data t.data || includes t.data e.1.data)).take
        (limit - acc.length)).map (fun e => e.2) := by
  induction m generalizing acc with
  | nil => simp [searchLoop]
  | cons e rest ih =>
    obtain ⟨name, product⟩ := e
    by_cases hm : (includes name.data t.data || includes t.data name.data) = true
    · simp only [searchLoop, hm, if_true, List.filter_cons]
      by_cases hfull : (acc ++ [product]).length ≥ limit
      · have hl : limit - acc.length = 1 := by
          simp only [List.length_append, List.length_singleton] at hfull
          omega
        have hfull1 : ¬ acc.length + 1 < limit := by
          simp only [List.length_append, List.length_singleton] at hfull
          omega
        simp [hl, hfull1]
      · have hlt : (acc ++ [product]).length < limit := Nat.lt_of_not_ge hfull
        rw [if_neg hfull, ih _ hlt]
        have hl : limit - acc.length = (limit - (acc ++ [product]).length) + 1 := by
          simp only [List.length_append, List.length_singleton] at hlt ⊢
          omega
        rw [hl]
        simp
    · simp only [searchLoop, hm, List.filter_cons]
      simpa using ih acc hacc

/-! ## Facts about refreshing -/

/-- Building the cache from a list of products: the value under a key is that
of the last product with this normalized name, if there is one. -/
theorem mapGet_foldl_mapSet (l : List StoreProduct) (m0 : List (String × Product))
    (k : String) :
    mapGet
        (l.foldl
          (fun m product =>
            mapSet m (normalizeProductName product.product_name)
              { product_id := product.product_id,
                product_name := product.product_name,
                category := product.category })
          m0) k =
      match l.reverse.find? (fun d => normalizeProductName d.product_name == k) with
      | some d => some ⟨d.product_id, d.product_name, d.category⟩
      | none => mapGet m0 k := by
  induction l generalizing m0 with
  | nil => rfl
  | cons d l ih =>
    rw [List.foldl_cons, ih, List.reverse_cons, List.find?_append]
    cases hfind : l.reverse.find? (fun d => normalizeProductName d.product_name == k) with
    | some d1 => simp
    | none =>
      by_cases hk : normalizeProductName d.product_name = k
      · subst hk
        simp [List.find?_cons, mapGet_mapSet_self]
      · have hk1 : k ≠ normalizeProductName d.product_name := fun hc => hk hc.symm
        simp [List.find?_cons, hk, mapGet_mapSet_ne _ _ _ _ hk1]

theorem refreshCache_store_some (s : Service) (w : World) (docs : List StoreProduct)
    (h : w.store = some docs) :
    refreshCache s w =
      { s with
        productCache :=
          (findActive docs).foldl
            (fun m product =>
              mapSet m (normalizeProductName product.product_name)
                { product_id := product.product_id,
                  product_name := product.product_name,
                  category := product.category })
            [],
        lastCacheUpdate := some w.now } := by
  unfold refreshCache
  rw [h]

theorem refreshCache_lastCacheUpdate (s : Service) (w : World) :
    (refreshCache s w).lastCacheUpdate = some w.now := by
  unfold refreshCache
  cases w.store <;> rfl

theorem refreshCache_cacheExpiry (s : Service) (w : World) :
    (refreshCache s w).cacheExpiry = s.cacheExpiry := by
  unfold refreshCache
  cases w.store <;> rfl

theorem isCacheExpired_some (s : Service) (t now : Nat) (h : s.lastCacheUpdate = some t) :
    isCacheExpired s now = true ↔ t = 0 ∨ (now : Int) - (t : Int) > (s.cacheExpiry : Int) := by
  simp [isCacheExpired, h]

/-- A lookup in a fresh cache reads the cache as it is. -/
theorem getProductByName_fresh (s : Service) (w : World) (n : String)
    (h : isCacheExpired s w.now = false) :
    getProductByName s w n = (mapGet s.productCache (normalizeProductName n), s) := by
  simp [getProductByName, h]

/-! ## Facts about decimal digits -/

theorem toDigitsCore_eq_append (n : Nat) :
    ∀ (fuel : Nat) (ds : List Char), n < fuel →
      Nat.toDigitsCore 10 fuel n ds = Nat.toDigitsCore 10 (n + 1) n [] ++ ds := by
  induction n using Nat.strong_induction_on with
  | _ n ih =>
    intro fuel ds hfuel
    obtain ⟨f, rfl⟩ : ∃ f, fuel = f + 1 := ⟨fuel - 1, by omega⟩
    by_cases h0 : n / 10 = 0
    · simp [Nat.toDigitsCore, h0]
    · have hlt : n / 10 < n := by omega
      have e1 := ih (n / 10) hlt f (Nat.digitChar (n % 10) :: ds) (by omega)
      have e2 := ih (n / 10) hlt n [Nat.digitChar (n % 10)] hlt
      simp only [Nat.toDigitsCore, h0, if_false]
      rw [e1, e2]
      simp

/-- The decimal writing of `n` ends with the digit `n % 10`; before it stands
the writing of `n / 10` when `n` has more than one digit. -/
theorem decimal_eq (n : Nat) :
    decimal n =
      (if n < 10 then [] else decimal (n / 10)) ++ [Nat.digitChar (n % 10)] := by
  unfold decimal Nat.toDigits
  by_cases h : n < 10
  · have h0 : n / 10 = 0 := by omega
    simp [Nat.toDigitsCore, h0, h]
  · have h0 : ¬ n / 10 = 0 := by omega
    have hlt : n / 10 < n := by omega
    simp only [Nat.toDigitsCore, h0, if_false, h]
    exact toDigitsCore_eq_append (n / 10) n _ hlt

theorem lastDigits_length (k n : Nat) : (lastDigits k n).length = k := by
  induction k generalizing n with
  | zero => rfl
  | succ k ih => simp [lastDigits, ih]

/-- A number of more than `k` digits is written with its `k + 1` last digits
at the end. -/
theorem decimal_ends_with_lastDigits (k : Nat) :
    ∀ n, 10 ^ k ≤ n → ∃ front, decimal n = front ++ lastDigits (k + 1) n := by
  induction k with
  | zero =>
    intro n _
    exact ⟨if n < 10 then [] else decimal (n / 10), by rw [decimal_eq n]; simp [lastDigits]⟩
  | succ k ih =>
    intro n hn
    have h10 : 10 ^ (k + 1) = 10 ^ k * 10 := pow_succ 10 k
    have hpos : 0 < 10 ^ k := by positivity
    have hge : ¬ n < 10 := by omega
    obtain ⟨front, hfront⟩ := ih (n / 10) (by
      rw [Nat.le_div_iff_mul_le (by decide)]
      omega)
    refine ⟨front, ?_⟩
    rw [decimal_eq n, if_neg hge, hfront]
    simp [lastDigits]

/-- The last `k` digits depend on the number modulo `10^k` only. -/
theorem lastDigits_congr (k : Nat) :
    ∀ n1 n2, n1 % 10 ^ k = n2 % 10 ^ k → lastDigits k n1 = lastDigits k n2 := by
  induction k with
  | zero => intro _ _ _; rfl
  | succ k ih =>
    intro n1 n2 h
    have h10 : 10 ^ (k + 1) = 10 * 10 ^ k := by rw [pow_succ, Nat.mul_comm]
    rw [h10] at h
    have hd : n1 / 10 % 10 ^ k = n2 / 10 % 10 ^ k := by
      rw [← Nat.mod_mul_right_div_self, ← Nat.mod_mul_right_div_self, h]
    have hm : n1 % 10 = n2 % 10 := by
      rw [← Nat.mod_mul_right_mod n1 10 (10 ^ k), ← Nat.mod_mul_right_mod n2 10 (10 ^ k), h]
    simp only [lastDigits]
    rw [ih _ _ hd, hm]

/-- For a clock reading of at least six digits, `slice(-6)` of its writing is
its last six digits. -/
theorem sliceLast_six_decimal (n : Nat) (h : 100000 ≤ n) :
    sliceLast 6 (decimal n) = lastDigits 6 n := by
  obtain ⟨front, hfront⟩ := decimal_ends_with_lastDigits 5 n (by norm_num; exact h)
  unfold sliceLast
  rw [hfront, List.length_append, lastDigits_length]
  simp

/-! ## Facts about batches -/

/-- What a refresh puts in the cache depends on the world only. -/
theorem refreshCache_productCache_indep (s1 s2 : Service) (w : World) :
    (refreshCache s1 w).productCache = (refreshCache s2 w).productCache := by
  unfold refreshCache
  cases w.store <;> rfl

/-- The cache a lookup reads (after the refresh a stale cache triggers) is the
same again for a lookup that follows in the same world. -/
theorem getAllProducts_settled (s : Service) (w : World) :
    (getAllProducts (getAllProducts s w).2 w).2.productCache =
      (getAllProducts s w).2.productCache := by
  by_cases h : isCacheExpired s w.now = true
  · have e : (getAllProducts s w).2 = refreshCache s w := by simp [getAllProducts, h]
    rw [e]
    by_cases h1 : isCacheExpired (refreshCache s w) w.now = true
    · simp only [getAllProducts, h1, if_true]
      exact refreshCache_productCache_indep _ _ w
    · simp [getAllProducts, h1]
  · have e : (getAllProducts s w).2 = s := by simp [getAllProducts, h]
    rw [e, e]

/-- The state `mapProductInput` leaves is the one before or the one a lookup
leaves. -/
theorem mapProductInput_state (s : Service) (w : World) (input : ProductInput) :
    (mapProductInput s w input).2 = s ∨
      (mapProductInput s w input).2 = (getAllProducts s w).2 := by
  cases hid : truthy input.product_id with
  | true =>
    cases hname : truthy input.product_name with
    | true => exact Or.inl (by rw [mapProductInput_both s w input hid hname])
    | false =>
      right
      rw [mapProductInput_id_only s w input hid hname]
      split <;> rfl
  | false =>
    cases hname : truthy input.product_name with
    | true =>
      right
      rcases (truthy_eq_true_iff _).1 hname with ⟨name, hn, hne⟩ | ⟨json, hn⟩
      · rw [mapProductInput_name_only s w input name hn hne hid]
        split <;> rfl
      · rw [mapProductInput_name_not_string s w input json hn hid]
        rfl
    | false => exact Or.inl (by rw [mapProductInput_neither s w input hid hname])

/-- The result of `mapProductInput` depends on the service state only through
the cache a lookup reads. -/
theorem mapProductInput_result_congr (s1 s2 : Service) (w : World) (input : ProductInput)
    (h : (getAllProducts s1 w).2.productCache = (getAllProducts s2 w).2.productCache) :
    (mapProductInput s1 w input).1 = (mapProductInput s2 w input).1 := by
  cases hid : truthy input.product_id with
  | true =>
    cases hname : truthy input.product_name with
    | true =>
      rw [mapProductInput_both s1 w input hid hname, mapProductInput_both s2 w input hid hname]
    | false =>
      rw [mapProductInput_id_only s1 w input hid hname,
        mapProductInput_id_only s2 w input hid hname]
      have e : (getAllProducts s1 w).1 = (getAllProducts s2 w).1 := by
        show (getAllProducts s1 w).2.productCache.map _ = (getAllProducts s2 w).2.productCache.map _
        rw [h]
      rw [e]
      split <;> rfl
  | false =>
    cases hname : truthy input.product_name with
    | true =>
      rcases (truthy_eq_true_iff _).1 hname with ⟨name, hn, hne⟩ | ⟨json, hn⟩
      · rw [mapProductInput_name_only s1 w input name hn hne hid,
          mapProductInput_name_only s2 w input name hn hne hid]
        have e : (getProductByName s1 w name).1 = (getProductByName s2 w name).1 := by
          show mapGet (getAllProducts s1 w).2.productCache _ =
            mapGet (getAllProducts s2 w).2.productCache _
          rw [h]
        rw [e]
        split <;> rfl
      · rw [mapProductInput_name_not_string s1 w input json hn hid,
          mapProductInput_name_not_string s2 w input json hn hid]
    | false =>
      rw [mapProductInput_neither s1 w input hid hname,
        mapProductInput_neither s2 w input hid hname]

/-- The batch, started in any state that reads the same cache as `s`, returns
the records `mapProductInput` returns in `s`, the failures left out. -/
theorem mapProductInputs_eq_filterMap (s : Service) (w : World) (inputs : List BatchElement) :
    ∀ s1 : Service,
      (getAllProducts s1 w).2.productCache = (getAllProducts s w).2.productCache →
      (mapProductInputs s1 w inputs).1 =
        inputs.filterMap (fun i =>
          match i with
          | .object input => (mapProductInput s w input).1.toOption
          | .nonObject => none) := by
  induction inputs with
  | nil => intro s1 _; rfl
  | cons element rest ih =>
    intro s1 h1
    cases element with
    | nonObject =>
      simp only [mapProductInputs, List.filterMap_cons]
      exact ih s1 h1
    | object input =>
    have hres := mapProductInput_result_congr s1 s w input h1
    have hnext : (getAllProducts (mapProductInput s1 w input).2 w).2.productCache =
        (getAllProducts s w).2.productCache := by
      rcases mapProductInput_state s1 w input with e | e
      · rw [e, h1]
      · rw [e, getAllProducts_settled, h1]
    have ihn := ih _ hnext
    cases hm : mapProductInput s1 w input with
    | mk r s2 =>
      rw [hm] at hres ihn
      simp only [] at hres ihn
      cases r with
      | ok v =>
        simp only [mapProductInputs, hm, List.filterMap_cons, ← hres, Except.toOption, ihn]
      | error e =>
        simp only [mapProductInputs, hm, List.filterMap_cons, ← hres, Except.toOption, ihn]

/-! ## Facts about lines -/

theorem splitLines_ne_nil (s : List Char) : splitLines s ≠ [] := by
  cases s with
  | nil => simp [splitLines]
  | cons c cs =>
    unfold splitLines
    split
    · simp
    · split <;> simp

/-- A text without line feed is one line. -/
theorem splitLines_of_no_newline (l : List Char) (h : '\n' ∉ l) : splitLines l = [l] := by
  induction l with
  | nil => rfl
  | cons c cs ih =>
    have hc : c ≠ '\n' := fun e => h (by simp [e])
    have hcs : '\n' ∉ cs := fun e => h (List.mem_cons_of_mem _ e)
    simp [splitLines, hc, ih hcs]

/-- Splitting at a line feed splits the lines. -/
theorem splitLines_append_newline (a l : List Char) :
    splitLines (a ++ '\n' :: l) = splitLines a ++ splitLines l := by
  induction a with
  | nil => simp [splitLines]
  | cons c cs ih =>
    by_cases hc : c = '\n'
    · simp [splitLines, hc, ih]
    · obtain ⟨line, lines, hsplit⟩ : ∃ line lines, splitLines cs = line :: lines := by
        cases h : splitLines cs with
        | nil => exact absurd h (splitLines_ne_nil cs)
        | cons line lines => exact ⟨line, lines, rfl⟩
      simp [splitLines, hc, ih, hsplit]

/-- The last line of a text that ends with a line without line feed, standing
alone or after a line feed. -/
theorem getLastD_splitLines (p l : List Char) (hl : '\n' ∉ l)
    (hp : p = [] ∨ ∃ q, p = q ++ ['\n']) :
    (splitLines (p ++ l)).getLastD [] = l := by
  rcases hp with rfl | ⟨q, rfl⟩
  · simp [splitLines_of_no_newline l hl]
  · rw [List.append_assoc, List.singleton_append, splitLines_append_newline,
      splitLines_of_no_newline l hl, List.getLastD_concat]

/-- Dropping leading white space from `d`, a line feed and a text that starts
with a visible character leaves that text, alone or after a line feed. -/
theorem dropWhile_before_line (d r : List Char)
    (hr : ∃ c rest, r = c :: rest ∧ isWhiteSpace c = false) :
    ∃ p, (d ++ '\n' :: r).dropWhile isWhiteSpace = p ++ r ∧
      (p = [] ∨ ∃ q, p = q ++ ['\n']) := by
  obtain ⟨c, rest, rfl, hc⟩ := hr
  induction d with
  | nil =>
    refine ⟨[], ?_, Or.inl rfl⟩
    have hn : isWhiteSpace '\n' = true := by decide
    simp [List.dropWhile_cons, hn, hc]
  | cons a t ih =>
    by_cases ha : isWhiteSpace a = true
    · obtain ⟨p, hp, hq⟩ := ih
      exact ⟨p, by simpa [List.dropWhile_cons, ha] using hp, hq⟩
    · refine ⟨(a :: t) ++ ['\n'], ?_, Or.inr ⟨a :: t, rfl⟩⟩
      simp [List.dropWhile_cons, ha]

/-- Dropping white space from the front of white space followed by a text that
is empty or starts with a visible character leaves that text. -/
theorem dropWhile_whitespace_then (a b : List Char)
    (ha : ∀ c ∈ a, isWhiteSpace c = true)
    (hb : ∀ c, b.head? = some c → isWhiteSpace c = false) :
    (a ++ b).dropWhile isWhiteSpace = b := by
  rw [List.dropWhile_append_of_pos ha]
  cases b with
  | nil => rfl
  | cons c rest =>
    have := hb c rfl
    simp [List.dropWhile_cons, this]

/-- The trimmed output: the last line, alone or after a line feed. -/
theorem trim_output (d l t : List Char) (hne : l ≠ [])
    (hhead : ∀ c, l.head? = some c → isWhiteSpace c = false)
    (hlast : ∀ c, l.getLast? = some c → isWhiteSpace c = false)
    (ht : ∀ c ∈ t, isWhiteSpace c = true) :
    ∃ p, trim (d ++ '\n' :: (l ++ t)) = p ++ l ∧ (p = [] ∨ ∃ q, p = q ++ ['\n']) := by
  obtain ⟨c, rest, hl⟩ : ∃ c rest, l = c :: rest := by
    cases l with
    | nil => exact absurd rfl hne
    | cons c rest => exact ⟨c, rest, rfl⟩
  have hc : isWhiteSpace c = false := hhead c (by rw [hl]; rfl)
  obtain ⟨p, hp, hq⟩ := dropWhile_before_line d (l ++ t) ⟨c, rest ++ t, by rw [hl]; rfl, hc⟩
  refine ⟨p, ?_, hq⟩
  unfold trim
  rw [hp]
  have hrev : (p ++ (l ++ t)).reverse = t.reverse ++ (p ++ l).reverse := by simp
  rw [hrev, dropWhile_whitespace_then]
  · simp
  · intro x hx
    exact ht x (List.mem_reverse.1 hx)
  · intro x hx
    rw [List.head?_reverse, List.getLast?_append] at hx
    cases hlast1 : l.getLast? with
    | none =>
      exact absurd (List.getLast?_eq_none_iff.1 hlast1) hne
    | some y =>
      rw [hlast1] at hx
      have : y = x := by simpa using hx
      subst this
      exact hlast y hlast1

/-- The text that is decoded, in the situation of a final line after
diagnostics. -/
theorem lastLine_after_diagnostics (d l t : List Char) (hne : l ≠ [])
    (hnl : '\n' ∉ l)
    (hhead : ∀ c, l.head? = some c → isWhiteSpace c = false)
    (hlast : ∀ c, l.getLast? = some c → isWhiteSpace c = false)
    (ht : ∀ c ∈ t, isWhiteSpace c = true) :
    lastLine (String.mk (d ++ '\n' :: (l ++ t))) = String.mk l := by
  obtain ⟨p, hp, hq⟩ := trim_output d l t hne hhead hlast ht
  unfold lastLine
  simp only [hp]
  rw [getLastD_splitLines p l hnl hq]

/-! ## Facts about the keys and the contents of the cache -/

theorem mem_of_mapGet (m : List (String × Product)) (k : String) (p : Product)
    (h : mapGet m k = some p) : (k, p) ∈ m := by
  induction m with
  | nil => simp [mapGet] at h
  | cons e rest ih =>
    obtain ⟨k1, v1⟩ := e
    by_cases hk : k1 = k
    · subst hk
      simp only [mapGet, if_true, Option.some.injEq] at h
      subst h
      exact List.mem_cons_self _ _
    · simp only [mapGet, hk, if_false] at h
      exact List.mem_cons_of_mem _ (ih h)

theorem mapSet_ne_nil (m : List (String × Product)) (k : String) (v : Product) :
    mapSet m k v ≠ [] := by
  cases m with
  | nil => simp [mapSet]
  | cons e rest =>
    obtain ⟨k1, v1⟩ := e
    by_cases hk : k1 = k <;> simp [mapSet, hk]

/-- Every entry of a map after `set` is the entry set or an entry from before. -/
theorem mem_mapSet (m : List (String × Product)) (k : String) (v : Product)
    (e : String × Product) (h : e ∈ mapSet m k v) : e = (k, v) ∨ e ∈ m := by
  induction m with
  | nil =>
    simp only [mapSet, List.mem_singleton] at h
    exact Or.inl h
  | cons e1 rest ih =>
    obtain ⟨k1, v1⟩ := e1
    by_cases hk : k1 = k
    · simp only [mapSet, hk, if_true, List.mem_cons] at h
      rcases h with h | h
      · exact Or.inl h
      · exact Or.inr (List.mem_cons_of_mem _ h)
    · simp only [mapSet, hk, if_false, List.mem_cons] at h
      rcases h with h | h
      · exact Or.inr (by rw [h]; exact List.mem_cons_self _ _)
      · rcases ih h with h1 | h1
        · exact Or.inl h1
        · exact Or.inr (List.mem_cons_of_mem _ h1)

/-- The cache a list of store products builds, from a map `m0`. -/
theorem mem_foldl_mapSet (l : List StoreProduct) (m0 : List (String × Product))
    (e : String × Product)
    (h : e ∈ l.foldl
          (fun m product =>
            mapSet m (normalizeProductName product.product_name)
              { product_id := product.product_id,
                product_name := product.product_name,
                category := product.category })
          m0) :
    e ∈ m0 ∨ ∃ d ∈ l, e = (normalizeProductName d.product_name,
      ⟨d.product_id, d.product_name, d.category⟩) := by
  induction l generalizing m0 with
  | nil => exact Or.inl h
  | cons d rest ih =>
    rw [List.foldl_cons] at h
    rcases ih _ h with h1 | ⟨d1, hd1, he⟩
    · rcases mem_mapSet _ _ _ _ h1 with h2 | h2
      · exact Or.inr ⟨d, List.mem_cons_self _ _, h2⟩
      · exact Or.inl h2
    · exact Or.inr ⟨d1, List.mem_cons_of_mem _ hd1, he⟩

theorem foldl_mapSet_eq_nil (l : List StoreProduct) (m0 : List (String × Product)) :
    l.foldl
        (fun m product =>
          mapSet m (normalizeProductName product.product_name)
            { product_id := product.product_id,
              product_name := product.product_name,
              category := product.category })
        m0 = [] ↔ l = [] ∧ m0 = [] := by
  induction l generalizing m0 with
  | nil => simp
  | cons d rest ih =>
    rw [List.foldl_cons, ih]
    constructor
    · rintro ⟨_, h⟩
      exact absurd h (mapSet_ne_nil _ _ _)
    · rintro ⟨h, _⟩
      exact absurd h (by simp)

/-- Every entry of the fallback cache is a product of the fallback table under
its normalized name. -/
theorem fallbackCache_entries :
    ∀ e ∈ fallbackCache,
      e.2 ∈ fallbackProducts ∧ e.1 = normalizeProductName e.2.product_name := by
  decide

theorem fallbackCache_ne_nil : fallbackCache ≠ [] := by
  decide

/-- The keys of a cache are the normalized names of the products under them. -/
theorem keys_normalized_mapSet (m : List (String × Product)) (p : Product)
    (h : ∀ e ∈ m, e.1 = normalizeProductName e.2.product_name) :
    ∀ e ∈ mapSet m (normalizeProductName p.product_name)
        { product_id := p.product_id, product_name := p.product_name, category := p.category },
      e.1 = normalizeProductName e.2.product_name := by
  intro e he
  rcases mem_mapSet _ _ _ _ he with h1 | h1
  · rw [h1]
  · exact h e h1

theorem keys_normalized_refreshCache (s : Service) (w : World) :
    ∀ e ∈ (refreshCache s w).productCache, e.1 = normalizeProductName e.2.product_name := by
  intro e he
  cases hs : w.store with
  | none =>
    rw [refreshCache_store_none s w hs, loadFallbackProducts_productCache] at he
    exact (fallbackCache_entries e he).2
  | some docs =>
    rw [refreshCache_store_some s w docs hs] at he
    rcases mem_foldl_mapSet _ _ _ he with h1 | ⟨d, _, hd⟩
    · simp at h1
    · rw [hd]

theorem keys_normalized_applyOp (s : Service) (op : CacheOp)
    (h : ∀ e ∈ s.productCache, e.1 = normalizeProductName e.2.product_name) :
    ∀ e ∈ (applyOp s op).productCache, e.1 = normalizeProductName e.2.product_name := by
  cases op with
  | refresh w => exact keys_normalized_refreshCache s w
  | loadFallback now =>
    intro e he
    rw [applyOp, loadFallbackProducts_productCache] at he
    exact (fallbackCache_entries e he).2
  | add product => exact keys_normalized_mapSet s.productCache product h
  | remove productName =>
    intro e he
    exact h e (List.mem_of_mem_filter he)

theorem keys_normalized_runOps (ops : List CacheOp) (s : Service)
    (h : ∀ e ∈ s.productCache, e.1 = normalizeProductName e.2.product_name) :
    ∀ e ∈ (runOps s ops).productCache, e.1 = normalizeProductName e.2.product_name := by
  induction ops generalizing s with
  | nil => exact h
  | cons op rest ih =>
    exact ih (applyOp s op) (keys_normalized_applyOp s op h)

/-- What a lookup finds in a cache that a refresh has built comes from the
source of that refresh: the fallback table, or an active product of the store. -/
theorem mapGet_refreshCache_source (s : Service) (w : World) (k : String) (q : Product)
    (h : mapGet (refreshCache s w).productCache k = some q) :
    (w.store = none ∧ q ∈ fallbackProducts ∧ normalizeProductName q.product_name = k) ∨
    (∃ docs d, w.store = some docs ∧ d ∈ docs ∧ d.is_active = true ∧
      normalizeProductName d.product_name = k ∧
      q = ⟨d.product_id, d.product_name, d.category⟩) := by
  have hmem := mem_of_mapGet _ _ _ h
  cases hs : w.store with
  | none =>
    rw [refreshCache_store_none s w hs, loadFallbackProducts_productCache] at hmem
    have := fallbackCache_entries _ hmem
    exact Or.inl ⟨rfl, this.1, this.2.symm⟩
  | some docs =>
    rw [refreshCache_store_some s w docs hs] at hmem
    rcases mem_foldl_mapSet _ _ _ hmem with h1 | ⟨d, hd, he⟩
    · simp at h1
    · have hd1 : d ∈ docs ∧ d.is_active = true := by
        simpa [findActive] using hd
      have hk : k = normalizeProductName d.product_name := congrArg Prod.fst he
      have hq : q = ⟨d.product_id, d.product_name, d.category⟩ := congrArg Prod.snd he
      exact Or.inr ⟨docs, d, rfl, hd1.1, hd1.2, hk.symm, hq⟩

/-- A refresh builds an empty cache exactly when the store query succeeds with
no active product. -/
theorem refreshCache_productCache_eq_nil (s : Service) (w : World) :
    (refreshCache s w).productCache = [] ↔ ∃ docs, w.store = some docs ∧ findActive docs = [] := by
  cases hs : w.store with
  | none =>
    rw [refreshCache_store_none s w hs, loadFallbackProducts_productCache]
    constructor
    · intro h
      exact absurd h fallbackCache_ne_nil
    · rintro ⟨docs, hd, _⟩
      exact absurd hd (by simp)
  | some docs =>
    rw [refreshCache_store_some s w docs hs]
    simp only [foldl_mapSet_eq_nil, and_true]
    constructor
    · intro h
      exact ⟨docs, rfl, h⟩
    · rintro ⟨docs1, hd, h⟩
      have : docs = docs1 := by simpa using hd
      rw [this]
      exact h

/-! ## Facts about normalization -/

theorem isWhiteSpace_toNat (c : Char) (h : isWhiteSpace c = true) :
    c.toNat ≤ 32 ∨ 160 ≤ c.toNat := by
  simp only [isWhiteSpace, Bool.or_eq_true, beq_iff_eq, Bool.and_eq_true,
    decide_eq_true_eq] at h
  omega

theorem lowerChar_toNat_of_upper (c : Char) (h : 65 ≤ c.toNat ∧ c.toNat ≤ 90) :
    (lowerChar c).toNat = c.toNat + 32 := by
  have hc : c = Char.ofNat c.toNat := (Char.ofNat_toNat c).symm
  obtain ⟨h1, h2⟩ := h
  generalize c.toNat = n at hc h1 h2
  subst hc
  interval_cases n <;> decide

/-- A character that the simple mapping leaves as it is lies outside `A` to `Z`. -/
theorem not_upper_of_lowerChar_eq (c : Char) (h : lowerChar c = c) :
    ¬ (65 ≤ c.toNat ∧ c.toNat ≤ 90) := by
  intro hu
  have h1 := lowerChar_toNat_of_upper c hu
  rw [h] at h1
  omega

theorem toNat_ofNat_of_valid (n : Nat) (h : n < 0xD800 ∨ (0xDFFF < n ∧ n < 0x110000)) :
    (Char.ofNat n).toNat = n := by
  have hv : n.isValidChar := h
  simp [Char.ofNat, hv, Char.toNat, Char.ofNatAux, UInt32.toNat]

/-- The simple mapping either leaves a code point as it is or sends it to an
image listed in the table. -/
theorem lowerCodePointIn_image (table : List (Nat × Nat × Nat × Nat)) (n : Nat) :
    lowerCodePointIn table n = n ∨
    ∃ e ∈ table, ∃ k, k ≤ e.2.1 - 1 ∧
      lowerCodePointIn table n = e.2.2.2 + k * e.2.2.1 := by
  induction table with
  | nil => exact Or.inl rfl
  | cons e rest ih =>
    obtain ⟨first, count, stride, image⟩ := e
    unfold lowerCodePointIn
    by_cases h1 : n < first
    · rw [if_pos h1]
      exact Or.inl rfl
    · rw [if_neg h1]
      by_cases h2 : n ≤ first + (count - 1) * stride ∧ (n - first) % stride = 0
      · rw [if_pos h2]
        right
        refine ⟨(first, count, stride, image), List.mem_cons_self _ _, (n - first) / stride, ?_, ?_⟩
        · show (n - first) / stride ≤ count - 1
          rcases Nat.eq_zero_or_pos stride with hs | hs
          · subst hs
            simp
          · apply Nat.div_le_of_le_mul
            rw [Nat.mul_comm]
            omega
        · show image + (n - first) = image + (n - first) / stride * stride
          rw [Nat.div_mul_cancel (Nat.dvd_of_mod_eq_zero h2.2)]
      · rw [if_neg h2]
        rcases ih with h | ⟨e, he, k, hk, hm⟩
        · exact Or.inl h
        · exact Or.inr ⟨e, List.mem_cons_of_mem _ he, k, hk, hm⟩

/-- The check `runFixedIn` is sound: the mapping fixes every code point of a
run that passes it. -/
theorem runFixedIn_sound (lo count stride : Nat) (table : List (Nat × Nat × Nat × Nat))
    (h : runFixedIn lo count stride table = true) (k : Nat) (hk : k ≤ count - 1) :
    lowerCodePointIn table (lo + k * stride) = lo + k * stride := by
  have hm : lo + k * stride ≤ lo + (count - 1) * stride :=
    Nat.add_le_add_left (Nat.mul_le_mul_right _ hk) _
  induction table with
  | nil => rfl
  | cons e rest ih =>
    obtain ⟨first, count1, stride1, image1⟩ := e
    unfold runFixedIn at h
    unfold lowerCodePointIn
    by_cases h1 : lo + (count - 1) * stride < first
    · rw [if_pos (by omega)]
    · rw [if_neg h1] at h
      by_cases h2 : first + (count1 - 1) * stride1 < lo ∨
          (stride1 = 2 ∧ (stride = 2 ∨ count = 1) ∧ lo % 2 ≠ first % 2)
      · rw [if_pos h2] at h
        by_cases h3 : lo + k * stride < first
        · rw [if_pos h3]
        · rw [if_neg h3]
          rw [if_neg, ih h]
          rintro ⟨h4, h5⟩
          rcases h2 with h2 | ⟨h6, h7, h8⟩
          · omega
          · subst h6
            rcases h7 with h7 | h7
            · subst h7
              omega
            · have hk0 : k = 0 := by omega
              subst hk0
              omega
      · rw [if_neg h2] at h
        exact absurd h (by decide)

theorem forall_mem_of_take_drop {α : Type} (P : α → Prop) (n : Nat) (l : List α)
    (h1 : ∀ e ∈ l.take n, P e) (h2 : ∀ e ∈ l.drop n, P e) : ∀ e ∈ l, P e := by
  intro e he
  rw [← List.take_append_drop n l, List.mem_append] at he
  rcases he with h | h
  · exact h1 e h
  · exact h2 e h

theorem lowerCaseTable_images_from_0 :
    ∀ e ∈ (lowerCaseTable.drop 0).take 20, imagesFixedBy lowerCaseTable e = true := by
  decide!

theorem lowerCaseTable_images_from_20 :
    ∀ e ∈ (lowerCaseTable.drop 20).take 20, imagesFixedBy lowerCaseTable e = true := by
  decide!

theorem lowerCaseTable_images_from_40 :
    ∀ e ∈ (lowerCaseTable.drop 40).take 20, imagesFixedBy lowerCaseTable e = true := by
  decide!

theorem lowerCaseTable_images_from_60 :
    ∀ e ∈ (lowerCaseTable.drop 60).take 20, imagesFixedBy lowerCaseTable e = true := by
  decide!

theorem lowerCaseTable_images_from_80 :
    ∀ e ∈ (lowerCaseTable.drop 80).take 20, imagesFixedBy lowerCaseTable e = true := by
  decide!

theorem lowerCaseTable_images_from_100 :
    ∀ e ∈ (lowerCaseTable.drop 100).take 20, imagesFixedBy lowerCaseTable e = true := by
  decide!

theorem lowerCaseTable_images_from_120 :
    ∀ e ∈ (lowerCaseTable.drop 120).take 20, imagesFixedBy lowerCaseTable e = true := by
  decide!

theorem lowerCaseTable_images_from_140 :
    ∀ e ∈ (lowerCaseTable.drop 140).take 20, imagesFixedBy lowerCaseTable e = true := by
  decide!

theorem lowerCaseTable_images_from_160 :
    ∀ e ∈ (lowerCaseTable.drop 160).take 20, imagesFixedBy lowerCaseTable e = true := by
  decide!

theorem lowerCaseTable_images_from_180 :
    ∀ e ∈ (lowerCaseTable.drop 180).take 20, imagesFixedBy lowerCaseTable e = true := by
  decide!

/-- Every entry of the table of the simple mapping passes the check
`imagesFixedBy`: no image has an image of its own. -/
theorem lowerCaseTable_images :
    ∀ e ∈ lowerCaseTable, imagesFixedBy lowerCaseTable e = true := by
  refine forall_mem_of_take_drop _ 20 _ lowerCaseTable_images_from_0 ?_
  refine forall_mem_of_take_drop _ 20 _ lowerCaseTable_images_from_20 ?_
  rw [List.drop_drop]
  refine forall_mem_of_take_drop _ 20 _ lowerCaseTable_images_from_40 ?_
  rw [List.drop_drop]
  refine forall_mem_of_take_drop _ 20 _ lowerCaseTable_images_from_60 ?_
  rw [List.drop_drop]
  refine forall_mem_of_take_drop _ 20 _ lowerCaseTable_images_from_80 ?_
  rw [List.drop_drop]
  refine forall_mem_of_take_drop _ 20 _ lowerCaseTable_images_from_100 ?_
  rw [List.drop_drop]
  refine forall_mem_of_take_drop _ 20 _ lowerCaseTable_images_from_120 ?_
  rw [List.drop_drop]
  refine forall_mem_of_take_drop _ 20 _ lowerCaseTable_images_from_140 ?_
  rw [List.drop_drop]
  refine forall_mem_of_take_drop _ 20 _ lowerCaseTable_images_from_160 ?_
  rw [List.drop_drop]
  refine forall_mem_of_take_drop _ 20 _ lowerCaseTable_images_from_180 ?_
  rw [List.drop_drop]
  have hend : List.drop (20 + 180) lowerCaseTable = [] := by decide!
  rw [hend]
  intro e he
  simp at he

/-- What the simple mapping returns is left as it is by `toLowerCase`: the
mapping fixes it, and it is neither of the two characters treated apart. -/
theorem lowerChar_stable (c : Char) (h : c.toNat ≠ 0x0130) :
    lowerChar (lowerChar c) = lowerChar c ∧ (lowerChar c).toNat ≠ 0x03A3 ∧
      (lowerChar c).toNat ≠ 0x0130 := by
  have hsigma : ∀ d : Char, lowerChar d = d → d.toNat ≠ 0x03A3 := by
    intro d hd h3
    have h4 : (lowerChar d).toNat = d.toNat := by rw [hd]
    have h5 : (lowerChar d).toNat = 0x03C3 := by
      show (Char.ofNat (lowerCodePoint d.toNat)).toNat = _
      rw [h3]
      decide
    omega
  rcases lowerCodePointIn_image lowerCaseTable c.toNat with h0 | ⟨e, he, k, hk, hm⟩
  · have hc : lowerChar c = c := by
      show Char.ofNat (lowerCodePointIn lowerCaseTable c.toNat) = c
      rw [h0, Char.ofNat_toNat]
    rw [hc]
    exact ⟨hc, hsigma c hc, h⟩
  · have hchk := lowerCaseTable_images e he
    simp only [imagesFixedBy, Bool.and_eq_true, decide_eq_true_eq] at hchk
    obtain ⟨⟨f1, f2⟩, f3⟩ := hchk
    have hle : e.2.2.2 + k * e.2.2.1 ≤ e.2.2.2 + (e.2.1 - 1) * e.2.2.1 :=
      Nat.add_le_add_left (Nat.mul_le_mul_right _ hk) _
    have hc : lowerChar c = Char.ofNat (e.2.2.2 + k * e.2.2.1) := by
      show Char.ofNat (lowerCodePointIn lowerCaseTable c.toNat) = _
      rw [hm]
    have hn : (Char.ofNat (e.2.2.2 + k * e.2.2.1)).toNat = e.2.2.2 + k * e.2.2.1 :=
      toNat_ofNat_of_valid _ (by omega)
    have hfix : lowerChar (lowerChar c) = lowerChar c := by
      rw [hc]
      show Char.ofNat (lowerCodePointIn lowerCaseTable (Char.ofNat (e.2.2.2 + k * e.2.2.1)).toNat)
        = _
      rw [hn, runFixedIn_sound _ _ _ _ f1 k hk]
    refine ⟨hfix, hsigma _ hfix, ?_⟩
    rw [hc, hn]
    omega

/-- No character that `toLowerCase` puts out is changed by `toLowerCase`. -/
theorem lowerFrom_mem (flag : Bool) (l : List Char) :
    ∀ c ∈ lowerFrom flag l, lowerChar c = c ∧ c.toNat ≠ 0x03A3 ∧ c.toNat ≠ 0x0130 := by
  induction l generalizing flag with
  | nil => intro c hc; simp [lowerFrom] at hc
  | cons d rest ih =>
    intro c hc
    unfold lowerFrom at hc
    by_cases h1 : d.toNat = 0x03A3
    · simp only [if_pos h1, List.mem_cons] at hc
      rcases hc with h | h
      · rw [h]
        split <;> decide
      · exact ih _ c h
    · by_cases h2 : d.toNat = 0x0130
      · simp only [if_neg h1, if_pos h2, List.mem_cons] at hc
        rcases hc with h | h | h
        · rw [h]; decide
        · rw [h]; decide
        · exact ih _ c h
      · simp only [if_neg h1, if_neg h2, List.mem_cons] at hc
        rcases hc with h | h
        · rw [h]
          exact lowerChar_stable d h2
        · exact ih _ c h

/-- A text made of characters that `toLowerCase` does not change is left as it is. -/
theorem lowerFrom_fixed (flag : Bool) (l : List Char)
    (h : ∀ c ∈ l, lowerChar c = c ∧ c.toNat ≠ 0x03A3 ∧ c.toNat ≠ 0x0130) :
    lowerFrom flag l = l := by
  induction l generalizing flag with
  | nil => rfl
  | cons d rest ih =>
    obtain ⟨h1, h2, h3⟩ := h d (List.mem_cons_self _ _)
    unfold lowerFrom
    simp only [if_neg h2, if_neg h3, h1]
    rw [ih _ (fun c hc => h c (List.mem_cons_of_mem _ hc))]

/-- One character on its own is left as it is by `toLowerCase` exactly when the
simple mapping fixes it and it is neither U+03A3 nor U+0130. -/
theorem toLowerCase_singleton (c : Char) :
    toLowerCase [c] = [c] ↔ (lowerChar c = c ∧ c.toNat ≠ 0x03A3 ∧ c.toNat ≠ 0x0130) := by
  constructor
  · intro h
    have hm := lowerFrom_mem false [c] c (by
      show c ∈ toLowerCase [c]
      rw [h]
      exact List.mem_cons_self _ _)
    exact hm
  · intro h
    exact lowerFrom_fixed false [c] (by
      intro d hd
      rw [List.mem_singleton] at hd
      rw [hd]
      exact h)

theorem not_upper_of_isWhiteSpace (c : Char) (h : isWhiteSpace c = true) :
    ¬ (65 ≤ c.toNat ∧ c.toNat ≤ 90) := by
  have := isWhiteSpace_toNat c h
  omega

theorem replaceRuns_mem (flag : Bool) (l : List Char) :
    ∀ c ∈ replaceRuns flag l, c = ' ' ∨ c ∈ l := by
  induction l generalizing flag with
  | nil => intro c hc; simp [replaceRuns] at hc
  | cons d rest ih =>
    intro c hc
    by_cases hd : isWhiteSpace d = true
    · cases flag with
      | true =>
        simp only [replaceRuns, hd, if_true] at hc
        rcases ih true c hc with h | h
        · exact Or.inl h
        · exact Or.inr (List.mem_cons_of_mem _ h)
      | false =>
        simp only [replaceRuns, hd, if_true, Bool.false_eq_true, if_false, List.mem_cons] at hc
        rcases hc with h | h
        · exact Or.inl h
        · rcases ih true c h with h1 | h1
          · exact Or.inl h1
          · exact Or.inr (List.mem_cons_of_mem _ h1)
    · simp only [replaceRuns, hd, Bool.false_eq_true, if_false, List.mem_cons] at hc
      rcases hc with h | h
      · exact Or.inr (by rw [h]; exact List.mem_cons_self _ _)
      · rcases ih false c h with h1 | h1
        · exact Or.inl h1
        · exact Or.inr (List.mem_cons_of_mem _ h1)

/-- The only white space `replace(/\s+/g, ' ')` leaves is the space. -/
theorem replaceRuns_whitespace (flag : Bool) (l : List Char) :
    ∀ c ∈ replaceRuns flag l, isWhiteSpace c = true → c = ' ' := by
  induction l generalizing flag with
  | nil => intro c hc; simp [replaceRuns] at hc
  | cons d rest ih =>
    intro c hc hw
    by_cases hd : isWhiteSpace d = true
    · cases flag with
      | true =>
        simp only [replaceRuns, hd, if_true] at hc
        exact ih true c hc hw
      | false =>
        simp only [replaceRuns, hd, if_true, Bool.false_eq_true, if_false, List.mem_cons] at hc
        rcases hc with h | h
        · exact h
        · exact ih true c h hw
    · simp only [replaceRuns, hd, Bool.false_eq_true, if_false, List.mem_cons] at hc
      rcases hc with h | h
      · rw [h] at hw
        exact absurd hw hd
      · exact ih false c h hw

/-- Inside a run nothing is put out before the next visible character. -/
theorem replaceRuns_true_head (l : List Char) :
    ∀ c, (replaceRuns true l).head? = some c → isWhiteSpace c = false := by
  induction l with
  | nil => intro c hc; simp [replaceRuns] at hc
  | cons d rest ih =>
    intro c hc
    by_cases hd : isWhiteSpace d = true
    · simp only [replaceRuns, hd, if_true] at hc
      exact ih c hc
    · simp only [replaceRuns, hd, Bool.false_eq_true, if_false, List.head?_cons,
        Option.some.injEq] at hc
      rw [← hc]
      simpa using hd

/-- No two white-space characters stand next to each other in the result. -/
theorem replaceRuns_chain (flag : Bool) (l : List Char) :
    List.Chain' (fun a b => ¬ (isWhiteSpace a = true ∧ isWhiteSpace b = true))
      (replaceRuns flag l) := by
  induction l generalizing flag with
  | nil => simp [replaceRuns]
  | cons d rest ih =>
    by_cases hd : isWhiteSpace d = true
    · cases flag with
      | true =>
        simp only [replaceRuns, hd, if_true]
        exact ih true
      | false =>
        simp only [replaceRuns, hd, if_true, Bool.false_eq_true, if_false]
        rw [List.chain'_cons']
        refine ⟨?_, ih true⟩
        intro y hy
        have := replaceRuns_true_head rest y hy
        simp [this]
    · simp only [replaceRuns, hd, Bool.false_eq_true, if_false]
      rw [List.chain'_cons']
      refine ⟨?_, ih false⟩
      intro y _
      simp [hd]

/-- A text that ends with a visible character keeps it at the end. -/
theorem replaceRuns_getLast (flag : Bool) (l : List Char) (d : Char)
    (hl : l.getLast? = some d) (hd : isWhiteSpace d = false) :
    (replaceRuns flag l).getLast? = some d := by
  induction l generalizing flag with
  | nil => simp at hl
  | cons a rest ih =>
    cases rest with
    | nil =>
      have : a = d := by simpa using hl
      subst this
      simp [replaceRuns, hd]
    | cons b rest1 =>
      rw [List.getLast?_cons_cons] at hl
      have key : ∀ f : Bool, ∀ y : Char,
          (y :: replaceRuns f (b :: rest1)).getLast? = some d := by
        intro f y
        have h1 := ih f hl
        cases hx : replaceRuns f (b :: rest1) with
        | nil => rw [hx] at h1; simp at h1
        | cons x xs =>
          rw [hx] at h1
          rw [List.getLast?_cons_cons]
          exact h1
      by_cases ha : isWhiteSpace a = true
      · cases flag with
        | true =>
          simp only [replaceRuns, ha, if_true]
          exact ih true hl
        | false =>
          have e : replaceRuns false (a :: b :: rest1) = ' ' :: replaceRuns true (b :: rest1) := by
            simp [replaceRuns, ha]
          rw [e]
          exact key true ' '
      · have e : replaceRuns flag (a :: b :: rest1) = a :: replaceRuns false (b :: rest1) := by
          simp [replaceRuns, ha]
        rw [e]
        exact key false a

/-- A text without leading, trailing or doubled white space, whose only white
space is the space, is left as it is. -/
theorem replaceRuns_fixed (l : List Char)
    (hws : ∀ c ∈ l, isWhiteSpace c = true → c = ' ')
    (hchain : List.Chain' (fun a b => ¬ (isWhiteSpace a = true ∧ isWhiteSpace b = true)) l)
    (hlast : ∀ c, l.getLast? = some c → isWhiteSpace c = false) :
    replaceRuns false l = l ∧
      ((∀ c, l.head? = some c → isWhiteSpace c = false) → replaceRuns true l = l) := by
  induction l with
  | nil => simp [replaceRuns]
  | cons a rest ih =>
    have hws1 : ∀ c ∈ rest, isWhiteSpace c = true → c = ' ' :=
      fun c hc => hws c (List.mem_cons_of_mem _ hc)
    have hchain1 := (List.chain'_cons'.1 hchain).2
    have hhead1 := (List.chain'_cons'.1 hchain).1
    have hlast1 : ∀ c, rest.getLast? = some c → isWhiteSpace c = false := by
      intro c hc
      apply hlast c
      cases rest with
      | nil => simp at hc
      | cons b rest1 => rw [List.getLast?_cons_cons]; exact hc
    obtain ⟨ih1, ih2⟩ := ih hws1 hchain1 hlast1
    by_cases ha : isWhiteSpace a = true
    · have hsp : a = ' ' := hws a (List.mem_cons_self _ _) ha
      have hrest : ∀ c, rest.head? = some c → isWhiteSpace c = false := by
        intro c hc
        have := hhead1 c hc
        simpa [ha] using this
      constructor
      · simp only [replaceRuns, ha, if_true, Bool.false_eq_true, if_false]
        rw [ih2 hrest, hsp]
      · intro hh
        have := hh a rfl
        rw [ha] at this
        exact absurd this (by decide)
    · constructor
      · simp only [replaceRuns, ha, Bool.false_eq_true, if_false]
        rw [ih1]
      · intro _
        simp only [replaceRuns, ha, Bool.false_eq_true, if_false]
        rw [ih1]

theorem getLast?_of_suffix (z y : List Char) (c : Char) (h : z <:+ y)
    (hz : z.getLast? = some c) : y.getLast? = some c := by
  obtain ⟨t, rfl⟩ := h
  rw [List.getLast?_append, hz]
  rfl

/-- `trim` leaves no white space at the start. -/
theorem trim_head (l : List Char) :
    ∀ c, (trim l).head? = some c → isWhiteSpace c = false := by
  intro c hc
  unfold trim at hc
  rw [List.head?_reverse] at hc
  have h1 := getLast?_of_suffix _ _ c (List.dropWhile_suffix isWhiteSpace) hc
  rw [List.getLast?_reverse] at h1
  have h2 := List.head?_dropWhile_not isWhiteSpace l
  rw [h1] at h2
  simpa using h2

/-- `trim` leaves no white space at the end. -/
theorem trim_getLast (l : List Char) :
    ∀ c, (trim l).getLast? = some c → isWhiteSpace c = false := by
  intro c hc
  unfold trim at hc
  rw [List.getLast?_reverse] at hc
  have h2 := List.head?_dropWhile_not isWhiteSpace (l.dropWhile isWhiteSpace).reverse
  rw [hc] at h2
  simpa using h2

theorem trim_mem (l : List Char) : ∀ c ∈ trim l, c ∈ l := by
  intro c hc
  unfold trim at hc
  rw [List.mem_reverse] at hc
  have h1 := (List.dropWhile_sublist isWhiteSpace).subset hc
  rw [List.mem_reverse] at h1
  exact (List.dropWhile_sublist isWhiteSpace).subset h1

theorem dropWhile_of_head (l : List Char)
    (h : ∀ c, l.head? = some c → isWhiteSpace c = false) :
    l.dropWhile isWhiteSpace = l := by
  cases l with
  | nil => rfl
  | cons a rest =>
    have := h a rfl
    simp [List.dropWhile_cons, this]

/-- A text without white space at either end is left as it is by `trim`. -/
theorem trim_fixed (l : List Char)
    (hhead : ∀ c, l.head? = some c → isWhiteSpace c = false)
    (hlast : ∀ c, l.getLast? = some c → isWhiteSpace c = false) :
    trim l = l := by
  unfold trim
  rw [dropWhile_of_head l hhead, dropWhile_of_head l.reverse, List.reverse_reverse]
  intro c hc
  rw [List.head?_reverse] at hc
  exact hlast c hc

/-! ## Facts about the shape of identifiers -/

theorem isDigit_digitChar (m : Nat) (h : m < 10) : isDigit (Nat.digitChar m) = true := by
  interval_cases m <;> decide

/-- The decimal writing of a number consists of decimal digits. -/
theorem decimal_isDigit (n : Nat) : ∀ c ∈ decimal n, isDigit c = true := by
  induction n using Nat.strong_induction_on with
  | _ n ih =>
    intro c hc
    rw [decimal_eq n, List.mem_append, List.mem_singleton] at hc
    rcases hc with h | h
    · by_cases hn : n < 10
      · simp [hn] at h
      · rw [if_neg hn] at h
        exact ih (n / 10) (by omega) c h
    · rw [h]
      exact isDigit_digitChar _ (Nat.mod_lt _ (by decide))

theorem lastDigits_isDigit (k : Nat) : ∀ n, ∀ c ∈ lastDigits k n, isDigit c = true := by
  induction k with
  | zero => intro n c hc; simp [lastDigits] at hc
  | succ k ih =>
    intro n c hc
    rw [lastDigits, List.mem_append, List.mem_singleton] at hc
    rcases hc with h | h
    · exact ih _ c h
    · rw [h]
      exact isDigit_digitChar _ (Nat.mod_lt _ (by decide))

/-- Padding a digit string to three places gives at least three digits. -/
theorem padStart_three_digits (ds : List Char) (h : ∀ c ∈ ds, isDigit c = true) :
    3 ≤ (padStart 3 '0' ds).length ∧ ∀ c ∈ padStart 3 '0' ds, isDigit c = true := by
  unfold padStart
  constructor
  · simp only [List.length_append, List.length_replicate]
    omega
  · intro c hc
    rw [List.mem_append] at hc
    rcases hc with h1 | h1
    · rw [(List.mem_replicate.1 h1).2]
      decide
    · exact h c h1

/-- With the store reachable and a highest identifier whose number is below
`2^53`, the identifier is `P` and the padded successor. -/
theorem generateProductId_of_highest (now : Nat) (docs : List StoreProduct)
    (last : StoreProduct) (name : String) (hlast : findHighest docs = some last)
    (hn : digitsValue (removeNonDigits last.product_id.data) < 2 ^ 53) :
    generateProductId ⟨now, some docs⟩ name =
      String.mk ('P' :: padStart 3 '0'
        (decimal (digitsValue (removeNonDigits last.product_id.data) + 1))) := by
  simp only [generateProductId, hlast]
  rw [numericPart_exact _ hn, numberToString_addOne _ hn]

/-! ## Facts about the stock route -/

theorem decimal_ne_nil (n : Nat) : decimal n ≠ [] := by
  rw [decimal_eq n]
  simp

theorem toNat_digitChar (m : Nat) (h : m < 10) : (Nat.digitChar m).toNat - '0'.toNat = m := by
  interval_cases m <;> decide

/-- Reading the decimal writing of a number gives the number back. -/
theorem digitsValue_decimal (n : Nat) : digitsValue (decimal n) = n := by
  induction n using Nat.strong_induction_on with
  | _ n ih =>
    rw [decimal_eq n]
    unfold digitsValue
    rw [List.foldl_append]
    simp only [List.foldl_cons, List.foldl_nil]
    rw [toNat_digitChar _ (Nat.mod_lt _ (by decide))]
    by_cases hn : n < 10
    · simp only [hn, if_true, List.foldl_nil]
      omega
    · have := ih (n / 10) (by omega)
      unfold digitsValue at this
      simp only [hn, if_false]
      rw [this]
      omega

theorem takeWhile_of_all (p : Char → Bool) (l : List Char) (h : ∀ c ∈ l, p c = true) :
    l.takeWhile p = l := by
  induction l with
  | nil => rfl
  | cons a rest ih =>
    have ha := h a (List.mem_cons_self _ _)
    simp [List.takeWhile_cons, ha, ih (fun c hc => h c (List.mem_cons_of_mem _ hc))]

theorem toDouble_of_le (n : Nat) (h : n ≤ 2 ^ 53) : toDouble n = .finite n := by
  by_cases h1 : n < 2 ^ 53
  · exact toDouble_of_lt n h1
  · have hn : n = 9007199254740992 := by
      have : (2 : Nat) ^ 53 = 9007199254740992 := by norm_num
      omega
    subst hn
    decide!

/-- `parseInt` gives back an integer-valued number of at most `2^53`. -/
theorem parseIntOfNumber_exact (n : Nat) (h : n ≤ 2 ^ 53) :
    parseIntOfNumber (toDouble n) = some (.finite n) := by
  by_cases h1 : n < 2 ^ 53
  · rw [toDouble_of_lt n h1]
    unfold parseIntOfNumber parseInt
    simp only [numberToString, h1, if_true]
    rw [takeWhile_of_all isDigit _ (decimal_isDigit n)]
    have hne : (decimal n).isEmpty = false := by
      cases hd : decimal n with
      | nil => exact absurd hd (decimal_ne_nil n)
      | cons a rest => rfl
    simp only [hne, Bool.false_eq_true, if_false]
    rw [digitsValue_decimal, toDouble_of_lt n h1]
  · have hn : n = 9007199254740992 := by
      have : (2 : Nat) ^ 53 = 9007199254740992 := by norm_num
      omega
    subst hn
    decide!

/-- The update of the cities, entry by entry. -/
theorem updateCities_cons (city : CityStock) (rest : List CityStock) (cityName : String)
    (stock : Option JSNumber) (now : Nat) :
    updateCities (city :: rest) cityName stock now =
      if city.city_name = cityName then
        { city with stock_level := stock, last_updated := now } :: rest
      else city :: updateCities rest cityName stock now := by
  by_cases h : city.city_name = cityName
  · simp [updateCities, findCityIndex, setCityStock, h]
  · cases hf : findCityIndex cityName rest with
    | none => simp [updateCities, findCityIndex, h, hf]
    | some i => simp [updateCities, findCityIndex, setCityStock, h, hf]

theorem updateCities_of_absent (cities : List CityStock) (cityName : String)
    (stock : Option JSNumber) (now : Nat) (h : ∀ q ∈ cities, q.city_name ≠ cityName) :
    updateCities cities cityName stock now =
      cities ++ [{ city_name := cityName, stock_level := stock, last_updated := now }] := by
  induction cities with
  | nil => rfl
  | cons c rest ih =>
    rw [updateCities_cons, if_neg (h c (List.mem_cons_self _ _)),
      ih (fun q hq => h q (List.mem_cons_of_mem _ hq))]
    rfl

theorem updateCities_of_first (pre post : List CityStock) (c : CityStock) (cityName : String)
    (stock : Option JSNumber) (now : Nat) (hpre : ∀ q ∈ pre, q.city_name ≠ cityName)
    (hc : c.city_name = cityName) :
    updateCities (pre ++ c :: post) cityName stock now =
      pre ++ { city_name := cityName, stock_level := stock, last_updated := now } :: post := by
  induction pre with
  | nil =>
    rw [List.nil_append, updateCities_cons, if_pos hc, ← hc]
    rfl
  | cons a rest ih =>
    rw [List.cons_append, updateCities_cons, if_neg (hpre a (List.mem_cons_self _ _)),
      ih (fun q hq => hpre q (List.mem_cons_of_mem _ hq))]
    rfl

theorem exactTotal_cons (c : CityStock) (rest : List CityStock) :
    exactTotal (c :: rest) = stockValue c.stock_level + exactTotal rest := by
  simp [exactTotal]

/-- The updated cities hold the new stock level, so their sum is at least it. -/
theorem le_exactTotal_updateCities (cities : List CityStock) (cityName : String)
    (stock : Option JSNumber) (now : Nat) :
    stockValue stock ≤ exactTotal (updateCities cities cityName stock now) := by
  induction cities with
  | nil => simp [updateCities, findCityIndex, exactTotal]
  | cons c rest ih =>
    rw [updateCities_cons]
    by_cases h : c.city_name = cityName
    · rw [if_pos h, exactTotal_cons]
      exact Nat.le_add_right _ _
    · rw [if_neg h, exactTotal_cons]
      exact Nat.le_trans ih (Nat.le_add_left _ _)

theorem updateCities_levels (cities : List CityStock) (cityName : String) (n : Nat) (now : Nat)
    (h : ∀ c ∈ cities, ∃ m, c.stock_level = some (.finite m)) :
    ∀ c ∈ updateCities cities cityName (some (.finite n)) now,
      ∃ m, c.stock_level = some (.finite m) := by
  induction cities with
  | nil =>
    intro c hc
    simp only [updateCities, findCityIndex, List.nil_append, List.mem_singleton] at hc
    exact ⟨n, by rw [hc]⟩
  | cons a rest ih =>
    intro c hc
    rw [updateCities_cons] at hc
    by_cases ha : a.city_name = cityName
    · rw [if_pos ha, List.mem_cons] at hc
      rcases hc with h1 | h1
      · exact ⟨n, by rw [h1]⟩
      · exact h c (List.mem_cons_of_mem _ h1)
    · rw [if_neg ha, List.mem_cons] at hc
      rcases hc with h1 | h1
      · rw [h1]
        exact h a (List.mem_cons_self _ _)
      · exact ih (fun q hq => h q (List.mem_cons_of_mem _ hq)) c h1

theorem addNumber_finite (a b : Nat) :
    addNumber (some (.finite a)) (some (.finite b)) = some (toDouble (a + b)) := rfl

/-- The running total is exact as long as the sum stays within `2^53`. -/
theorem foldl_addNumber_exact (cities : List CityStock) :
    ∀ a : Nat, (∀ c ∈ cities, ∃ m, c.stock_level = some (.finite m)) →
      a + exactTotal cities ≤ 2 ^ 53 →
      cities.foldl (fun total city => addNumber total city.stock_level) (some (.finite a)) =
        some (.finite (a + exactTotal cities)) := by
  induction cities with
  | nil => intro a _ _; simp [exactTotal]
  | cons c rest ih =>
    intro a hall hsum
    obtain ⟨m, hm⟩ := hall c (List.mem_cons_self _ _)
    rw [exactTotal_cons, hm] at hsum
    simp only [stockValue] at hsum
    rw [List.foldl_cons, hm, addNumber_finite, toDouble_of_le (a + m) (by omega),
      ih (a + m) (fun q hq => hall q (List.mem_cons_of_mem _ hq)) (by omega),
      exactTotal_cons, hm]
    simp only [stockValue]
    rw [Nat.add_assoc]

theorem totalStock_exact (cities : List CityStock)
    (hall : ∀ c ∈ cities, ∃ m, c.stock_level = some (.finite m))
    (hsum : exactTotal cities ≤ 2 ^ 53) :
    totalStock cities = some (.finite (exactTotal cities)) := by
  unfold totalStock
  rw [foldl_addNumber_exact cities 0 hall (by omega), Nat.zero_add]

/-! ## Facts about calls in flight -/

theorem foldl_exec_set {α : Type} (key : α → String) (value : α → Product) (l : List α)
    (s : Service) :
    (l.map (fun a => Instr.set (key a) (value a))).foldl Instr.exec s =
      { s with productCache := l.foldl (fun m a => mapSet m (key a) (value a)) s.productCache } := by
  induction l generalizing s with
  | nil => rfl
  | cons a rest ih =>
    rw [List.map_cons, List.foldl_cons, ih]
    rfl

/-- Run from start to end, the block does what `refreshCache` does. -/
theorem foldl_exec_refreshBlock (s : Service) (w : World) :
    (refreshBlock w).foldl Instr.exec s = refreshCache s w := by
  unfold refreshBlock refreshCache
  cases w.store with
  | none =>
    simp only [List.foldl_append, List.foldl_cons, List.foldl_nil, foldl_exec_set, Instr.exec,
      loadFallbackProducts]
  | some docs =>
    simp only [List.foldl_append, List.foldl_cons, List.foldl_nil, foldl_exec_set, Instr.exec]

/-- Inside the block the map is not the one the block builds: right after the
first instruction it is empty. -/
theorem refreshBlock_first (s : Service) (w : World) :
    (((refreshBlock w).take 1).foldl Instr.exec s).productCache = [] := by
  unfold refreshBlock
  cases w.store <;> rfl

/-- The block holds neither a suspension point nor a read. -/
theorem refreshBlock_plain (w : World) :
    ∀ i ∈ refreshBlock w, i ≠ Instr.await ∧ ∀ name, i ≠ Instr.read name := by
  intro i hi
  unfold refreshBlock at hi
  cases hs : w.store with
  | none =>
    rw [hs] at hi
    simp only [List.mem_append, List.mem_singleton, List.mem_map] at hi
    rcases hi with (h | ⟨p, _, h⟩) | h <;> subst h <;> exact ⟨by simp, by simp⟩
  | some docs =>
    rw [hs] at hi
    simp only [List.mem_append, List.mem_singleton, List.mem_map] at hi
    rcases hi with (h | ⟨p, _, h⟩) | h <;> subst h <;> exact ⟨by simp, by simp⟩

/-- Instructions that are neither suspension points nor reads run through. -/
theorem runStretch_plain (is tail : List Instr)
    (h : ∀ i ∈ is, i ≠ Instr.await ∧ ∀ name, i ≠ Instr.read name) (m : Machine) :
    runStretch m (is ++ tail) =
      runStretch { m with service := is.foldl Instr.exec m.service, trace := m.trace ++ is }
        tail := by
  induction is generalizing m with
  | nil => simp
  | cons i rest ih =>
    obtain ⟨h1, h2⟩ := h i (List.mem_cons_self _ _)
    have hstep : m.step i =
        { m with service := Instr.exec m.service i, trace := m.trace ++ [i] } := by
      cases i with
      | read name => exact absurd rfl (h2 name)
      | await => rfl
      | clear => rfl
      | set key value => rfl
      | stamp now => rfl
    rw [List.cons_append, runStretch, if_neg h1, hstep,
      ih (fun j hj => h j (List.mem_cons_of_mem _ hj))]
    simp

/-- A whole block, run from any state, leaves the machine settled. -/
theorem settled_of_block (trace : List Instr) (s : Service) (w : World) :
    Settled (trace ++ refreshBlock w) ((refreshBlock w).foldl Instr.exec s).productCache := by
  refine ⟨trace, w, [], by simp, by simp, ?_⟩
  rw [foldl_exec_refreshBlock]
  exact refreshCache_productCache_indep _ _ w

/-- A read leaves a settled machine settled. -/
theorem settled_of_read (trace : List Instr) (cache : List (String × Product)) (name : String)
    (h : Settled trace cache) : Settled (trace ++ [Instr.read name]) cache := by
  obtain ⟨pre, w, post, h1, h2, h3⟩ := h
  refine ⟨pre, w, post ++ [Instr.read name], by rw [h1]; simp, ?_, h3⟩
  intro i hi
  rcases List.mem_append.1 hi with h | h
  · exact h2 i h
  · exact ⟨name, by simpa using h⟩

theorem atBoundary_mono (p q : Prop) (h : p → q) (t : Task) (ht : AtBoundary p t) :
    AtBoundary q t := by
  rcases ht with h1 | h1 | ⟨name, h1, h2⟩ | h1 | h1
  · exact Or.inl h1
  · exact Or.inr (Or.inl h1)
  · exact Or.inr (Or.inr (Or.inl ⟨name, h1, h h2⟩))
  · exact Or.inr (Or.inr (Or.inr (Or.inl h1)))
  · exact Or.inr (Or.inr (Or.inr (Or.inr h1)))

/-- The invariant carries over to a machine whose state is again settled (or
untouched) and whose resumed task is at a boundary. -/
theorem consistent_of (m : Machine) (hm : m.Consistent) (s2 : Service) (t2 : List Instr)
    (l2 : List Observation) (k : Nat) (rest : List Instr)
    (h1 : (t2 = [] ∧ s2 = Service.new) ∨ Settled t2 s2.productCache)
    (h2 : Settled m.trace m.service.productCache → Settled t2 s2.productCache)
    (h3 : ∀ o ∈ l2, Settled o.before o.cache ∧
      o.result = mapGet o.cache (normalizeProductName o.name))
    (h4 : AtBoundary (Settled t2 s2.productCache) (Task.running rest)) :
    Machine.Consistent
      { service := s2, trace := t2, log := l2, tasks := m.tasks.set k (Task.running rest) } := by
  refine ⟨h1, h3, ?_⟩
  intro t ht
  rcases List.mem_or_eq_of_mem_set ht with h | h
  · exact atBoundary_mono _ _ h2 t (hm.2.2 t h)
  · rw [h]
    exact h4

theorem runStretch_read (m : Machine) (name : String) :
    runStretch m [Instr.read name] = (m.step (Instr.read name), []) := by
  simp [runStretch]

theorem runStretch_await (m : Machine) (rest : List Instr) :
    runStretch m (Instr.await :: rest) = (m, rest) := by
  simp [runStretch]

/-- A read made in a settled machine keeps the invariant. -/
theorem consistent_read (m : Machine) (hm : m.Consistent) (k : Nat) (name : String)
    (hs : Settled m.trace m.service.productCache) :
    Machine.Consistent
      { m.step (Instr.read name) with tasks := m.tasks.set k (Task.running []) } := by
  apply consistent_of m hm
  · exact Or.inr (settled_of_read _ _ name hs)
  · intro _
    exact settled_of_read _ _ name hs
  · intro o ho
    rcases List.mem_append.1 ho with h | h
    · exact hm.2.1 o h
    · rw [List.mem_singleton] at h
      rw [h]
      exact ⟨hs, rfl⟩
  · exact Or.inr (Or.inl rfl)

/-- A block run from start to end keeps the invariant, whatever follows it in
the body of its call. -/
theorem consistent_block (m : Machine) (hm : m.Consistent) (k : Nat) (w : World)
    (rest : List Instr)
    (hrest : rest = [] ∨ ∃ name, rest = [Instr.read name]) :
    Machine.Consistent
      { service := (refreshBlock w).foldl Instr.exec m.service,
        trace := m.trace ++ refreshBlock w,
        log := m.log,
        tasks := m.tasks.set k (Task.running rest) } := by
  apply consistent_of m hm
  · exact Or.inr (settled_of_block _ _ w)
  · intro _
    exact settled_of_block _ _ w
  · exact hm.2.1
  · rcases hrest with h | ⟨name, h⟩
    · rw [h]
      exact Or.inr (Or.inl rfl)
    · rw [h]
      exact Or.inr (Or.inr (Or.inl ⟨name, rfl, settled_of_block _ _ w⟩))

/-- A task that is only suspended again, nothing having run, keeps the invariant. -/
theorem consistent_idle (m : Machine) (hm : m.Consistent) (k : Nat) (rest : List Instr)
    (hrest : AtBoundary (Settled m.trace m.service.productCache) (Task.running rest)) :
    Machine.Consistent { m with tasks := m.tasks.set k (Task.running rest) } :=
  consistent_of m hm m.service m.trace m.log k rest hm.1 id hm.2.1 hrest

/-- Resuming any task keeps the invariant. -/
theorem consistent_pick (m : Machine) (k : Nat) (hm : m.Consistent) :
    (m.pick k).Consistent := by
  unfold Machine.pick
  cases hget : m.tasks.get? k with
  | none => exact hm
  | some task =>
    have hmem : task ∈ m.tasks := List.get?_mem hget
    simp only []
    rcases hm.2.2 task hmem with ⟨call, h⟩ | h | ⟨name, h, hs⟩ | ⟨w, h⟩ | ⟨w, name, h⟩
    · subst h
      cases call with
      | refreshCache w =>
        show Machine.Consistent
          { (runStretch m (refreshCacheBody w)).1 with
            tasks := m.tasks.set k (Task.running (runStretch m (refreshCacheBody w)).2) }
        unfold refreshCacheBody
        rw [runStretch_await]
        exact consistent_idle m hm k _ (Or.inr (Or.inr (Or.inr (Or.inl ⟨w, rfl⟩))))
      | getProductByName now w name =>
        by_cases hx : isCacheExpired m.service now = true
        · have hb : (Task.waiting (Call.getProductByName now w name)).instrs m.service =
              Instr.await :: (refreshBlock w ++ [Instr.await, Instr.read name]) := by
            simp [Task.instrs, Call.body, hx, refreshCacheBody]
          rw [hb, runStretch_await]
          exact consistent_idle m hm k _ (Or.inr (Or.inr (Or.inr (Or.inr ⟨w, name, rfl⟩))))
        · have hb : (Task.waiting (Call.getProductByName now w name)).instrs m.service =
              [Instr.read name] := by
            simp [Task.instrs, Call.body, hx]
          rw [hb, runStretch_read]
          apply consistent_read m hm k name
          rcases hm.1 with ⟨_, h0⟩ | h0
          · rw [h0] at hx
            exact absurd rfl hx
          · exact h0
    · subst h
      show Machine.Consistent
        { (runStretch m []).1 with tasks := m.tasks.set k (Task.running (runStretch m []).2) }
      exact consistent_idle m hm k _ (Or.inr (Or.inl rfl))
    · subst h
      show Machine.Consistent
        { (runStretch m [Instr.read name]).1 with
          tasks := m.tasks.set k (Task.running (runStretch m [Instr.read name]).2) }
      rw [runStretch_read]
      exact consistent_read m hm k name hs
    · subst h
      show Machine.Consistent
        { (runStretch m (refreshBlock w)).1 with
          tasks := m.tasks.set k (Task.running (runStretch m (refreshBlock w)).2) }
      have e : runStretch m (refreshBlock w) =
          ({ m with service := (refreshBlock w).foldl Instr.exec m.service,
                    trace := m.trace ++ refreshBlock w }, []) := by
        have := runStretch_plain (refreshBlock w) [] (refreshBlock_plain w) m
        rw [List.append_nil] at this
        rw [this]
        rfl
      rw [e]
      exact consistent_block m hm k w [] (Or.inl rfl)
    · subst h
      show Machine.Consistent
        { (runStretch m (refreshBlock w ++ [Instr.await, Instr.read name])).1 with
          tasks := m.tasks.set k
            (Task.running (runStretch m (refreshBlock w ++ [Instr.await, Instr.read name])).2) }
      rw [runStretch_plain (refreshBlock w) _ (refreshBlock_plain w) m, runStretch_await]
      exact consistent_block m hm k w [Instr.read name] (Or.inr ⟨name, rfl⟩)

/-- Every schedule keeps the invariant. -/
theorem consistent_run (schedule : List Nat) (m : Machine) (hm : m.Consistent) :
    (m.run schedule).Consistent := by
  induction schedule generalizing m with
  | nil => exact hm
  | cons k rest ih => exact ih (m.pick k) (consistent_pick m k hm)

theorem consistent_start (calls : List Call) : (Machine.start calls).Consistent := by
  refine ⟨Or.inl ⟨rfl, rfl⟩, ?_, ?_⟩
  · intro o ho
    simp [Machine.start] at ho
  · intro t ht
    simp only [Machine.start, List.mem_map] at ht
    obtain ⟨c, _, hc⟩ := ht
    exact Or.inl ⟨c, hc.symm⟩

/-! ## Name resolution -/

/-- C1: for every service state and world, and every two names whose
normalized forms (lower-cased, trimmed, white space collapsed) are equal,
`getProductByName` returns the identical result and leaves the identical
state; in particular "Milk", "  milk  " and "MILK" are resolved alike. -/
theorem getProductByName_normalized_eq (s : Service) (w : World) (a b : String)
    (h : normalizeProductName a = normalizeProductName b) :
    getProductByName s w a = getProductByName s w b ∧
    getProductByName s w "Milk" = getProductByName s w "  milk  " ∧
    getProductByName s w "Milk" = getProductByName s w "MILK" := by
  have key : ∀ x y : String, normalizeProductName x = normalizeProductName y →
      getProductByName s w x = getProductByName s w y := by
    intro x y hxy
    unfold getProductByName
    simp only [hxy]
  exact ⟨key a b h, key _ _ (by decide), key _ _ (by decide)⟩

theorem getProductByName_normalized_eq_witness :
    normalizeProductName "Chicken  BREAST " = normalizeProductName "chicken breast" ∧
    getProductByName (loadFallbackProducts Service.new 1000) ⟨2000, none⟩ "Chicken  BREAST " =
      getProductByName (loadFallbackProducts Service.new 1000) ⟨2000, none⟩ "chicken breast" :=
  ⟨by decide,
   (getProductByName_normalized_eq (loadFallbackProducts Service.new 1000) ⟨2000, none⟩
      "Chicken  BREAST " "chicken breast" (by decide)).1⟩

/-- C2: after `refreshCache` has run against an unreachable store, a lookup
made while the cache is fresh (or while the store is still unreachable) finds
every one of the 37 fallback products under its own name and returns exactly
that entry. -/
theorem getProductByName_after_failed_refresh (s : Service) (now : Nat) (w : World)
    (h : isCacheExpired (refreshCache s ⟨now, none⟩) w.now = false ∨ w.store = none) :
    fallbackProducts.length = 37 ∧
    ∀ p ∈ fallbackProducts,
      (getProductByName (refreshCache s ⟨now, none⟩) w p.product_name).1 = some p := by
  refine ⟨rfl, ?_⟩
  intro p hp
  rw [getProductByName_fallback _ w p.product_name
    (by rw [refreshCache_unreachable, loadFallbackProducts_productCache]) h]
  exact fallbackCache_complete p hp

theorem getProductByName_after_failed_refresh_witness :
    (isCacheExpired (refreshCache Service.new ⟨1000, none⟩) 2000 = false ∨
      (⟨2000, none⟩ : World).store = none) ∧
    (getProductByName (refreshCache Service.new ⟨1000, none⟩) ⟨2000, none⟩ "Chocolate Bar").1 =
      some ⟨"P037", "Chocolate Bar", "Snacks"⟩ :=
  ⟨Or.inr rfl,
   (getProductByName_after_failed_refresh Service.new 1000 ⟨2000, none⟩ (Or.inr rfl)).2
      ⟨"P037", "Chocolate Bar", "Snacks"⟩ (by decide)⟩

/-! ## Input resolution -/

/-- C3, as stated, fails: the input `{product_name: 123}` has a `product_name`
and no `product_id`, so it is not one of the inputs that have neither, and
still `mapProductInput` returns no record for it: `getProductByName` hands the
number to `normalizeProductName`, which throws the TypeError
'name.toLowerCase is not a function'. -/
theorem mapProductInput_number_name_throws :
    truthy (⟨none, some (.other true "123"), none, []⟩ : ProductInput).product_name = true ∧
    (mapProductInput Service.new ⟨1000, none⟩ ⟨none, some (.other true "123"), none, []⟩).1 =
      .error notAFunctionMessage ∧
    (mapProductInput Service.new ⟨1000, some []⟩ ⟨none, some (.other true "123"), none, []⟩).1 =
      .error notAFunctionMessage ∧
    notAFunctionMessage ≠ missingInputMessage :=
  ⟨rfl, rfl, rfl, by decide⟩

/-- C3, amended: `mapProductInput` throws 'Either product_name or product_id
must be provided' exactly when neither `product_id` nor `product_name` is
truthy; it returns a record exactly when `product_id` is truthy or
`product_name` is a non-empty string; it throws the TypeError of
`normalizeProductName` exactly when `product_id` is not truthy and
`product_name` is truthy without being a string.  This holds whatever the cache
holds and whether the store is reachable or not.  The empty input fails with
the first error. -/
theorem mapProductInput_error_iff (s : Service) (w : World) (input : ProductInput) :
    ((mapProductInput s w input).1 = .error missingInputMessage ↔
      (truthy input.product_id = false ∧ truthy input.product_name = false)) ∧
    ((∃ r, (mapProductInput s w input).1 = .ok r) ↔
      (truthy input.product_id = true ∨
        ∃ name, input.product_name = some (.string name) ∧ name ≠ "")) ∧
    ((mapProductInput s w input).1 = .error notAFunctionMessage ↔
      (truthy input.product_id = false ∧
        ∃ json, input.product_name = some (.other true json))) ∧
    (mapProductInput s w ⟨none, none, none, []⟩).1 = .error missingInputMessage := by
  have hne : notAFunctionMessage ≠ missingInputMessage := by decide
  have hfail : truthy input.product_id = false ∧ truthy input.product_name = false →
      (mapProductInput s w input).1 = .error missingInputMessage := by
    intro h
    rw [mapProductInput_neither s w input h.1 h.2]
  have htype : (truthy input.product_id = false ∧
      ∃ json, input.product_name = some (.other true json)) →
      (mapProductInput s w input).1 = .error notAFunctionMessage := by
    rintro ⟨h1, json, h2⟩
    rw [mapProductInput_name_not_string s w input json h2 h1]
  have hcases : (truthy input.product_id = false ∧ truthy input.product_name = false) ∨
      (truthy input.product_id = true ∨
        ∃ name, input.product_name = some (.string name) ∧ name ≠ "") ∨
      (truthy input.product_id = false ∧
        ∃ json, input.product_name = some (.other true json)) := by
    cases hid : truthy input.product_id with
    | true => exact Or.inr (Or.inl (Or.inl rfl))
    | false =>
      cases hname : truthy input.product_name with
      | false => exact Or.inl ⟨rfl, rfl⟩
      | true =>
        rcases (truthy_eq_true_iff _).1 hname with h | h
        · exact Or.inr (Or.inl (Or.inr h))
        · exact Or.inr (Or.inr ⟨rfl, h⟩)
  refine ⟨⟨?_, hfail⟩, ⟨?_, mapProductInput_ok_of_truthy s w input⟩, ⟨?_, htype⟩, ?_⟩
  · intro herr
    rcases hcases with hc | hc | hc
    · exact hc
    · obtain ⟨r, hr⟩ := mapProductInput_ok_of_truthy s w input hc
      rw [hr] at herr
      exact absurd herr (by simp)
    · rw [htype hc] at herr
      exact absurd (Except.error.inj herr) hne
  · rintro ⟨r, hr⟩
    rcases hcases with hc | hc | hc
    · rw [hfail hc] at hr
      exact absurd hr (by simp)
    · exact hc
    · rw [htype hc] at hr
      exact absurd hr (by simp)
  · intro herr
    rcases hcases with hc | hc | hc
    · rw [hfail hc] at herr
      exact absurd (Except.error.inj herr).symm hne
    · obtain ⟨r, hr⟩ := mapProductInput_ok_of_truthy s w input hc
      rw [hr] at herr
      exact absurd herr (by simp)
    · exact hc
  · rw [mapProductInput_neither s w ⟨none, none, none, []⟩ rfl rfl]

theorem mapProductInput_error_iff_witness :
    (mapProductInput Service.new ⟨1000, none⟩ ⟨none, none, none, []⟩).1 =
      .error missingInputMessage ∧
    ((mapProductInput Service.new ⟨1000, none⟩ ⟨none, some (.other true "123"), none, []⟩).1 =
        .error notAFunctionMessage ↔
      (truthy (⟨none, some (.other true "123"), none, []⟩ : ProductInput).product_id = false ∧
        ∃ json, (⟨none, some (.other true "123"), none, []⟩ : ProductInput).product_name =
          some (.other true json))) :=
  ⟨(mapProductInput_error_iff Service.new ⟨1000, none⟩ ⟨none, none, none, []⟩).2.2.2,
   (mapProductInput_error_iff Service.new ⟨1000, none⟩
      ⟨none, some (.other true "123"), none, []⟩).2.2.1⟩

/-- C4, as stated, fails: with the fallback table cached, the name-only input
"  bread " is found, and the returned `product_name` is the cached "Bread",
not the text the caller supplied. -/
theorem mapProductInput_found_name_replaced :
    (getProductByName (loadFallbackProducts Service.new 1000) ⟨2000, none⟩ "  bread ").1 =
      some ⟨"P002", "Bread", "Bakery"⟩ ∧
    (mapProductInput (loadFallbackProducts Service.new 1000) ⟨2000, none⟩
        ⟨none, some (.string "  bread "), none, []⟩).1 =
      .ok ⟨some (.string "P002"), some (.string "Bread"), some (.string "Bakery"), []⟩ ∧
    (some (.string "Bread") : Option JSValue) ≠ some (.string "  bread ") :=
  ⟨by decide, rfl, by decide⟩

/-- C4, amended: for every input with only `product_name` present whose name
`getProductByName` finds, `mapProductInput` returns the input with
`product_id`, `product_name` and `category` all taken from the cached product
(the caller's spelling of the name is replaced by the cached one) and every
other field kept. -/
theorem mapProductInput_found_by_name (s : Service) (w : World) (input : ProductInput)
    (name : String) (product : Product)
    (hname : input.product_name = some (.string name)) (hne : name ≠ "")
    (hid : truthy input.product_id = false)
    (hfound : (getProductByName s w name).1 = some product) :
    (mapProductInput s w input).1 =
      .ok { product_id := some (.string product.product_id),
            product_name := some (.string product.product_name),
            category := some (.string product.category),
            extra := input.extra } := by
  rw [mapProductInput_name_only s w input name hname hne hid, hfound]

theorem mapProductInput_found_by_name_witness :
    (⟨none, some (.string "  bread "), some (.string "Food"), [("quantity", "2")]⟩ : ProductInput).product_name =
      some (.string "  bread ") ∧
    "  bread " ≠ "" ∧
    truthy (⟨none, some (.string "  bread "), some (.string "Food"), [("quantity", "2")]⟩ : ProductInput).product_id
      = false ∧
    (getProductByName (loadFallbackProducts Service.new 1000) ⟨2000, none⟩ "  bread ").1 =
      some ⟨"P002", "Bread", "Bakery"⟩ ∧
    (mapProductInput (loadFallbackProducts Service.new 1000) ⟨2000, none⟩
        ⟨none, some (.string "  bread "), some (.string "Food"), [("quantity", "2")]⟩).1 =
      .ok ⟨some (.string "P002"), some (.string "Bread"), some (.string "Bakery"), [("quantity", "2")]⟩ :=
  ⟨rfl, by decide, rfl, by decide,
   mapProductInput_found_by_name (loadFallbackProducts Service.new 1000) ⟨2000, none⟩
     ⟨none, some (.string "  bread "), some (.string "Food"), [("quantity", "2")]⟩ "  bread "
     ⟨"P002", "Bread", "Bakery"⟩ rfl (by decide) rfl (by decide)⟩

/-- C5: with the cache holding the fallback table (and the lookup made while
that cache is fresh, or while the store is unreachable),
`mapProductInput({product_name: "Bread"})` returns exactly
`{product_id: "P002", product_name: "Bread", category: "Bakery"}`. -/
theorem mapProductInput_bread (s : Service) (w : World)
    (hc : s.productCache = (loadFallbackProducts Service.new 0).productCache)
    (h : isCacheExpired s w.now = false ∨ w.store = none) :
    (mapProductInput s w ⟨none, some (.string "Bread"), none, []⟩).1 =
      .ok ⟨some (.string "P002"), some (.string "Bread"), some (.string "Bakery"), []⟩ := by
  have hfound : (getProductByName s w "Bread").1 = some ⟨"P002", "Bread", "Bakery"⟩ := by
    rw [getProductByName_fallback s w "Bread" hc h]
    decide
  rw [mapProductInput_name_only s w ⟨none, some (.string "Bread"), none, []⟩ "Bread" rfl (by decide) rfl,
    hfound]

theorem mapProductInput_bread_witness :
    (loadFallbackProducts Service.new 1000).productCache =
      (loadFallbackProducts Service.new 0).productCache ∧
    (isCacheExpired (loadFallbackProducts Service.new 1000) 2000 = false ∨
      (⟨2000, some []⟩ : World).store = none) ∧
    (mapProductInput (loadFallbackProducts Service.new 1000) ⟨2000, some []⟩
        ⟨none, some (.string "Bread"), none, []⟩).1 =
      .ok ⟨some (.string "P002"), some (.string "Bread"), some (.string "Bakery"), []⟩ :=
  ⟨rfl, Or.inl (by decide),
   mapProductInput_bread (loadFallbackProducts Service.new 1000) ⟨2000, some []⟩ rfl
     (Or.inl (by decide))⟩

/-- C6: for every input with only `product_name` present whose name
`getProductByName` does not find, `mapProductInput` returns the input with
`product_id` set to the identifier `generateProductId` synthesizes, which is
not empty, with `category` equal to the caller's category when a truthy one
(for a string: a non-empty one) is given and "Unknown" otherwise, and with
`product_name` and every other field unchanged. -/
theorem mapProductInput_unknown_name (s : Service) (w : World) (input : ProductInput)
    (name : String)
    (hname : input.product_name = some (.string name)) (hne : name ≠ "")
    (hid : truthy input.product_id = false)
    (hnot : (getProductByName s w name).1 = none) :
    generateProductId w name ≠ "" ∧
    (mapProductInput s w input).1 =
      .ok { product_id := some (.string (generateProductId w name)),
            product_name := some (.string name),
            category :=
              match input.category with
              | some (.string c) => if c ≠ "" then some (.string c) else some (.string "Unknown")
              | some (.other true json) => some (.other true json)
              | some (.other false _) => some (.string "Unknown")
              | none => some (.string "Unknown"),
            extra := input.extra } := by
  refine ⟨generateProductId_ne_empty w name, ?_⟩
  rw [mapProductInput_name_only s w input name hname hne hid, hnot]
  rcases input with ⟨pid, pname, cat, extra⟩
  dsimp only at hname
  subst hname
  rcases cat with _ | c
  · simp [truthy]
  · cases c with
    | string c =>
      by_cases hc : c = ""
      · simp [truthy, hc]
      · simp [truthy, hc]
    | other t json => cases t <;> simp [truthy]

theorem mapProductInput_unknown_name_witness :
    (⟨some (.string ""), some (.string "Tomato Soup"), none, [("quantity", "2")]⟩ : ProductInput).product_name =
      some (.string "Tomato Soup") ∧
    "Tomato Soup" ≠ "" ∧
    truthy (⟨some (.string ""), some (.string "Tomato Soup"), none, [("quantity", "2")]⟩ : ProductInput).product_id
      = false ∧
    (getProductByName (loadFallbackProducts Service.new 1000)
        ⟨2000, some [⟨"P037", "Chocolate Bar", "Snacks", true⟩]⟩ "Tomato Soup").1 = none ∧
    (mapProductInput (loadFallbackProducts Service.new 1000)
        ⟨2000, some [⟨"P037", "Chocolate Bar", "Snacks", true⟩]⟩
        ⟨some (.string ""), some (.string "Tomato Soup"), none, [("quantity", "2")]⟩).1 =
      .ok ⟨some (.string
              (generateProductId ⟨2000, some [⟨"P037", "Chocolate Bar", "Snacks", true⟩]⟩
                "Tomato Soup")),
            some (.string "Tomato Soup"), some (.string "Unknown"), [("quantity", "2")]⟩ :=
  ⟨rfl, by decide, rfl, by decide,
   (mapProductInput_unknown_name (loadFallbackProducts Service.new 1000)
     ⟨2000, some [⟨"P037", "Chocolate Bar", "Snacks", true⟩]⟩
     ⟨some (.string ""), some (.string "Tomato Soup"), none, [("quantity", "2")]⟩ "Tomato Soup"
     rfl (by decide) rfl (by decide)).2⟩

/-! ## Identifier synthesis -/

/-- C7, at the failing input: with a reachable store holding `P999` and
`P1000`, the query for the highest identifier returns `P999` (strings are
ordered character by character), and `generateProductId` returns `P1000`,
an identifier the store already holds. -/
theorem generateProductId_collides :
    findHighest [⟨"P999", "Bread", "Bakery", true⟩, ⟨"P1000", "Milk", "Dairy", true⟩] =
      some ⟨"P999", "Bread", "Bakery", true⟩ ∧
    generateProductId
        ⟨2000, some [⟨"P999", "Bread", "Bakery", true⟩, ⟨"P1000", "Milk", "Dairy", true⟩]⟩
        "Tomato Soup" = "P1000" ∧
    generateProductId
        ⟨2000, some [⟨"P999", "Bread", "Bakery", true⟩, ⟨"P1000", "Milk", "Dairy", true⟩]⟩
        "Tomato Soup" ∈
      ([⟨"P999", "Bread", "Bakery", true⟩, ⟨"P1000", "Milk", "Dairy", true⟩] :
        List StoreProduct).map (fun d => d.product_id) := by
  decide

/-- C8, as stated, fails: against the same reachable store, resolving the
unknown name "Tomato Soup" and then the unknown name "Kiwi" synthesizes the
identifier `P002` both times. -/
theorem mapProductInput_unknown_twice_same_id :
    normalizeProductName "Tomato Soup" ≠ normalizeProductName "Kiwi" ∧
    (mapProductInput Service.new ⟨1000, some [⟨"P001", "Milk", "Dairy", true⟩]⟩
        ⟨none, some (.string "Tomato Soup"), none, []⟩).1 =
      .ok ⟨some (.string "P002"), some (.string "Tomato Soup"), some (.string "Unknown"), []⟩ ∧
    (mapProductInput
        (mapProductInput Service.new ⟨1000, some [⟨"P001", "Milk", "Dairy", true⟩]⟩
          ⟨none, some (.string "Tomato Soup"), none, []⟩).2
        ⟨1500, some [⟨"P001", "Milk", "Dairy", true⟩]⟩
        ⟨none, some (.string "Kiwi"), none, []⟩).1 =
      .ok ⟨some (.string "P002"), some (.string "Kiwi"), some (.string "Unknown"), []⟩ :=
  ⟨by decide, rfl, rfl⟩

/-- C8, amended: resolving two unknown product names one after the other with
`mapProductInput`, the store reachable and holding the same documents at both
calls, yields the same synthesized `product_id` both times: the identifier is
determined by the store alone. -/
theorem mapProductInput_unknown_twice (s : Service) (w1 w2 : World)
    (docs : List StoreProduct) (i1 i2 : ProductInput) (n1 n2 : String)
    (hs1 : w1.store = some docs) (hs2 : w2.store = some docs)
    (hname1 : i1.product_name = some (.string n1)) (hne1 : n1 ≠ "")
    (hid1 : truthy i1.product_id = false)
    (hname2 : i2.product_name = some (.string n2)) (hne2 : n2 ≠ "")
    (hid2 : truthy i2.product_id = false)
    (hnot1 : (getProductByName s w1 n1).1 = none)
    (hnot2 : (getProductByName (mapProductInput s w1 i1).2 w2 n2).1 = none) :
    ∃ r1 r2,
      (mapProductInput s w1 i1).1 = .ok r1 ∧
      (mapProductInput (mapProductInput s w1 i1).2 w2 i2).1 = .ok r2 ∧
      r1.product_id = some (.string (generateProductId w1 n1)) ∧
      r2.product_id = r1.product_id := by
  have e1 := mapProductInput_name_only s w1 i1 n1 hname1 hne1 hid1
  simp only [hnot1] at e1
  have e2 := mapProductInput_name_only (mapProductInput s w1 i1).2 w2 i2 n2 hname2 hne2 hid2
  simp only [hnot2] at e2
  exact ⟨_, _, congrArg Prod.fst e1, congrArg Prod.fst e2, rfl,
    congrArg (fun x => some (JSValue.string x)) (generateProductId_of_store w2 w1 n2 n1 docs hs2 hs1)⟩

theorem mapProductInput_unknown_twice_witness :
    (getProductByName Service.new ⟨1000, some [⟨"P001", "Milk", "Dairy", true⟩]⟩
        "Tomato Soup").1 = none ∧
    (getProductByName
        (mapProductInput Service.new ⟨1000, some [⟨"P001", "Milk", "Dairy", true⟩]⟩
          ⟨none, some (.string "Tomato Soup"), none, []⟩).2
        ⟨1500, some [⟨"P001", "Milk", "Dairy", true⟩]⟩ "Kiwi").1 = none ∧
    ∃ r1 r2,
      (mapProductInput Service.new ⟨1000, some [⟨"P001", "Milk", "Dairy", true⟩]⟩
          ⟨none, some (.string "Tomato Soup"), none, []⟩).1 = .ok r1 ∧
      (mapProductInput
          (mapProductInput Service.new ⟨1000, some [⟨"P001", "Milk", "Dairy", true⟩]⟩
            ⟨none, some (.string "Tomato Soup"), none, []⟩).2
          ⟨1500, some [⟨"P001", "Milk", "Dairy", true⟩]⟩
          ⟨none, some (.string "Kiwi"), none, []⟩).1 = .ok r2 ∧
      r1.product_id =
        some (.string
          (generateProductId ⟨1000, some [⟨"P001", "Milk", "Dairy", true⟩]⟩ "Tomato Soup")) ∧
      r2.product_id = r1.product_id :=
  ⟨by decide, by decide,
   mapProductInput_unknown_twice Service.new
    ⟨1000, some [⟨"P001", "Milk", "Dairy", true⟩]⟩
    ⟨1500, some [⟨"P001", "Milk", "Dairy", true⟩]⟩
    [⟨"P001", "Milk", "Dairy", true⟩]
    ⟨none, some (.string "Tomato Soup"), none, []⟩ ⟨none, some (.string "Kiwi"), none, []⟩
    "Tomato Soup" "Kiwi" rfl rfl rfl (by decide) rfl rfl (by decide) rfl
    (by decide) (by decide)⟩

/-- C9, as stated, fails: when the highest identifier is `P9007199254740992`
(its number is `2^53`), the sum `n + 1` is not a double and rounds back to
`2^53`, so `generateProductId` returns `P9007199254740992` again and not
`P9007199254740993`. -/
theorem generateProductId_beyond_double :
    findHighest [⟨"P9007199254740992", "Milk", "Dairy", true⟩] =
      some ⟨"P9007199254740992", "Milk", "Dairy", true⟩ ∧
    digitsValue (removeNonDigits "P9007199254740992".data) = 9007199254740992 ∧
    generateProductId ⟨2000, some [⟨"P9007199254740992", "Milk", "Dairy", true⟩]⟩ "Tomato Soup" =
      "P9007199254740992" ∧
    String.mk ('P' :: padStart 3 '0' (decimal (9007199254740992 + 1))) = "P9007199254740993" ∧
    generateProductId ⟨2000, some [⟨"P9007199254740992", "Milk", "Dairy", true⟩]⟩ "Tomato Soup" ≠
      String.mk ('P' :: padStart 3 '0' (decimal (9007199254740992 + 1))) := by
  decide!

/-- C9, amended: when the query for the highest identifier returns `lastId`
and the number `n` formed by the decimal digits of `lastId` (0 if there are
none) is below `2^53`, `generateProductId` returns `P` followed by `n + 1`
written in decimal and left-padded with zeros to at least three digits; `P037`
gives `P038` and `P999` gives `P1000`. -/
theorem generateProductId_increment (now : Nat) (docs : List StoreProduct)
    (last : StoreProduct) (name : String)
    (hlast : findHighest docs = some last)
    (hn : digitsValue (removeNonDigits last.product_id.data) < 2 ^ 53) :
    generateProductId ⟨now, some docs⟩ name =
      String.mk ('P' :: padStart 3 '0'
        (decimal (digitsValue (removeNonDigits last.product_id.data) + 1))) ∧
    generateProductId ⟨now, some [⟨"P037", "Chocolate Bar", "Snacks", true⟩]⟩ name = "P038" ∧
    generateProductId ⟨now, some [⟨"P999", "Chocolate Bar", "Snacks", true⟩]⟩ name = "P1000" := by
  have key : ∀ (ds : List StoreProduct) (l : StoreProduct), findHighest ds = some l →
      digitsValue (removeNonDigits l.product_id.data) < 2 ^ 53 →
      generateProductId ⟨now, some ds⟩ name =
        String.mk ('P' :: padStart 3 '0'
          (decimal (digitsValue (removeNonDigits l.product_id.data) + 1))) := by
    intro ds l hl hlt
    simp only [generateProductId, hl]
    rw [numericPart_exact _ hlt, numberToString_addOne _ hlt]
  refine ⟨key docs last hlast hn, ?_, ?_⟩
  · rw [key [⟨"P037", "Chocolate Bar", "Snacks", true⟩] ⟨"P037", "Chocolate Bar", "Snacks", true⟩
      rfl (by decide)]
    decide
  · rw [key [⟨"P999", "Chocolate Bar", "Snacks", true⟩] ⟨"P999", "Chocolate Bar", "Snacks", true⟩
      rfl (by decide)]
    decide

theorem generateProductId_increment_witness :
    findHighest [⟨"P099", "Bread", "Bakery", true⟩, ⟨"P1000", "Milk", "Dairy", true⟩] =
      some ⟨"P1000", "Milk", "Dairy", true⟩ ∧
    digitsValue (removeNonDigits "P1000".data) < 2 ^ 53 ∧
    generateProductId
        ⟨2000, some [⟨"P099", "Bread", "Bakery", true⟩, ⟨"P1000", "Milk", "Dairy", true⟩]⟩
        "Tomato Soup" =
      String.mk ('P' :: padStart 3 '0' (decimal (digitsValue (removeNonDigits "P1000".data) + 1))) :=
  ⟨by decide, by decide,
   (generateProductId_increment 2000
     [⟨"P099", "Bread", "Bakery", true⟩, ⟨"P1000", "Milk", "Dairy", true⟩]
     ⟨"P1000", "Milk", "Dairy", true⟩ "Tomato Soup" (by decide) (by decide)).1⟩

/-! ## Search -/

/-- C10, at the failing input: with the fallback table cached,
`searchProducts("milk", 0)` returns one product, more than the limit 0 allows. -/
theorem searchProducts_limit_zero :
    (searchProducts (loadFallbackProducts Service.new 1000) ⟨2000, none⟩ "milk" 0).1 =
      [⟨"P001", "Milk", "Dairy"⟩] ∧
    ¬ (searchProducts (loadFallbackProducts Service.new 1000) ⟨2000, none⟩ "milk" 0).1.length ≤ 0 := by
  decide

/-- C11: for every fresh cache, search term and limit of at least 1,
`searchProducts(term, limit)` leaves the state unchanged and returns exactly
the first `limit` (or all, if there are fewer) of the cached products, in the
insertion order of the cache, whose key contains the normalized term or is
contained in it: no other product is returned and no earlier match is skipped. -/
theorem searchProducts_first_matches (s : Service) (w : World) (term : String) (limit : Nat)
    (hfresh : isCacheExpired s w.now = false) (hlimit : 1 ≤ limit) :
    searchProducts s w term limit =
      (((s.productCache.filter (fun e =>
          decide (List.IsInfix (normalizeProductName term).data e.1.data ∨
                  List.IsInfix e.1.data (normalizeProductName term).data))).take limit).map
        (fun e => e.2), s) := by
  unfold searchProducts
  simp only [hfresh, Bool.false_eq_true, if_false]
  rw [searchLoop_eq _ _ _ [] (by simpa using hlimit)]
  simp only [List.nil_append, List.length_nil, Nat.sub_zero]
  congr 3
  apply List.filter_congr
  intro e _
  rw [Bool.eq_iff_iff]
  simp only [Bool.or_eq_true, includes_iff_isInfix, decide_eq_true_eq]

theorem searchProducts_first_matches_witness :
    isCacheExpired (loadFallbackProducts Service.new 1000) 2000 = false ∧
    1 ≤ 3 ∧
    searchProducts (loadFallbackProducts Service.new 1000) ⟨2000, none⟩ " O " 3 =
      ((((loadFallbackProducts Service.new 1000).productCache.filter (fun e =>
          decide (List.IsInfix (normalizeProductName " O ").data e.1.data ∨
                  List.IsInfix e.1.data (normalizeProductName " O ").data))).take 3).map
        (fun e => e.2), loadFallbackProducts Service.new 1000) ∧
    (searchProducts (loadFallbackProducts Service.new 1000) ⟨2000, none⟩ " O " 3).1 =
      [⟨"P005", "Yogurt", "Dairy"⟩, ⟨"P007", "Croissant", "Bakery"⟩,
       ⟨"P010", "Cookie", "Bakery"⟩] :=
  ⟨by decide, by decide,
   searchProducts_first_matches (loadFallbackProducts Service.new 1000) ⟨2000, none⟩ " O " 3
     (by decide) (by decide),
   by decide⟩

/-! ## Input resolution: the other branches -/

/-- C12: for every input with both a truthy `product_id` and a truthy
`product_name` (non-empty, when a string), `mapProductInput` returns the input record unchanged, whatever
the cache contains, and leaves the service state (the cache map and the
last-refresh timestamp) unchanged: no refresh happens, stale cache or not. -/
theorem mapProductInput_passthrough (s : Service) (w : World) (input : ProductInput)
    (hid : truthy input.product_id = true) (hname : truthy input.product_name = true) :
    (mapProductInput s w input).1 = .ok input ∧
    (mapProductInput s w input).2 = s ∧
    (mapProductInput s w input).2.productCache = s.productCache ∧
    (mapProductInput s w input).2.lastCacheUpdate = s.lastCacheUpdate := by
  rw [mapProductInput_both s w input hid hname]
  exact ⟨rfl, rfl, rfl, rfl⟩

theorem mapProductInput_passthrough_witness :
    isCacheExpired Service.new 2000 = true ∧
    (mapProductInput Service.new ⟨2000, some [⟨"P001", "Milk", "Dairy", true⟩]⟩
        ⟨some (.string "X9"), some (.string "milk"), none, [("quantity", "2")]⟩).1 =
      .ok ⟨some (.string "X9"), some (.string "milk"), none, [("quantity", "2")]⟩ ∧
    (mapProductInput Service.new ⟨2000, some [⟨"P001", "Milk", "Dairy", true⟩]⟩
        ⟨some (.string "X9"), some (.string "milk"), none, [("quantity", "2")]⟩).2.productCache = [] ∧
    (mapProductInput Service.new ⟨2000, some [⟨"P001", "Milk", "Dairy", true⟩]⟩
        ⟨some (.string "X9"), some (.string "milk"), none, [("quantity", "2")]⟩).2.lastCacheUpdate = none :=
  ⟨by decide,
   (mapProductInput_passthrough Service.new ⟨2000, some [⟨"P001", "Milk", "Dairy", true⟩]⟩
      ⟨some (.string "X9"), some (.string "milk"), none, [("quantity", "2")]⟩ (by decide) (by decide)).1,
   (mapProductInput_passthrough Service.new ⟨2000, some [⟨"P001", "Milk", "Dairy", true⟩]⟩
      ⟨some (.string "X9"), some (.string "milk"), none, [("quantity", "2")]⟩ (by decide) (by decide)).2.2.1,
   (mapProductInput_passthrough Service.new ⟨2000, some [⟨"P001", "Milk", "Dairy", true⟩]⟩
      ⟨some (.string "X9"), some (.string "milk"), none, [("quantity", "2")]⟩ (by decide) (by decide)).2.2.2⟩

/-- C13: for every input with only `product_id` present (a truthy
`product_id`, no truthy `product_name`), with the cached products taken in
cache order after the refresh a stale cache triggers: if some cached product
has that `product_id`, `mapProductInput` returns the input with `product_name`
and `category` set to those of the first such product and every other field
kept; if no cached product has that id (as when the id is not a string), it
returns the input unchanged.  For a fresh cache the cached products are the
values of `productCache`. -/
theorem mapProductInput_by_id (s : Service) (w : World) (input : ProductInput)
    (hid : truthy input.product_id = true)
    (hname : truthy input.product_name = false) :
    (∀ pre p post, (getAllProducts s w).1 = pre ++ p :: post →
        (∀ q ∈ pre, some (JSValue.string q.product_id) ≠ input.product_id) →
        some (JSValue.string p.product_id) = input.product_id →
        (mapProductInput s w input).1 =
          .ok { product_id := input.product_id,
                product_name := some (.string p.product_name),
                category := some (.string p.category),
                extra := input.extra }) ∧
    ((∀ q ∈ (getAllProducts s w).1, some (JSValue.string q.product_id) ≠ input.product_id) →
        (mapProductInput s w input).1 = .ok input) ∧
    (isCacheExpired s w.now = false →
        (getAllProducts s w).1 = s.productCache.map (fun e => e.2)) := by
  refine ⟨?_, ?_, ?_⟩
  · intro pre p post hsplit hpre hp
    have hfind : (getAllProducts s w).1.find?
        (fun q => some (JSValue.string q.product_id) == input.product_id) = some p := by
      rw [hsplit, List.find?_append]
      have hnone : pre.find?
          (fun q => some (JSValue.string q.product_id) == input.product_id) = none := by
        rw [List.find?_eq_none]
        intro q hq
        simpa using hpre q hq
      rw [hnone]
      simp [hp]
    rw [mapProductInput_id_only s w input hid hname, hfind]
  · intro hall
    have hfind : (getAllProducts s w).1.find?
        (fun q => some (JSValue.string q.product_id) == input.product_id) = none := by
      rw [List.find?_eq_none]
      intro q hq
      simpa using hall q hq
    rw [mapProductInput_id_only s w input hid hname, hfind]
  · intro hfresh
    simp [getAllProducts, hfresh]

theorem mapProductInput_by_id_witness :
    truthy (⟨some (.string "P002"), some (.string ""), none, [("quantity", "2")]⟩ :
      ProductInput).product_id = true ∧
    truthy (⟨some (.string "P002"), some (.string ""), none, [("quantity", "2")]⟩ :
      ProductInput).product_name = false ∧
    (mapProductInput (loadFallbackProducts Service.new 1000) ⟨2000, none⟩
        ⟨some (.string "P002"), some (.string ""), none, [("quantity", "2")]⟩).1 =
      .ok ⟨some (.string "P002"), some (.string "Bread"), some (.string "Bakery"),
        [("quantity", "2")]⟩ :=
  ⟨rfl, rfl,
   (mapProductInput_by_id (loadFallbackProducts Service.new 1000) ⟨2000, none⟩
      ⟨some (.string "P002"), some (.string ""), none, [("quantity", "2")]⟩ rfl rfl).1
      [⟨"P001", "Milk", "Dairy"⟩] ⟨"P002", "Bread", "Bakery"⟩
      (fallbackProducts.drop 2) (by decide) (by decide) rfl⟩


/-! ## Refreshing and freshness -/

/-- C14: after a `refreshCache` whose store query succeeds, the cache is
replaced wholesale: for every name `n`, a lookup (made while the new cache is
fresh, or against the same store) returns the `{product_id, product_name,
category}` of the last product of the query result whose normalized name
equals the normalized `n`, or nothing when there is none, whatever the cache
held before the refresh. -/
theorem getProductByName_after_refresh (s : Service) (now : Nat) (docs : List StoreProduct)
    (w : World) (n : String)
    (h : isCacheExpired (refreshCache s ⟨now, some docs⟩) w.now = false ∨ w.store = some docs) :
    (getProductByName (refreshCache s ⟨now, some docs⟩) w n).1 =
      ((findActive docs).reverse.find?
          (fun d => normalizeProductName d.product_name == normalizeProductName n)).map
        (fun d => ⟨d.product_id, d.product_name, d.category⟩) := by
  have hcache : ∀ s1 : Service, ∀ w1 : World, w1.store = some docs →
      mapGet (refreshCache s1 w1).productCache (normalizeProductName n) =
        ((findActive docs).reverse.find?
            (fun d => normalizeProductName d.product_name == normalizeProductName n)).map
          (fun d => ⟨d.product_id, d.product_name, d.category⟩) := by
    intro s1 w1 h1
    rw [refreshCache_store_some s1 w1 docs h1]
    simp only [mapGet_foldl_mapSet]
    cases (findActive docs).reverse.find?
        (fun d => normalizeProductName d.product_name == normalizeProductName n) <;> rfl
  unfold getProductByName
  by_cases he : isCacheExpired (refreshCache s ⟨now, some docs⟩) w.now = true
  · rcases h with h | h
    · rw [h] at he
      exact absurd he (by decide)
    · simp only [he, if_true]
      exact hcache _ w h
  · have he1 : isCacheExpired (refreshCache s ⟨now, some docs⟩) w.now = false := by
      simpa using he
    simp only [he1, Bool.false_eq_true, if_false]
    exact hcache s ⟨now, some docs⟩ rfl

theorem getProductByName_after_refresh_witness :
    (isCacheExpired
        (refreshCache (loadFallbackProducts Service.new 1000)
          ⟨5000, some [⟨"A1", "Green Tea", "Beverage", true⟩, ⟨"A2", "Milk", "Dairy", false⟩,
                       ⟨"A3", "green  TEA", "Health", true⟩]⟩) 6000 = false ∨
      (⟨6000, none⟩ : World).store =
        some [⟨"A1", "Green Tea", "Beverage", true⟩, ⟨"A2", "Milk", "Dairy", false⟩,
              ⟨"A3", "green  TEA", "Health", true⟩]) ∧
    (getProductByName
        (refreshCache (loadFallbackProducts Service.new 1000)
          ⟨5000, some [⟨"A1", "Green Tea", "Beverage", true⟩, ⟨"A2", "Milk", "Dairy", false⟩,
                       ⟨"A3", "green  TEA", "Health", true⟩]⟩)
        ⟨6000, none⟩ " Green tea").1 =
      ((findActive [⟨"A1", "Green Tea", "Beverage", true⟩, ⟨"A2", "Milk", "Dairy", false⟩,
                    ⟨"A3", "green  TEA", "Health", true⟩]).reverse.find?
          (fun d => normalizeProductName d.product_name == normalizeProductName " Green tea")).map
        (fun d => ⟨d.product_id, d.product_name, d.category⟩) ∧
    (getProductByName
        (refreshCache (loadFallbackProducts Service.new 1000)
          ⟨5000, some [⟨"A1", "Green Tea", "Beverage", true⟩, ⟨"A2", "Milk", "Dairy", false⟩,
                       ⟨"A3", "green  TEA", "Health", true⟩]⟩)
        ⟨6000, none⟩ " Green tea").1 = some ⟨"A3", "green  TEA", "Health"⟩ :=
  ⟨Or.inl (by decide),
   getProductByName_after_refresh (loadFallbackProducts Service.new 1000) 5000
     [⟨"A1", "Green Tea", "Beverage", true⟩, ⟨"A2", "Milk", "Dairy", false⟩,
      ⟨"A3", "green  TEA", "Health", true⟩]
     ⟨6000, none⟩ " Green tea" (Or.inl (by decide)),
   by decide⟩

/-- C15, as stated, fails: a `refreshCache` that runs while `Date.now()` reads
0 stamps the timestamp 0, which `!this.lastCacheUpdate` takes for unset, so
`isCacheExpired()` is true immediately after it. -/
theorem refreshCache_at_zero_still_expired :
    (refreshCache Service.new ⟨0, none⟩).lastCacheUpdate = some 0 ∧
    isCacheExpired (refreshCache Service.new ⟨0, none⟩) 0 = true ∧
    isCacheExpired (refreshCache Service.new ⟨0, some []⟩) 0 = true := by
  decide

/-- C15, amended: `refreshCache` always returns, and sets the last-refresh
timestamp to the current time and keeps the freshness window, both when the
store query succeeds and when it fails and the fallback table is loaded; hence
after a `refreshCache` at a clock reading other than 0, `isCacheExpired()` is
false at that reading and at every reading at most the freshness window later. -/
theorem refreshCache_makes_fresh (s : Service) (w : World) (later : Nat)
    (hclock : w.now ≠ 0) (hsoon : (later : Int) - (w.now : Int) ≤ (s.cacheExpiry : Int)) :
    (refreshCache s w).lastCacheUpdate = some w.now ∧
    (refreshCache s w).cacheExpiry = s.cacheExpiry ∧
    (w.store = none → refreshCache s w = loadFallbackProducts s w.now) ∧
    isCacheExpired (refreshCache s w) w.now = false ∧
    isCacheExpired (refreshCache s w) later = false := by
  have hiff := isCacheExpired_some (refreshCache s w) w.now
  refine ⟨refreshCache_lastCacheUpdate s w, refreshCache_cacheExpiry s w,
    refreshCache_store_none s w, ?_, ?_⟩
  · rw [Bool.eq_false_iff, Ne, hiff w.now (refreshCache_lastCacheUpdate s w)]
    rw [refreshCache_cacheExpiry]
    omega
  · rw [Bool.eq_false_iff, Ne, hiff later (refreshCache_lastCacheUpdate s w)]
    rw [refreshCache_cacheExpiry]
    omega

theorem refreshCache_makes_fresh_witness :
    (⟨1000, none⟩ : World).now ≠ 0 ∧
    ((301000 : Nat) : Int) - (((⟨1000, none⟩ : World).now : Nat) : Int) ≤
      ((Service.new.cacheExpiry : Nat) : Int) ∧
    (refreshCache Service.new ⟨1000, none⟩).lastCacheUpdate = some 1000 ∧
    isCacheExpired (refreshCache Service.new ⟨1000, none⟩) 301000 = false :=
  ⟨by decide, by decide,
   (refreshCache_makes_fresh Service.new ⟨1000, none⟩ 301000 (by decide) (by decide)).1,
   (refreshCache_makes_fresh Service.new ⟨1000, none⟩ 301000 (by decide) (by decide)).2.2.2.2⟩

/-- C16, as stated, fails: a cache loaded when the clock read 0 carries the
timestamp 0; one second later it has been loaded and is far younger than five
minutes, yet `isCacheExpired()` is true. -/
theorem isCacheExpired_timestamp_zero :
    (refreshCache Service.new ⟨0, some [⟨"P001", "Milk", "Dairy", true⟩]⟩).lastCacheUpdate
      = some 0 ∧
    (refreshCache Service.new ⟨0, some [⟨"P001", "Milk", "Dairy", true⟩]⟩).cacheExpiry
      = 300000 ∧
    ¬ ((1000 : Int) - 0 > 300000) ∧
    isCacheExpired (refreshCache Service.new ⟨0, some [⟨"P001", "Milk", "Dairy", true⟩]⟩) 1000
      = true := by
  decide

/-- C16, amended: for a last-refresh timestamp that is unset or other than 0,
`isCacheExpired()` is true exactly when the cache has never been loaded or the
time elapsed since the last refresh strictly exceeds the freshness window; the
window is 300000 ms from construction on and no refresh changes it; at an age
of exactly 300000 ms the cache is still fresh, one millisecond later it is
expired. -/
theorem isCacheExpired_iff (s : Service) (now : Nat) (hstamp : s.lastCacheUpdate ≠ some 0) :
    (isCacheExpired s now = true ↔
      (s.lastCacheUpdate = none ∨
        ∃ t, s.lastCacheUpdate = some t ∧ (now : Int) - (t : Int) > (s.cacheExpiry : Int))) ∧
    Service.new.cacheExpiry = 300000 ∧
    (∀ w, (refreshCache s w).cacheExpiry = s.cacheExpiry) ∧
    (∀ t, s.lastCacheUpdate = some t → s.cacheExpiry = 300000 →
      isCacheExpired s (t + 300000) = false ∧ isCacheExpired s (t + 300001) = true) := by
  refine ⟨?_, rfl, refreshCache_cacheExpiry s, ?_⟩
  · cases hl : s.lastCacheUpdate with
    | none => simp [isCacheExpired, hl]
    | some t =>
      have ht : t ≠ 0 := by
        intro h0
        exact hstamp (by rw [hl, h0])
      rw [isCacheExpired_some s t now hl]
      constructor
      · rintro (h0 | h1)
        · exact absurd h0 ht
        · exact Or.inr ⟨t, rfl, h1⟩
      · rintro (h | ⟨t1, ht1, h1⟩)
        · exact absurd h (by simp)
        · have : t = t1 := by simpa using ht1
          subst this
          exact Or.inr h1
  · intro t hl hwin
    have ht : t ≠ 0 := by
      intro h0
      exact hstamp (by rw [hl, h0])
    constructor
    · rw [Bool.eq_false_iff, Ne, isCacheExpired_some s t _ hl, hwin]
      push_cast
      omega
    · rw [isCacheExpired_some s t _ hl, hwin]
      push_cast
      omega

theorem isCacheExpired_iff_witness :
    (loadFallbackProducts Service.new 1000).lastCacheUpdate ≠ some 0 ∧
    isCacheExpired (loadFallbackProducts Service.new 1000) 301000 = false ∧
    isCacheExpired (loadFallbackProducts Service.new 1000) 301001 = true :=
  ⟨by decide,
   ((isCacheExpired_iff (loadFallbackProducts Service.new 1000) 5 (by decide)).2.2.2
      1000 rfl rfl).1,
   ((isCacheExpired_iff (loadFallbackProducts Service.new 1000) 5 (by decide)).2.2.2
      1000 rfl rfl).2⟩

/-- C17: when the cache is fresh, `getProductByName`, `searchProducts` and
`getAllProducts` read the cache as it is, return the same whatever the store
holds (the store is not consulted) and leave the service state, cache map and
last-refresh timestamp included, unchanged; when the cache is unset or stale,
each of them leaves the state of one `refreshCache` and looks up in the cache
that refresh has built. -/
theorem lookups_refresh_lazily (s : Service) (w : World) (name term : String) (limit : Nat) :
    (isCacheExpired s w.now = false →
      getProductByName s w name = (mapGet s.productCache (normalizeProductName name), s) ∧
      searchProducts s w term limit =
        (searchLoop (normalizeProductName term) limit s.productCache [], s) ∧
      getAllProducts s w = (s.productCache.map (fun e => e.2), s) ∧
      ∀ store1 : Option (List StoreProduct),
        getProductByName s ⟨w.now, store1⟩ name = getProductByName s w name ∧
        searchProducts s ⟨w.now, store1⟩ term limit = searchProducts s w term limit ∧
        getAllProducts s ⟨w.now, store1⟩ = getAllProducts s w) ∧
    (isCacheExpired s w.now = true →
      getProductByName s w name =
        (mapGet (refreshCache s w).productCache (normalizeProductName name), refreshCache s w) ∧
      searchProducts s w term limit =
        (searchLoop (normalizeProductName term) limit (refreshCache s w).productCache [],
          refreshCache s w) ∧
      getAllProducts s w = ((refreshCache s w).productCache.map (fun e => e.2), refreshCache s w)) := by
  constructor
  · intro hfresh
    refine ⟨?_, ?_, ?_, ?_⟩
    · simp [getProductByName, hfresh]
    · simp [searchProducts, hfresh]
    · simp [getAllProducts, hfresh]
    · intro store1
      simp [getProductByName, searchProducts, getAllProducts, hfresh]
  · intro hstale
    refine ⟨?_, ?_, ?_⟩
    · simp [getProductByName, hstale]
    · simp [searchProducts, hstale]
    · simp [getAllProducts, hstale]

theorem lookups_refresh_lazily_witness :
    isCacheExpired Service.new 2000 = true ∧
    getProductByName Service.new ⟨2000, some [⟨"P001", "Milk", "Dairy", true⟩]⟩ "MILK" =
      (mapGet (refreshCache Service.new ⟨2000, some [⟨"P001", "Milk", "Dairy", true⟩]⟩).productCache
          (normalizeProductName "MILK"),
        refreshCache Service.new ⟨2000, some [⟨"P001", "Milk", "Dairy", true⟩]⟩) ∧
    isCacheExpired (loadFallbackProducts Service.new 1000) 2000 = false ∧
    getAllProducts (loadFallbackProducts Service.new 1000)
        ⟨2000, some [⟨"P001", "Milk", "Dairy", true⟩]⟩ =
      ((loadFallbackProducts Service.new 1000).productCache.map (fun e => e.2),
        loadFallbackProducts Service.new 1000) :=
  ⟨by decide,
   ((lookups_refresh_lazily Service.new ⟨2000, some [⟨"P001", "Milk", "Dairy", true⟩]⟩
      "MILK" "m" 5).2 (by decide)).1,
   by decide,
   ((lookups_refresh_lazily (loadFallbackProducts Service.new 1000)
      ⟨2000, some [⟨"P001", "Milk", "Dairy", true⟩]⟩ "MILK" "m" 5).1 (by decide)).2.2.1⟩

/-! ## Direct cache updates -/

/-- C18: after `addToCache(p)` on a fresh cache, `getProductByName(n)` returns
`{product_id: p.product_id, product_name: p.product_name, category: p.category}`
for every `n` whose normalized form is that of `p.product_name`, whatever was
held under that key before, and returns what it returned before for every
other `n`; the last-refresh timestamp is untouched. -/
theorem getProductByName_after_addToCache (s : Service) (w : World) (p : Product) (n : String)
    (hfresh : isCacheExpired s w.now = false) :
    (normalizeProductName n = normalizeProductName p.product_name →
      (getProductByName (addToCache s p) w n).1 =
        some ⟨p.product_id, p.product_name, p.category⟩) ∧
    (normalizeProductName n ≠ normalizeProductName p.product_name →
      (getProductByName (addToCache s p) w n).1 = (getProductByName s w n).1) ∧
    (addToCache s p).lastCacheUpdate = s.lastCacheUpdate := by
  have hfresh1 : isCacheExpired (addToCache s p) w.now = false := hfresh
  rw [getProductByName_fresh _ w n hfresh1, getProductByName_fresh s w n hfresh]
  refine ⟨?_, ?_, rfl⟩
  · intro hn
    show mapGet (mapSet _ _ _) _ = _
    rw [hn, mapGet_mapSet_self]
  · intro hn
    show mapGet (mapSet _ _ _) _ = _
    rw [mapGet_mapSet_ne _ _ _ _ hn]

theorem getProductByName_after_addToCache_witness :
    isCacheExpired (loadFallbackProducts Service.new 1000) 2000 = false ∧
    (getProductByName
        (addToCache (loadFallbackProducts Service.new 1000) ⟨"X1", "BREAD ", "Organic"⟩)
        ⟨2000, none⟩ "bread").1 = some ⟨"X1", "BREAD ", "Organic"⟩ :=
  ⟨by decide,
   (getProductByName_after_addToCache (loadFallbackProducts Service.new 1000) ⟨2000, none⟩
      ⟨"X1", "BREAD ", "Organic"⟩ "bread" (by decide)).1 (by decide)⟩

/-- C19: after `removeFromCache(name)` on a fresh cache, `getProductByName(n)`
returns nothing for every `n` whose normalized form is that of `name` and what
it returned before for every other `n`; the entries that remain are the other
entries in their order; and removing a name that is not cached leaves the
service state unchanged. -/
theorem getProductByName_after_removeFromCache (s : Service) (w : World) (name n : String)
    (hfresh : isCacheExpired s w.now = false) :
    (normalizeProductName n = normalizeProductName name →
      (getProductByName (removeFromCache s name) w n).1 = none) ∧
    (normalizeProductName n ≠ normalizeProductName name →
      (getProductByName (removeFromCache s name) w n).1 = (getProductByName s w n).1) ∧
    (removeFromCache s name).productCache =
      s.productCache.filter (fun e => e.1 != normalizeProductName name) ∧
    ((getProductByName s w name).1 = none → removeFromCache s name = s) := by
  have hfresh1 : isCacheExpired (removeFromCache s name) w.now = false := hfresh
  rw [getProductByName_fresh _ w n hfresh1, getProductByName_fresh s w n hfresh,
    getProductByName_fresh s w name hfresh]
  refine ⟨?_, ?_, rfl, ?_⟩
  · intro hn
    show mapGet (mapDelete _ _) _ = _
    rw [hn, mapGet_mapDelete_self]
  · intro hn
    show mapGet (mapDelete _ _) _ = _
    rw [mapGet_mapDelete_ne _ _ _ hn]
  · intro hnone
    simp only [removeFromCache]
    rw [mapDelete_of_mapGet_none _ _ hnone]

theorem getProductByName_after_removeFromCache_witness :
    isCacheExpired (loadFallbackProducts Service.new 1000) 2000 = false ∧
    (getProductByName (removeFromCache (loadFallbackProducts Service.new 1000) " MILK")
        ⟨2000, none⟩ "Milk").1 = none ∧
    (getProductByName (removeFromCache (loadFallbackProducts Service.new 1000) " MILK")
        ⟨2000, none⟩ "Bread").1 =
      (getProductByName (loadFallbackProducts Service.new 1000) ⟨2000, none⟩ "Bread").1 :=
  ⟨by decide,
   (getProductByName_after_removeFromCache (loadFallbackProducts Service.new 1000) ⟨2000, none⟩
      " MILK" "Milk" (by decide)).1 (by decide),
   (getProductByName_after_removeFromCache (loadFallbackProducts Service.new 1000) ⟨2000, none⟩
      " MILK" "Bread" (by decide)).2.1 (by decide)⟩

/-! ## Identifier synthesis without the store -/

/-- C20, as stated, fails: with the store unreachable, the clock readings 5
and 1000005 are 1,000,000 ms apart and agree in their last six digits, yet
`generateProductId` returns `P5` for the first and `P000005` for the second. -/
theorem generateProductId_short_timestamp :
    1000005 = 5 + 1000000 ∧
    1000005 % 1000000 = 5 % 1000000 ∧
    generateProductId ⟨5, none⟩ "Kiwi" = "P5" ∧
    generateProductId ⟨1000005, none⟩ "Kiwi" = "P000005" ∧
    generateProductId ⟨5, none⟩ "Kiwi" ≠ generateProductId ⟨1000005, none⟩ "Kiwi" := by
  decide

/-- C20, amended: when the store query fails and the millisecond timestamp has
at least six decimal digits, `generateProductId` returns `P` followed by the
last six decimal digits of the timestamp; consequently two such syntheses
whose timestamps agree in their last six digits (the same millisecond, or
1,000,000 ms apart) return the same identifier. -/
theorem generateProductId_timestamp (now : Nat) (name : String) (h : 100000 ≤ now) :
    generateProductId ⟨now, none⟩ name = String.mk ('P' :: lastDigits 6 now) ∧
    (∀ (now2 : Nat) (name2 : String), 100000 ≤ now2 → now2 % 1000000 = now % 1000000 →
      generateProductId ⟨now2, none⟩ name2 = generateProductId ⟨now, none⟩ name) ∧
    generateProductId ⟨now + 1000000, none⟩ name = generateProductId ⟨now, none⟩ name := by
  have key : ∀ (t : Nat) (nm : String), 100000 ≤ t →
      generateProductId ⟨t, none⟩ nm = String.mk ('P' :: lastDigits 6 t) := by
    intro t nm ht
    simp only [generateProductId]
    rw [sliceLast_six_decimal t ht]
  have hcongr : ∀ (t : Nat) (nm : String), 100000 ≤ t → t % 1000000 = now % 1000000 →
      generateProductId ⟨t, none⟩ nm = generateProductId ⟨now, none⟩ name := by
    intro t nm ht hmod
    rw [key t nm ht, key now name h, lastDigits_congr 6 t now (by norm_num; exact hmod)]
  exact ⟨key now name h, hcongr, hcongr (now + 1000000) name (by omega) (by omega)⟩

theorem generateProductId_timestamp_witness :
    100000 ≤ 1730793600123 ∧
    generateProductId ⟨1730793600123, none⟩ "Kiwi" =
      String.mk ('P' :: lastDigits 6 1730793600123) ∧
    String.mk ('P' :: lastDigits 6 1730793600123) = "P600123" :=
  ⟨by decide, (generateProductId_timestamp 1730793600123 "Kiwi" (by decide)).1, by decide⟩


/-! ## Batches -/

/-- C21, as stated, fails: the batch `[{product_name: 123}]` holds an input
that has a `product_name`, and the result is empty: `mapProductInput` throws a
TypeError on that input, and the `catch` of the loop skips it like an input
without name and identifier. -/
theorem mapProductInputs_skips_number_name :
    truthy (⟨none, some (.other true "123"), none, []⟩ : ProductInput).product_name = true ∧
    (mapProductInputs Service.new ⟨1000, none⟩
        [.object ⟨none, some (.other true "123"), none, []⟩]).1 = [] ∧
    (mapProductInputs Service.new ⟨1000, some []⟩
        [.object ⟨none, some (.other true "123"), none, []⟩]).1 = [] :=
  ⟨rfl, rfl, rfl⟩

/-- C21, amended: `mapProductInputs` always returns a list: in input order, the
record `mapProductInput` returns for exactly the inputs on which it does not
throw, which are the objects with a truthy `product_id` or a `product_name`
that is a non-empty string.  Every other input is skipped: a value that is no
object, an object with neither a truthy `product_id` nor a truthy
`product_name`, and an object without a truthy `product_id` whose
`product_name` is truthy without being a string.  The result is never longer
than the input list. -/
theorem mapProductInputs_spec (s : Service) (w : World) (inputs : List BatchElement) :
    (mapProductInputs s w inputs).1 =
      inputs.filterMap (fun e =>
        match e with
        | .object i => (mapProductInput s w i).1.toOption
        | .nonObject => none) ∧
    (∀ i : ProductInput, ((mapProductInput s w i).1.toOption).isSome =
      (truthy i.product_id || isNonEmptyString i.product_name)) ∧
    (mapProductInputs s w inputs).1.length =
      (inputs.filter (fun e =>
        match e with
        | .object i => truthy i.product_id || isNonEmptyString i.product_name
        | .nonObject => false)).length ∧
    (mapProductInputs s w inputs).1.length ≤ inputs.length := by
  have hstr : ∀ v : Option JSValue, isNonEmptyString v = true ↔
      ∃ name, v = some (.string name) ∧ name ≠ "" := by
    intro v
    rcases v with _ | v
    · simp [isNonEmptyString]
    · cases v <;> simp [isNonEmptyString]
  have hsome : ∀ i : ProductInput, ((mapProductInput s w i).1.toOption).isSome =
      (truthy i.product_id || isNonEmptyString i.product_name) := by
    intro i
    cases hid : truthy i.product_id with
    | true =>
      obtain ⟨r, hr⟩ := mapProductInput_ok_of_truthy s w i (Or.inl hid)
      simp [hr, Except.toOption]
    | false =>
      cases hname : isNonEmptyString i.product_name with
      | true =>
        obtain ⟨r, hr⟩ := mapProductInput_ok_of_truthy s w i (Or.inr ((hstr _).1 hname))
        simp [hr, Except.toOption]
      | false =>
        cases ht : truthy i.product_name with
        | false =>
          rw [mapProductInput_neither s w i hid ht]
          simp [Except.toOption]
        | true =>
          rcases (truthy_eq_true_iff _).1 ht with h | ⟨json, h⟩
          · rw [(hstr _).2 h] at hname
            exact absurd hname (by decide)
          · rw [mapProductInput_name_not_string s w i json h hid]
            simp [Except.toOption]
  have heq := mapProductInputs_eq_filterMap s w inputs s rfl
  have hlen : (inputs.filterMap (fun e =>
        match e with
        | .object i => (mapProductInput s w i).1.toOption
        | .nonObject => none)).length =
      (inputs.filter (fun e =>
        match e with
        | .object i => truthy i.product_id || isNonEmptyString i.product_name
        | .nonObject => false)).length := by
    clear heq
    induction inputs with
    | nil => rfl
    | cons e rest ih =>
      cases e with
      | nonObject =>
        simp only [List.filterMap_cons, List.filter_cons]
        simpa using ih
      | object i =>
        have hi := hsome i
        cases ho : (mapProductInput s w i).1.toOption with
        | none =>
          rw [ho] at hi
          have hf : (truthy i.product_id || isNonEmptyString i.product_name) = false := by
            simpa using hi.symm
          simp only [List.filterMap_cons, ho, List.filter_cons, hf]
          simpa using ih
        | some v =>
          rw [ho] at hi
          have hf : (truthy i.product_id || isNonEmptyString i.product_name) = true := by
            simpa using hi.symm
          simp only [List.filterMap_cons, ho, List.filter_cons, hf, if_true, List.length_cons]
          rw [ih]
  refine ⟨heq, hsome, by rw [heq, hlen], ?_⟩
  rw [heq, hlen]
  exact List.length_filter_le _ _

theorem mapProductInputs_spec_witness :
    (mapProductInputs (loadFallbackProducts Service.new 1000) ⟨2000, none⟩
        [.object ⟨none, some (.string "Bread"), none, []⟩,
         .object ⟨none, some (.other true "123"), none, []⟩,
         .nonObject,
         .object ⟨none, none, none, []⟩,
         .object ⟨some (.string "P001"), none, none, []⟩]).1.length = 2 ∧
    (mapProductInputs (loadFallbackProducts Service.new 1000) ⟨2000, none⟩
        [.object ⟨none, some (.string "Bread"), none, []⟩,
         .object ⟨none, some (.other true "123"), none, []⟩,
         .nonObject,
         .object ⟨none, none, none, []⟩,
         .object ⟨some (.string "P001"), none, none, []⟩]).1 =
      [⟨some (.string "P002"), some (.string "Bread"), some (.string "Bakery"), []⟩,
       ⟨some (.string "P001"), some (.string "Milk"), some (.string "Dairy"), []⟩] :=
  ⟨(mapProductInputs_spec (loadFallbackProducts Service.new 1000) ⟨2000, none⟩
      [.object ⟨none, some (.string "Bread"), none, []⟩,
       .object ⟨none, some (.other true "123"), none, []⟩,
       .nonObject,
       .object ⟨none, none, none, []⟩,
       .object ⟨some (.string "P001"), none, none, []⟩]).2.2.1.trans (by decide),
   by decide⟩


/-! ## The subprocess bridge -/

/-- C22: when the subprocess exits with code 0 and its accumulated stdout is
any text `d`, a line feed, a line `l` and trailing white space `t`, where `l`
is not empty, contains no line feed and neither starts nor ends with white
space, the text that is decoded is exactly `l`, whatever `d` is; a final
record pretty-printed over several lines is therefore decoded from its last
line only, the closing brace. -/
theorem onClose_decodes_last_line {α : Type} (jsonParse : String → Except String α)
    (d l t : List Char) (hne : l ≠ []) (hnl : '\n' ∉ l)
    (hhead : ∀ c, l.head? = some c → isWhiteSpace c = false)
    (hlast : ∀ c, l.getLast? = some c → isWhiteSpace c = false)
    (ht : ∀ c ∈ t, isWhiteSpace c = true) :
    lastLine (String.mk (d ++ '\n' :: (l ++ t))) = String.mk l ∧
    onClose jsonParse (some 0) (String.mk (d ++ '\n' :: (l ++ t))) =
      (match jsonParse (String.mk l) with
       | .ok result => .parsed result
       | .error message => .parseError message) ∧
    lastLine "\x7b\n  \"success\": true,\n  \"predictions\": []\n\x7d\n" = "\x7d" := by
  have hline := lastLine_after_diagnostics d l t hne hnl hhead hlast ht
  refine ⟨hline, ?_, by decide⟩
  unfold onClose
  have hlen : (String.mk (d ++ '\n' :: (l ++ t))).length > 0 := by
    simp [String.length]
  rw [if_pos ⟨rfl, hlen⟩, hline]

theorem onClose_decodes_last_line_witness :
    lastLine "Loading model...\nwarning: 3 rows dropped\n\x7b\"success\": true\x7d\r\n\n" =
      "\x7b\"success\": true\x7d" :=
  (onClose_decodes_last_line (fun text => (Except.ok text : Except String String))
    "Loading model...\nwarning: 3 rows dropped".data "\x7b\"success\": true\x7d".data
    "\r\n\n".data (by decide) (by decide) (by decide) (by decide) (by decide)).1

/-- C23: the `close` handler decodes only when the exit code is 0 and at least
one character of stdout was accumulated: with any other exit code (or none),
or with empty stdout, no decoding is attempted and no result is produced; with
exit code 0 and non-empty stdout the last line is handed to the decoder. -/
theorem onClose_attempted_iff {α : Type} (jsonParse : String → Except String α)
    (code : Option Int) (outputData : String) :
    (onClose jsonParse code outputData = .notAttempted ↔
      ¬ (code = some 0 ∧ outputData ≠ "")) ∧
    ((∃ result, onClose jsonParse code outputData = .parsed result) →
      code = some 0 ∧ outputData ≠ "") ∧
    (code = some 0 ∧ outputData ≠ "" →
      onClose jsonParse code outputData =
        (match jsonParse (lastLine outputData) with
         | .ok result => .parsed result
         | .error message => .parseError message)) := by
  have hlen : outputData.length > 0 ↔ outputData ≠ "" := by
    rcases outputData with ⟨cs⟩
    cases cs with
    | nil => simp [String.length]
    | cons c rest => simp [String.length, String.ext_iff]
  have hyes : code = some 0 ∧ outputData ≠ "" →
      onClose jsonParse code outputData =
        (match jsonParse (lastLine outputData) with
         | .ok result => .parsed result
         | .error message => .parseError message) := by
    intro h
    unfold onClose
    rw [if_pos ⟨h.1, hlen.2 h.2⟩]
  have hno : ¬ (code = some 0 ∧ outputData ≠ "") →
      onClose jsonParse code outputData = .notAttempted := by
    intro h
    unfold onClose
    rw [if_neg (fun hc => h ⟨hc.1, hlen.1 hc.2⟩)]
  refine ⟨⟨?_, hno⟩, ?_, hyes⟩
  · intro hna hc
    rw [hyes hc] at hna
    cases hj : jsonParse (lastLine outputData) <;> rw [hj] at hna <;> simp at hna
  · rintro ⟨result, hr⟩
    by_contra hc
    rw [hno hc] at hr
    simp at hr

theorem onClose_attempted_iff_witness :
    onClose (fun text => (Except.ok text : Except String String)) (some 1)
      "\x7b\"success\": true\x7d\n" = .notAttempted ∧
    onClose (fun text => (Except.ok text : Except String String)) none
      "\x7b\"success\": true\x7d\n" = .notAttempted ∧
    onClose (fun text => (Except.ok text : Except String String)) (some 0) "" = .notAttempted :=
  ⟨(onClose_attempted_iff _ (some 1) "\x7b\"success\": true\x7d\n").1.2 (by decide),
   (onClose_attempted_iff _ none "\x7b\"success\": true\x7d\n").1.2 (by decide),
   (onClose_attempted_iff _ (some 0) "").1.2 (by decide)⟩


/-! ## Invariants of the cache -/

/-- C27: starting from the empty cache, after any sequence of `refreshCache`
(either outcome), `loadFallbackProducts`, `addToCache` and `removeFromCache`,
every key of `productCache` is `normalizeProductName` of the `product_name`
stored under it; hence whenever `getProductByName(n)` returns a product, the
normalized name of that product is the normalized `n`. -/
theorem cache_keys_normalized (ops : List CacheOp) :
    (∀ e ∈ (runOps Service.new ops).productCache,
      e.1 = normalizeProductName e.2.product_name) ∧
    (∀ (w : World) (n : String) (p : Product),
      (getProductByName (runOps Service.new ops) w n).1 = some p →
      normalizeProductName p.product_name = normalizeProductName n) := by
  have hinv := keys_normalized_runOps ops Service.new (by intro e he; simp [Service.new] at he)
  refine ⟨hinv, ?_⟩
  intro w n p hp
  have hmem : (normalizeProductName n, p) ∈
      (getAllProducts (runOps Service.new ops) w).2.productCache := mem_of_mapGet _ _ _ hp
  have hkeys : ∀ e ∈ (getAllProducts (runOps Service.new ops) w).2.productCache,
      e.1 = normalizeProductName e.2.product_name := by
    by_cases hx : isCacheExpired (runOps Service.new ops) w.now = true
    · have e1 : (getAllProducts (runOps Service.new ops) w).2 =
          refreshCache (runOps Service.new ops) w := by simp [getAllProducts, hx]
      rw [e1]
      exact keys_normalized_refreshCache _ w
    · have e1 : (getAllProducts (runOps Service.new ops) w).2 = runOps Service.new ops := by
        simp [getAllProducts, hx]
      rw [e1]
      exact hinv
  exact (hkeys _ hmem).symm

theorem cache_keys_normalized_witness :
    (getProductByName
        (runOps Service.new
          [.refresh ⟨1000, some [⟨"A1", "Green  Tea", "Beverage", true⟩]⟩,
           .add ⟨"X1", " KIWI", "Fruit"⟩, .remove "green tea", .loadFallback 1500,
           .add ⟨"X2", "Bread  ", "Organic"⟩])
        ⟨2000, none⟩ "BREAD").1 = some ⟨"X2", "Bread  ", "Organic"⟩ ∧
    normalizeProductName "Bread  " = normalizeProductName "BREAD" :=
  ⟨by decide,
   (cache_keys_normalized
      [.refresh ⟨1000, some [⟨"A1", "Green  Tea", "Beverage", true⟩]⟩,
       .add ⟨"X1", " KIWI", "Fruit"⟩, .remove "green tea", .loadFallback 1500,
       .add ⟨"X2", "Bread  ", "Organic"⟩]).2 ⟨2000, none⟩ "BREAD" ⟨"X2", "Bread  ", "Organic"⟩
      (by decide)⟩


/-- C24, as stated, fails: after a first refresh has completed (here the
fallback load), a further `refreshCache` against a reachable store without
active products leaves an empty product map, and the lookups that follow
observe it. -/
theorem lookup_observes_empty_cache :
    (loadFallbackProducts Service.new 1000).productCache ≠ [] ∧
    (refreshCache (loadFallbackProducts Service.new 1000) ⟨2000, some []⟩).productCache = [] ∧
    (getAllProducts (refreshCache (loadFallbackProducts Service.new 1000) ⟨2000, some []⟩)
        ⟨3000, some []⟩).1 = [] ∧
    (getProductByName (refreshCache (loadFallbackProducts Service.new 1000) ⟨2000, some []⟩)
        ⟨3000, some []⟩ "Milk").1 = none := by
  decide

/-- C24, amended: let any number of `refreshCache` and `getProductByName` calls
be made on the service as constructed, and let the event loop resume them in
any order, each time up to the next `await`.  Then every read of the map by a
lookup comes after a whole refresh block (its own or another call's), with
nothing but reads in between, and observes exactly the map that block builds:
never the cleared or half-filled map that exists inside a block.  The map read
is empty only when the query of that refresh succeeded without any active
product; it is not empty after a fallback load or a query that returned an
active product.  The block is `refreshCache` run from start to end, and right
after its first step the map is empty. -/
theorem lookups_read_whole_refreshes (calls : List Call) (schedule : List Nat) :
    (∀ o ∈ ((Machine.start calls).run schedule).log,
      ∃ (pre : List Instr) (w : World) (post : List Instr),
        o.before = pre ++ refreshBlock w ++ post ∧
        (∀ i ∈ post, ∃ name, i = Instr.read name) ∧
        o.cache = (refreshCache Service.new w).productCache ∧
        o.result =
          mapGet (refreshCache Service.new w).productCache (normalizeProductName o.name) ∧
        (o.cache = [] ↔ ∃ docs, w.store = some docs ∧ findActive docs = [])) ∧
    (∀ (s : Service) (w : World),
      (refreshBlock w).foldl Instr.exec s = refreshCache s w ∧
      (((refreshBlock w).take 1).foldl Instr.exec s).productCache = []) := by
  refine ⟨?_, fun s w => ⟨foldl_exec_refreshBlock s w, refreshBlock_first s w⟩⟩
  intro o ho
  obtain ⟨⟨pre, w, post, h1, h2, h3⟩, h4⟩ :=
    (consistent_run schedule _ (consistent_start calls)).2.1 o ho
  refine ⟨pre, w, post, h1, h2, h3, ?_, ?_⟩
  · rw [h4, h3]
  · rw [h3]
    exact refreshCache_productCache_eq_nil Service.new w

theorem lookups_read_whole_refreshes_witness :
    (((Machine.start
        [Call.getProductByName 1000 ⟨1100, none⟩ "Milk",
         Call.refreshCache ⟨1200, some [⟨"A1", "Green Tea", "Beverage", true⟩]⟩,
         Call.getProductByName 1300 ⟨0, none⟩ "green  tea"]).run
        [0, 1, 0, 1, 2, 0]).log.map (fun o => o.result)) =
      [some ⟨"A1", "Green Tea", "Beverage"⟩, none] ∧
    ∀ o ∈ ((Machine.start
        [Call.getProductByName 1000 ⟨1100, none⟩ "Milk",
         Call.refreshCache ⟨1200, some [⟨"A1", "Green Tea", "Beverage", true⟩]⟩,
         Call.getProductByName 1300 ⟨0, none⟩ "green  tea"]).run
        [0, 1, 0, 1, 2, 0]).log,
      ∃ (pre : List Instr) (w : World) (post : List Instr),
        o.before = pre ++ refreshBlock w ++ post ∧
        (∀ i ∈ post, ∃ name, i = Instr.read name) ∧
        o.cache = (refreshCache Service.new w).productCache ∧
        o.result =
          mapGet (refreshCache Service.new w).productCache (normalizeProductName o.name) ∧
        (o.cache = [] ↔ ∃ docs, w.store = some docs ∧ findActive docs = []) :=
  ⟨by decide,
   (lookups_read_whole_refreshes
      [Call.getProductByName 1000 ⟨1100, none⟩ "Milk",
       Call.refreshCache ⟨1200, some [⟨"A1", "Green Tea", "Beverage", true⟩]⟩,
       Call.getProductByName 1300 ⟨0, none⟩ "green  tea"]
      [0, 1, 0, 1, 2, 0]).1⟩

/-- C29: `addToCache` does not touch the last-refresh timestamp, so a cache
that is unset or stale stays so; the next `getProductByName` then refreshes
and returns for every name what it would have returned without the added
entry; for the name just added it returns a product only if the reloaded
source holds that name, the fallback table when the store is unreachable and
the active products of the store otherwise, and then the record of the source. -/
theorem addToCache_discarded_when_stale (s : Service) (w : World) (p : Product) (n : String)
    (hstale : isCacheExpired s w.now = true) :
    (addToCache s p).lastCacheUpdate = s.lastCacheUpdate ∧
    isCacheExpired (addToCache s p) w.now = true ∧
    (getProductByName (addToCache s p) w n).1 = (getProductByName s w n).1 ∧
    (getProductByName (addToCache s p) w p.product_name).1 =
      mapGet (refreshCache Service.new w).productCache (normalizeProductName p.product_name) ∧
    (∀ q, (getProductByName (addToCache s p) w p.product_name).1 = some q →
      (w.store = none ∧ q ∈ fallbackProducts ∧
        normalizeProductName q.product_name = normalizeProductName p.product_name) ∨
      (∃ docs d, w.store = some docs ∧ d ∈ docs ∧ d.is_active = true ∧
        normalizeProductName d.product_name = normalizeProductName p.product_name ∧
        q = ⟨d.product_id, d.product_name, d.category⟩)) := by
  have hstale1 : isCacheExpired (addToCache s p) w.now = true := hstale
  have hlook : ∀ (s1 : Service) (m : String), isCacheExpired s1 w.now = true →
      (getProductByName s1 w m).1 =
        mapGet (refreshCache Service.new w).productCache (normalizeProductName m) := by
    intro s1 m h1
    simp only [getProductByName, h1, if_true]
    rw [refreshCache_productCache_indep s1 Service.new w]
  refine ⟨rfl, hstale1, ?_, hlook _ _ hstale1, ?_⟩
  · rw [hlook _ n hstale1, hlook s n hstale]
  · intro q hq
    rw [hlook _ _ hstale1] at hq
    exact mapGet_refreshCache_source Service.new w _ q hq

theorem addToCache_discarded_when_stale_witness :
    isCacheExpired Service.new 2000 = true ∧
    (getProductByName (addToCache Service.new ⟨"X1", "Kiwi", "Fruit"⟩)
        ⟨2000, some [⟨"P001", "Milk", "Dairy", true⟩]⟩ "Kiwi").1 =
      (getProductByName Service.new ⟨2000, some [⟨"P001", "Milk", "Dairy", true⟩]⟩ "Kiwi").1 ∧
    (getProductByName (addToCache Service.new ⟨"X1", "Kiwi", "Fruit"⟩)
        ⟨2000, some [⟨"P001", "Milk", "Dairy", true⟩]⟩ "Kiwi").1 = none :=
  ⟨by decide,
   (addToCache_discarded_when_stale Service.new ⟨2000, some [⟨"P001", "Milk", "Dairy", true⟩]⟩
      ⟨"X1", "Kiwi", "Fruit"⟩ "Kiwi" (by decide)).2.2.1,
   by decide⟩


/-! ## Normalization -/

/-- C28, counterexample: U+1D400 (mathematical bold capital A) is an upper-case
letter, and `normalizeProductName` returns the one-character name made of it
unchanged: it has no lower-case form, so `toLowerCase` leaves it in place. -/
theorem normalizeProductName_keeps_upper_case_letter :
    isUpperCaseLetter (Char.ofNat 0x1D400) = true ∧
    normalizeProductName (String.mk [Char.ofNat 0x1D400]) = String.mk [Char.ofNat 0x1D400] := by
  decide!

/-- C28 (amended): `normalizeProductName` is idempotent, and for every string
its result is left unchanged by `toLowerCase`, as a whole and character by
character (it contains no letter `A` to `Z` and no other letter that has a
lower-case form), neither starts nor ends with white space, contains no white
space other than the space, and has no two spaces next to each other. -/
theorem normalizeProductName_normal (name : String) :
    normalizeProductName (normalizeProductName name) = normalizeProductName name ∧
    toLowerCase (normalizeProductName name).data = (normalizeProductName name).data ∧
    (∀ c ∈ (normalizeProductName name).data,
      toLowerCase [c] = [c] ∧ ¬ ('A'.toNat ≤ c.toNat ∧ c.toNat ≤ 'Z'.toNat)) ∧
    (∀ c, (normalizeProductName name).data.head? = some c → isWhiteSpace c = false) ∧
    (∀ c, (normalizeProductName name).data.getLast? = some c → isWhiteSpace c = false) ∧
    (∀ c ∈ (normalizeProductName name).data, isWhiteSpace c = true → c = ' ') ∧
    (∀ (front back : List Char) (a b : Char),
      (normalizeProductName name).data = front ++ a :: b :: back → ¬ (a = ' ' ∧ b = ' ')) := by
  have hdata : (normalizeProductName name).data =
      replaceRuns false (trim (toLowerCase name.data)) := rfl
  have hlow : ∀ c ∈ (normalizeProductName name).data,
      lowerChar c = c ∧ c.toNat ≠ 0x03A3 ∧ c.toNat ≠ 0x0130 := by
    intro c hc
    rw [hdata] at hc
    rcases replaceRuns_mem false _ c hc with h | h
    · rw [h]
      decide
    · exact lowerFrom_mem false _ c (trim_mem _ c h)
  have hws : ∀ c ∈ (normalizeProductName name).data, isWhiteSpace c = true → c = ' ' := by
    rw [hdata]
    exact replaceRuns_whitespace false _
  have hchain : List.Chain' (fun a b => ¬ (isWhiteSpace a = true ∧ isWhiteSpace b = true))
      (normalizeProductName name).data := by
    rw [hdata]
    exact replaceRuns_chain false _
  have hhead : ∀ c, (normalizeProductName name).data.head? = some c →
      isWhiteSpace c = false := by
    intro c hc
    rw [hdata] at hc
    cases ht : trim (toLowerCase name.data) with
    | nil => rw [ht] at hc; simp [replaceRuns] at hc
    | cons d rest =>
      have hd : isWhiteSpace d = false := trim_head _ d (by rw [ht]; rfl)
      rw [ht] at hc
      simp only [replaceRuns, hd, Bool.false_eq_true, if_false, List.head?_cons,
        Option.some.injEq] at hc
      rw [← hc]
      exact hd
  have hlast : ∀ c, (normalizeProductName name).data.getLast? = some c →
      isWhiteSpace c = false := by
    intro c hc
    rw [hdata] at hc
    cases ht : (trim (toLowerCase name.data)).getLast? with
    | none =>
      rw [List.getLast?_eq_none_iff] at ht
      rw [ht] at hc
      simp [replaceRuns] at hc
    | some d =>
      have hd : isWhiteSpace d = false := trim_getLast _ d ht
      rw [replaceRuns_getLast false _ d ht hd] at hc
      have : d = c := by simpa using hc
      rw [← this]
      exact hd
  have h1 : toLowerCase (normalizeProductName name).data = (normalizeProductName name).data :=
    lowerFrom_fixed false _ hlow
  have hidem : normalizeProductName (normalizeProductName name) = normalizeProductName name := by
    have h2 : trim (normalizeProductName name).data = (normalizeProductName name).data :=
      trim_fixed _ hhead hlast
    have h3 : replaceRuns false (normalizeProductName name).data =
        (normalizeProductName name).data := (replaceRuns_fixed _ hws hchain hlast).1
    show String.mk (replaceWhiteSpaceRuns (trim (toLowerCase (normalizeProductName name).data)))
      = normalizeProductName name
    rw [h1, h2]
    unfold replaceWhiteSpaceRuns
    rw [h3]
  refine ⟨hidem, h1, ?_, hhead, hlast, hws, ?_⟩
  · intro c hc
    exact ⟨(toLowerCase_singleton c).2 (hlow c hc), not_upper_of_lowerChar_eq c (hlow c hc).1⟩
  · intro front back a b hsplit hab
    rw [hsplit] at hchain
    have := (List.chain'_append_cons_cons.1 hchain).2.1
    apply this
    rw [hab.1, hab.2]
    exact ⟨by decide, by decide⟩

theorem normalizeProductName_normal_witness :
    normalizeProductName "  CAFÉ \t\n Crème " = "café crème" ∧
    normalizeProductName (normalizeProductName "  CAFÉ \t\n Crème ") =
      normalizeProductName "  CAFÉ \t\n Crème " :=
  ⟨by decide, (normalizeProductName_normal "  CAFÉ \t\n Crème ").1⟩


/-! ## The shape of synthesized identifiers -/

/-- C30: in every branch `generateProductId` returns `P` followed by at least
three decimal digits: `P001` when the store has no product or when the highest
identifier contains no digit; `P` and the incremented number, padded with zeros
to three digits, when it does and that number is below `10^15`; `P` and the
last six digits of the timestamp when the store query fails and the timestamp
has at least six digits. -/
theorem generateProductId_shape (now : Nat) (name : String) :
    (∀ docs, findHighest docs = none →
      generateProductId ⟨now, some docs⟩ name = "P001") ∧
    (∀ docs last, findHighest docs = some last → removeNonDigits last.product_id.data = [] →
      generateProductId ⟨now, some docs⟩ name = "P001") ∧
    PFollowedByDigits "P001" ∧
    (∀ docs last, findHighest docs = some last →
      digitsValue (removeNonDigits last.product_id.data) < 10 ^ 15 →
      generateProductId ⟨now, some docs⟩ name =
        String.mk ('P' :: padStart 3 '0'
          (decimal (digitsValue (removeNonDigits last.product_id.data) + 1))) ∧
      PFollowedByDigits (generateProductId ⟨now, some docs⟩ name)) ∧
    (100000 ≤ now →
      generateProductId ⟨now, none⟩ name = String.mk ('P' :: lastDigits 6 now) ∧
      (lastDigits 6 now).length = 6 ∧
      PFollowedByDigits (generateProductId ⟨now, none⟩ name)) := by
  refine ⟨?_, ?_, ?_, ?_, ?_⟩
  · intro docs hnone
    simp only [generateProductId, hnone]
  · intro docs last hlast hnodigit
    have hlt : digitsValue (removeNonDigits last.product_id.data) < 2 ^ 53 := by
      rw [hnodigit]
      decide
    rw [generateProductId_of_highest now docs last name hlast hlt, hnodigit]
    decide
  · exact ⟨"001".data, rfl, by decide, by decide⟩
  · intro docs last hlast hbound
    have hlt : digitsValue (removeNonDigits last.product_id.data) < 2 ^ 53 :=
      Nat.lt_trans hbound (by norm_num)
    have heq := generateProductId_of_highest now docs last name hlast hlt
    refine ⟨heq, ?_⟩
    have hpad := padStart_three_digits _
      (decimal_isDigit (digitsValue (removeNonDigits last.product_id.data) + 1))
    exact ⟨_, heq, hpad.1, hpad.2⟩
  · intro hnow
    have heq : generateProductId ⟨now, none⟩ name = String.mk ('P' :: lastDigits 6 now) := by
      simp only [generateProductId]
      rw [sliceLast_six_decimal now hnow]
    refine ⟨heq, lastDigits_length 6 now, _, heq, ?_, lastDigits_isDigit 6 now⟩
    rw [lastDigits_length]
    decide

theorem generateProductId_shape_witness :
    findHighest [⟨"SKU-41", "Bread", "Bakery", true⟩, ⟨"P7", "Milk", "Dairy", false⟩] =
      some ⟨"SKU-41", "Bread", "Bakery", true⟩ ∧
    digitsValue (removeNonDigits "SKU-41".data) < 10 ^ 15 ∧
    generateProductId
        ⟨2000, some [⟨"SKU-41", "Bread", "Bakery", true⟩, ⟨"P7", "Milk", "Dairy", false⟩]⟩
        "Kiwi" = "P042" ∧
    PFollowedByDigits
      (generateProductId
        ⟨2000, some [⟨"SKU-41", "Bread", "Bakery", true⟩, ⟨"P7", "Milk", "Dairy", false⟩]⟩
        "Kiwi") :=
  ⟨by decide, by decide, by decide,
   ((generateProductId_shape 2000 "Kiwi").2.2.2.1
      [⟨"SKU-41", "Bread", "Bakery", true⟩, ⟨"P7", "Milk", "Dairy", false⟩]
      ⟨"SKU-41", "Bread", "Bakery", true⟩ (by decide) (by decide)).2⟩


/-! ## The stock route -/

/-- C26, as stated, fails beyond the range in which JavaScript numbers are
exact: with one city holding 9007199254740992 units, submitting 1 for a new
city leaves the overall stock level at 9007199254740992, not the sum
9007199254740993; and submitting 10^21 stores the stock level 1, because
`parseInt` reads the string `1e+21`. -/
theorem patchStock_beyond_exact_range :
    patchStock 5000
        (some ⟨"P001", some (.finite 9007199254740992),
          [⟨"Pune", some (.finite 9007199254740992), 0⟩], 0⟩)
        "Delhi" (some 1) =
      .ok ⟨"P001", some (.finite 9007199254740992),
        [⟨"Pune", some (.finite 9007199254740992), 0⟩, ⟨"Delhi", some (.finite 1), 5000⟩],
        5000⟩ ∧
    exactTotal [⟨"Pune", some (.finite 9007199254740992), 0⟩, ⟨"Delhi", some (.finite 1), 5000⟩]
      = 9007199254740993 ∧
    patchStock 5000 (some ⟨"P001", some (.finite 10), [⟨"Pune", some (.finite 10), 0⟩], 0⟩)
        "Pune" (some 1000000000000000000000) =
      .ok ⟨"P001", some (.finite 1), [⟨"Pune", some (.finite 1), 5000⟩], 5000⟩ := by
  decide!

/-- C26, amended: for a product whose city stock levels are non-negative
integers and a submitted integer `stock_level >= 0` such that the sum of the
city stock levels after the update is at most `2^53`, the stock update
succeeds; the first city of that name has its stock level set to the submitted
integer in place (and its update time stamped), or the city is appended when
none has that name; every other city entry is unchanged; and the overall
`stock_level` of the product is the sum of the stock levels of all its cities. -/
theorem patchStock_updates (now : Nat) (product : ProductDoc) (cityName : String)
    (submitted : Nat)
    (hlevels : ∀ c ∈ product.cities, ∃ m, c.stock_level = some (.finite m))
    (hbound : exactTotal (updateCities product.cities cityName (some (.finite submitted)) now)
      ≤ 2 ^ 53) :
    ∃ updated : ProductDoc,
      patchStock now (some product) cityName (some (submitted : Int)) = .ok updated ∧
      updated.product_id = product.product_id ∧
      (∀ pre c post, product.cities = pre ++ c :: post →
        (∀ q ∈ pre, q.city_name ≠ cityName) → c.city_name = cityName →
        updated.cities =
          pre ++ { city_name := cityName, stock_level := some (.finite submitted),
                   last_updated := now } :: post) ∧
      ((∀ q ∈ product.cities, q.city_name ≠ cityName) →
        updated.cities =
          product.cities ++ [{ city_name := cityName, stock_level := some (.finite submitted),
                               last_updated := now }]) ∧
      updated.stock_level = some (.finite (exactTotal updated.cities)) := by
  have hsub : submitted ≤ 2 ^ 53 :=
    Nat.le_trans
      (le_exactTotal_updateCities product.cities cityName (some (.finite submitted)) now) hbound
  have hparse : parseIntOfNumber (toDouble ((submitted : Int)).toNat) =
      some (.finite submitted) := by
    rw [Int.toNat_ofNat]
    exact parseIntOfNumber_exact submitted hsub
  have hneg : ¬ ((submitted : Int) < 0) := by omega
  refine ⟨{ product with
            cities := updateCities product.cities cityName (some (.finite submitted)) now,
            stock_level :=
              totalStock (updateCities product.cities cityName (some (.finite submitted)) now),
            updated_at := now }, ?_, rfl, ?_, ?_, ?_⟩
  · simp only [patchStock, hneg, if_false, hparse]
  · intro pre c post hsplit hpre hc
    show updateCities product.cities cityName (some (.finite submitted)) now = _
    rw [hsplit, updateCities_of_first pre post c cityName _ now hpre hc]
  · intro habsent
    show updateCities product.cities cityName (some (.finite submitted)) now = _
    rw [updateCities_of_absent product.cities cityName _ now habsent]
  · show totalStock (updateCities product.cities cityName (some (.finite submitted)) now) = _
    exact totalStock_exact _
      (updateCities_levels product.cities cityName submitted now hlevels) hbound

theorem patchStock_updates_witness :
    patchStock 5000
        (some ⟨"P001", some (.finite 17),
          [⟨"Pune", some (.finite 10), 0⟩, ⟨"Delhi", some (.finite 3), 7⟩,
           ⟨"Delhi", some (.finite 4), 8⟩], 9⟩)
        "Delhi" (some 25) =
      .ok ⟨"P001", some (.finite 39),
        [⟨"Pune", some (.finite 10), 0⟩, ⟨"Delhi", some (.finite 25), 5000⟩,
         ⟨"Delhi", some (.finite 4), 8⟩], 5000⟩ ∧
    ∃ updated : ProductDoc,
      patchStock 5000
          (some ⟨"P001", some (.finite 17),
            [⟨"Pune", some (.finite 10), 0⟩, ⟨"Delhi", some (.finite 3), 7⟩,
             ⟨"Delhi", some (.finite 4), 8⟩], 9⟩)
          "Delhi" (some ((25 : Nat) : Int)) = .ok updated ∧
      updated.stock_level = some (.finite (exactTotal updated.cities)) := by
  refine ⟨by decide, ?_⟩
  obtain ⟨updated, h1, _, _, _, h5⟩ :=
    patchStock_updates 5000
      ⟨"P001", some (.finite 17),
        [⟨"Pune", some (.finite 10), 0⟩, ⟨"Delhi", some (.finite 3), 7⟩,
         ⟨"Delhi", some (.finite 4), 8⟩], 9⟩
      "Delhi" 25
      (by
        intro c hc
        simp only [List.mem_cons, List.mem_singleton, List.not_mem_nil, or_false] at hc
        rcases hc with rfl | rfl | rfl <;> exact ⟨_, rfl⟩)
      (by decide)
  exact ⟨updated, h1, h5⟩


end SmartMandi
